import Mathlib

/-!
# turbomath: vectors, quaternions and table-driven scalar approximations

A shallow embedding of `lib/turbomath/turbomath.cpp`.

Conventions of the embedding.

* A C `float` is an exact number.  The algebra of `vector` and `quaternion` is written over an
  arbitrary linearly ordered field `α` (rounding is not modelled), so that the same definitions
  run over `ℚ` and can be read over `ℝ`.
* `turbo::inv_sqrt` is bit-level code on `float`.  The vector and quaternion operations take the
  inverse square root they call as a parameter `inv_sqrt : α → α`; the bit-level routine itself is
  embedded separately on IEEE-754 binary32 bit patterns (section `Float32`).  `inv_sqrt_val` is
  that routine as a function on `ℚ` (the radicand is rounded to a `float`, the routine runs on
  its bit pattern); statements about `normalize` and `from_two_unit_vectors` in the program are
  made with `inv_sqrt_val` for the parameter, those about the idealisation with `1/sqrt` over
  `ℝ`.
* The table-driven functions (`atan`, `atan2`, `asin`, `alt`) are written over `ℚ`;
  `static_cast<int16_t>` is truncation toward zero, defined by C++ only when the truncated value
  fits `int16_t`: `atan_fuel` and `asin_fuel` return no result outside that range.
* A mutating member function returns the new value of the object.
-/

namespace turbomath

/-! ## vector -/

/-- The class `turbomath::vector`: three `float` members. -/
structure vector (α : Type) where
  x : α
  y : α
  z : α
deriving DecidableEq, Repr

/-- The class `turbomath::quaternion`: four `float` members. -/
structure quaternion (α : Type) where
  w : α
  x : α
  y : α
  z : α
deriving DecidableEq, Repr

section algebra

variable {α : Type} [LinearOrderedField α]

/-- `vector::vector()`. -/
def vector.zero : vector α := ⟨0, 0, 0⟩

/-- `vector::sqrd_norm`. -/
def vector.sqrd_norm (u : vector α) : α := u.x * u.x + u.y * u.y + u.z * u.z

/-- `vector::norm`. -/
def vector.norm (inv_sqrt : α → α) (u : vector α) : α :=
  1 / inv_sqrt (u.x * u.x + u.y * u.y + u.z * u.z)

/-- `vector::normalize` (and `vector::normalized`, which computes the same value). -/
def vector.normalize (inv_sqrt : α → α) (u : vector α) : vector α :=
  let recip_norm := inv_sqrt (u.x * u.x + u.y * u.y + u.z * u.z)
  ⟨u.x * recip_norm, u.y * recip_norm, u.z * recip_norm⟩

/-- `vector::operator+`. -/
def vector.add (u v : vector α) : vector α := ⟨u.x + v.x, u.y + v.y, u.z + v.z⟩

/-- `vector::operator-`. -/
def vector.sub (u v : vector α) : vector α := ⟨u.x - v.x, u.y - v.y, u.z - v.z⟩

/-- `vector::operator*(float)`. -/
def vector.smul (u : vector α) (s : α) : vector α := ⟨u.x * s, u.y * s, u.z * s⟩

/-- `vector::operator/(float)`. -/
def vector.sdiv (u : vector α) (s : α) : vector α := ⟨u.x / s, u.y / s, u.z / s⟩

/-- `vector::dot`. -/
def vector.dot (u v : vector α) : α := u.x * v.x + u.y * v.y + u.z * v.z

/-- `vector::cross`. -/
def vector.cross (u v : vector α) : vector α :=
  ⟨u.y * v.z - u.z * v.y,
   u.z * v.x - u.x * v.z,
   u.x * v.y - u.y * v.x⟩

/-! ## quaternion -/

/-- `quaternion::quaternion()`: the identity rotation. -/
def quaternion.identity : quaternion α := ⟨1, 0, 0, 0⟩

/-- `quaternion::normalize`. -/
def quaternion.normalize (inv_sqrt : α → α) (q : quaternion α) : quaternion α :=
  let recip_norm := inv_sqrt (q.w * q.w + q.x * q.x + q.y * q.y + q.z * q.z)
  ⟨q.w * recip_norm, q.x * recip_norm, q.y * recip_norm, q.z * recip_norm⟩

/-- The sum of the squared components of a quaternion, as `normalize` forms it. -/
def quaternion.sum_sq (q : quaternion α) : α := q.w * q.w + q.x * q.x + q.y * q.y + q.z * q.z

/-- `quaternion::operator*(const quaternion)`. -/
def quaternion.mul (p q : quaternion α) : quaternion α :=
  ⟨p.w * q.w - p.x * q.x - p.y * q.y - p.z * q.z,
   p.w * q.x + p.x * q.w - p.y * q.z + p.z * q.y,
   p.w * q.y + p.x * q.z + p.y * q.w - p.z * q.x,
   p.w * q.z - p.x * q.y + p.y * q.x + p.z * q.w⟩

/-- `quaternion::operator*=`: builds `q_out` and stores its four members in the object. -/
def quaternion.mul_assign (p q : quaternion α) : quaternion α :=
  let q_out : quaternion α :=
    ⟨p.w * q.w - p.x * q.x - p.y * q.y - p.z * q.z,
     p.w * q.x + p.x * q.w - p.y * q.z + p.z * q.y,
     p.w * q.y + p.x * q.z + p.y * q.w - p.z * q.x,
     p.w * q.z - p.x * q.y + p.y * q.x + p.z * q.w⟩
  ⟨q_out.w, q_out.x, q_out.y, q_out.z⟩

/-- `quaternion::rotate` (and `quaternion::operator*(const vector)`, whose body is the same). -/
def quaternion.rotate (q : quaternion α) (v : vector α) : vector α :=
  ⟨(1 - 2 * q.y * q.y - 2 * q.z * q.z) * v.x + (2 * (q.x * q.y + q.w * q.z)) * v.y
      + 2 * (q.x * q.z - q.w * q.y) * v.z,
   (2 * (q.x * q.y - q.w * q.z)) * v.x + (1 - 2 * q.x * q.x - 2 * q.z * q.z) * v.y
      + 2 * (q.y * q.z + q.w * q.x) * v.z,
   (2 * (q.x * q.z + q.w * q.y)) * v.x + 2 * (q.y * q.z - q.w * q.x) * v.y
      + (1 - 2 * q.x * q.x - 2 * q.y * q.y) * v.z⟩

/-- `quaternion::inverse`. -/
def quaternion.inverse (q : quaternion α) : quaternion α := ⟨q.w, -q.x, -q.y, -q.z⟩

/-- `quaternion::invert`. -/
def quaternion.invert (q : quaternion α) : quaternion α :=
  ⟨q.w, q.x * (-1), q.y * (-1), q.z * (-1)⟩

/-- `quaternion::from_two_unit_vectors`; `q` is the object the member function is called on. -/
def quaternion.from_two_unit_vectors (inv_sqrt : α → α) (q : quaternion α) (u v : vector α) :
    quaternion α :=
  let d := u.dot v
  if d ≥ 1 then
    { q with w := 1, x := 0, y := 0, z := 0 }
  else
    let invs := inv_sqrt (2 * (1 + d))
    let xyz := (u.cross v).smul invs
    quaternion.normalize inv_sqrt { q with w := (1 / 2) / invs, x := xyz.x, y := xyz.y, z := xyz.z }

/-- The Hamilton product as the specification writes it out, component by component. -/
def hamilton_spec (p q : quaternion α) : quaternion α :=
  ⟨p.w * q.w - p.x * q.x - p.y * q.y - p.z * q.z,
   p.w * q.x + p.x * q.w + p.y * q.z - p.z * q.y,
   p.w * q.y - p.x * q.z + p.y * q.w + p.z * q.x,
   p.w * q.z + p.x * q.y - p.y * q.x + p.z * q.w⟩

end algebra

/-! ## Lookup tables and scalar approximations -/

/-- The constant `M_PI` as the source defines it when the platform does not. -/
def M_PI : ℚ := 314159265359 / 100000000000

/-- The constant `atan_max_x`. -/
def atan_max_x : ℚ := 1

/-- The constant `atan_min_x`. -/
def atan_min_x : ℚ := 0

/-- The constant `atan_num_entries`. -/
def atan_num_entries : Int := 500

/-- The constant `atan_scale_factor`. -/
def atan_scale_factor : ℚ := 10000

/-- The array `atan_lookup_table[500]`. -/
def atan_lookup_table : List Int := [
  0, 20, 40, 60, 80, 100, 120, 140, 160, 180,
  200, 220, 240, 260, 280, 300, 320, 340, 360, 380,
  400, 420, 440, 460, 480, 500, 520, 539, 559, 579,
  599, 619, 639, 659, 679, 699, 719, 739, 759, 778,
  798, 818, 838, 858, 878, 898, 917, 937, 957, 977,
  997, 1016, 1036, 1056, 1076, 1096, 1115, 1135, 1155, 1175,
  1194, 1214, 1234, 1253, 1273, 1293, 1312, 1332, 1352, 1371,
  1391, 1411, 1430, 1450, 1469, 1489, 1508, 1528, 1548, 1567,
  1587, 1606, 1626, 1645, 1664, 1684, 1703, 1723, 1742, 1762,
  1781, 1800, 1820, 1839, 1858, 1878, 1897, 1916, 1935, 1955,
  1974, 1993, 2012, 2032, 2051, 2070, 2089, 2108, 2127, 2146,
  2166, 2185, 2204, 2223, 2242, 2261, 2280, 2299, 2318, 2337,
  2355, 2374, 2393, 2412, 2431, 2450, 2469, 2487, 2506, 2525,
  2544, 2562, 2581, 2600, 2618, 2637, 2656, 2674, 2693, 2712,
  2730, 2749, 2767, 2786, 2804, 2823, 2841, 2859, 2878, 2896,
  2915, 2933, 2951, 2970, 2988, 3006, 3024, 3043, 3061, 3079,
  3097, 3115, 3133, 3151, 3169, 3187, 3206, 3224, 3241, 3259,
  3277, 3295, 3313, 3331, 3349, 3367, 3385, 3402, 3420, 3438,
  3456, 3473, 3491, 3509, 3526, 3544, 3561, 3579, 3596, 3614,
  3631, 3649, 3666, 3684, 3701, 3719, 3736, 3753, 3771, 3788,
  3805, 3822, 3839, 3857, 3874, 3891, 3908, 3925, 3942, 3959,
  3976, 3993, 4010, 4027, 4044, 4061, 4078, 4095, 4112, 4128,
  4145, 4162, 4179, 4195, 4212, 4229, 4245, 4262, 4278, 4295,
  4311, 4328, 4344, 4361, 4377, 4394, 4410, 4426, 4443, 4459,
  4475, 4491, 4508, 4524, 4540, 4556, 4572, 4588, 4604, 4620,
  4636, 4652, 4668, 4684, 4700, 4716, 4732, 4748, 4764, 4779,
  4795, 4811, 4827, 4842, 4858, 4874, 4889, 4905, 4920, 4936,
  4951, 4967, 4982, 4998, 5013, 5028, 5044, 5059, 5074, 5090,
  5105, 5120, 5135, 5150, 5166, 5181, 5196, 5211, 5226, 5241,
  5256, 5271, 5286, 5301, 5315, 5330, 5345, 5360, 5375, 5389,
  5404, 5419, 5434, 5448, 5463, 5477, 5492, 5507, 5521, 5535,
  5550, 5564, 5579, 5593, 5608, 5622, 5636, 5650, 5665, 5679,
  5693, 5707, 5721, 5736, 5750, 5764, 5778, 5792, 5806, 5820,
  5834, 5848, 5862, 5875, 5889, 5903, 5917, 5931, 5944, 5958,
  5972, 5985, 5999, 6013, 6026, 6040, 6053, 6067, 6080, 6094,
  6107, 6121, 6134, 6147, 6161, 6174, 6187, 6201, 6214, 6227,
  6240, 6253, 6267, 6280, 6293, 6306, 6319, 6332, 6345, 6358,
  6371, 6384, 6397, 6409, 6422, 6435, 6448, 6461, 6473, 6486,
  6499, 6511, 6524, 6537, 6549, 6562, 6574, 6587, 6599, 6612,
  6624, 6637, 6649, 6661, 6674, 6686, 6698, 6711, 6723, 6735,
  6747, 6760, 6772, 6784, 6796, 6808, 6820, 6832, 6844, 6856,
  6868, 6880, 6892, 6904, 6916, 6928, 6940, 6951, 6963, 6975,
  6987, 6998, 7010, 7022, 7033, 7045, 7057, 7068, 7080, 7091,
  7103, 7114, 7126, 7137, 7149, 7160, 7171, 7183, 7194, 7205,
  7217, 7228, 7239, 7250, 7261, 7273, 7284, 7295, 7306, 7317,
  7328, 7339, 7350, 7361, 7372, 7383, 7394, 7405, 7416, 7427,
  7438, 7448, 7459, 7470, 7481, 7491, 7502, 7513, 7524, 7534,
  7545, 7555, 7566, 7577, 7587, 7598, 7608, 7619, 7629, 7640,
  7650, 7660, 7671, 7681, 7691, 7702, 7712, 7722, 7733, 7743,
  7753, 7763, 7773, 7783, 7794, 7804, 7814, 7824, 7834, 7844]

/-- The constant `asin_max_x`. -/
def asin_max_x : ℚ := 1

/-- The constant `asin_min_x`. -/
def asin_min_x : ℚ := 0

/-- The constant `asin_num_entries`. -/
def asin_num_entries : Int := 500

/-- The constant `asin_scale_factor`. -/
def asin_scale_factor : ℚ := 10000

/-- The array `asin_lookup_table[501]`. -/
def asin_lookup_table : List Int := [
  0, 20, 40, 60, 80, 100, 120, 140, 160, 180,
  200, 220, 240, 260, 280, 300, 320, 340, 360, 380,
  400, 420, 440, 460, 480, 500, 520, 540, 560, 580,
  600, 620, 640, 660, 681, 701, 721, 741, 761, 781,
  801, 821, 841, 861, 881, 901, 921, 941, 961, 982,
  1002, 1022, 1042, 1062, 1082, 1102, 1122, 1142, 1163, 1183,
  1203, 1223, 1243, 1263, 1284, 1304, 1324, 1344, 1364, 1384,
  1405, 1425, 1445, 1465, 1485, 1506, 1526, 1546, 1566, 1587,
  1607, 1627, 1647, 1668, 1688, 1708, 1729, 1749, 1769, 1790,
  1810, 1830, 1851, 1871, 1891, 1912, 1932, 1952, 1973, 1993,
  2014, 2034, 2054, 2075, 2095, 2116, 2136, 2157, 2177, 2198,
  2218, 2239, 2259, 2280, 2300, 2321, 2341, 2362, 2382, 2403,
  2424, 2444, 2465, 2486, 2506, 2527, 2547, 2568, 2589, 2610,
  2630, 2651, 2672, 2692, 2713, 2734, 2755, 2775, 2796, 2817,
  2838, 2859, 2880, 2900, 2921, 2942, 2963, 2984, 3005, 3026,
  3047, 3068, 3089, 3110, 3131, 3152, 3173, 3194, 3215, 3236,
  3257, 3278, 3300, 3321, 3342, 3363, 3384, 3405, 3427, 3448,
  3469, 3490, 3512, 3533, 3554, 3576, 3597, 3618, 3640, 3661,
  3683, 3704, 3726, 3747, 3769, 3790, 3812, 3833, 3855, 3876,
  3898, 3920, 3941, 3963, 3985, 4006, 4028, 4050, 4072, 4093,
  4115, 4137, 4159, 4181, 4203, 4225, 4246, 4268, 4290, 4312,
  4334, 4357, 4379, 4401, 4423, 4445, 4467, 4489, 4511, 4534,
  4556, 4578, 4601, 4623, 4645, 4668, 4690, 4712, 4735, 4757,
  4780, 4802, 4825, 4848, 4870, 4893, 4916, 4938, 4961, 4984,
  5007, 5029, 5052, 5075, 5098, 5121, 5144, 5167, 5190, 5213,
  5236, 5259, 5282, 5305, 5329, 5352, 5375, 5398, 5422, 5445,
  5469, 5492, 5515, 5539, 5562, 5586, 5610, 5633, 5657, 5681,
  5704, 5728, 5752, 5776, 5800, 5824, 5848, 5872, 5896, 5920,
  5944, 5968, 5992, 6016, 6041, 6065, 6089, 6114, 6138, 6163,
  6187, 6212, 6236, 6261, 6286, 6311, 6335, 6360, 6385, 6410,
  6435, 6460, 6485, 6510, 6535, 6561, 6586, 6611, 6637, 6662,
  6687, 6713, 6739, 6764, 6790, 6816, 6841, 6867, 6893, 6919,
  6945, 6971, 6997, 7023, 7050, 7076, 7102, 7129, 7155, 7182,
  7208, 7235, 7262, 7288, 7315, 7342, 7369, 7396, 7423, 7450,
  7478, 7505, 7532, 7560, 7587, 7615, 7643, 7670, 7698, 7726,
  7754, 7782, 7810, 7838, 7867, 7895, 7923, 7952, 7981, 8009,
  8038, 8067, 8096, 8125, 8154, 8183, 8213, 8242, 8271, 8301,
  8331, 8360, 8390, 8420, 8450, 8481, 8511, 8541, 8572, 8602,
  8633, 8664, 8695, 8726, 8757, 8788, 8820, 8851, 8883, 8915,
  8947, 8979, 9011, 9043, 9076, 9108, 9141, 9174, 9207, 9240,
  9273, 9306, 9340, 9374, 9407, 9442, 9476, 9510, 9545, 9579,
  9614, 9649, 9684, 9720, 9755, 9791, 9827, 9863, 9900, 9936,
  9973, 10010, 10047, 10084, 10122, 10160, 10198, 10236, 10275, 10314,
  10353, 10392, 10432, 10471, 10512, 10552, 10593, 10634, 10675, 10717,
  10759, 10801, 10844, 10886, 10930, 10973, 11018, 11062, 11107, 11152,
  11198, 11244, 11290, 11337, 11385, 11433, 11481, 11530, 11580, 11630,
  11681, 11732, 11784, 11837, 11890, 11944, 11999, 12054, 12111, 12168,
  12226, 12285, 12346, 12407, 12469, 12532, 12597, 12663, 12730, 12799,
  12870, 12942, 13017, 13093, 13171, 13252, 13336, 13423, 13513, 13606,
  13705, 13808, 13917, 14033, 14157, 14293, 14442, 14612, 14813, 15075,
  15708]

/-- The constant `max_pressure`. -/
def max_pressure : Int := 106598

/-- The constant `min_pressure`. -/
def min_pressure : Int := 69681

/-- The constant `num_entries` of the altitude table. -/
def num_entries : Int := 500

/-- The array `alt_lookup_table[500]`. -/
def alt_lookup_table : List Int := [
  30467, 30384, 30301, 30218, 30135, 30052, 29970, 29887, 29804, 29722,
  29639, 29557, 29474, 29392, 29310, 29227, 29145, 29063, 28981, 28899,
  28818, 28736, 28654, 28573, 28491, 28410, 28328, 28247, 28166, 28084,
  28003, 27922, 27841, 27760, 27679, 27598, 27518, 27437, 27356, 27276,
  27195, 27115, 27035, 26954, 26874, 26794, 26714, 26634, 26554, 26474,
  26394, 26315, 26235, 26155, 26076, 25996, 25917, 25837, 25758, 25679,
  25600, 25521, 25442, 25363, 25284, 25205, 25126, 25047, 24969, 24890,
  24811, 24733, 24655, 24576, 24498, 24420, 24341, 24263, 24185, 24107,
  24029, 23952, 23874, 23796, 23718, 23641, 23563, 23486, 23408, 23331,
  23254, 23176, 23099, 23022, 22945, 22868, 22791, 22714, 22637, 22561,
  22484, 22407, 22331, 22254, 22178, 22101, 22025, 21949, 21872, 21796,
  21720, 21644, 21568, 21492, 21416, 21340, 21265, 21189, 21113, 21038,
  20962, 20887, 20811, 20736, 20661, 20585, 20510, 20435, 20360, 20285,
  20210, 20135, 20060, 19985, 19911, 19836, 19761, 19687, 19612, 19538,
  19463, 19389, 19315, 19240, 19166, 19092, 19018, 18944, 18870, 18796,
  18722, 18649, 18575, 18501, 18427, 18354, 18280, 18207, 18133, 18060,
  17987, 17914, 17840, 17767, 17694, 17621, 17548, 17475, 17402, 17329,
  17257, 17184, 17111, 17039, 16966, 16894, 16821, 16749, 16676, 16604,
  16532, 16460, 16387, 16315, 16243, 16171, 16099, 16027, 15956, 15884,
  15812, 15740, 15669, 15597, 15526, 15454, 15383, 15311, 15240, 15169,
  15098, 15026, 14955, 14884, 14813, 14742, 14671, 14600, 14530, 14459,
  14388, 14317, 14247, 14176, 14106, 14035, 13965, 13894, 13824, 13754,
  13684, 13613, 13543, 13473, 13403, 13333, 13263, 13193, 13123, 13054,
  12984, 12914, 12845, 12775, 12705, 12636, 12566, 12497, 12428, 12358,
  12289, 12220, 12151, 12081, 12012, 11943, 11874, 11805, 11737, 11668,
  11599, 11530, 11461, 11393, 11324, 11256, 11187, 11119, 11050, 10982,
  10913, 10845, 10777, 10709, 10641, 10572, 10504, 10436, 10368, 10300,
  10233, 10165, 10097, 10029, 9962, 9894, 9826, 9759, 9691, 9624,
  9556, 9489, 9422, 9354, 9287, 9220, 9153, 9086, 9018, 8951,
  8884, 8817, 8751, 8684, 8617, 8550, 8483, 8417, 8350, 8283,
  8217, 8150, 8084, 8018, 7951, 7885, 7819, 7752, 7686, 7620,
  7554, 7488, 7422, 7356, 7290, 7224, 7158, 7092, 7026, 6961,
  6895, 6829, 6764, 6698, 6633, 6567, 6502, 6436, 6371, 6306,
  6240, 6175, 6110, 6045, 5980, 5915, 5849, 5784, 5720, 5655,
  5590, 5525, 5460, 5395, 5331, 5266, 5201, 5137, 5072, 5008,
  4943, 4879, 4815, 4750, 4686, 4622, 4557, 4493, 4429, 4365,
  4301, 4237, 4173, 4109, 4045, 3981, 3917, 3854, 3790, 3726,
  3663, 3599, 3535, 3472, 3408, 3345, 3281, 3218, 3155, 3091,
  3028, 2965, 2902, 2838, 2775, 2712, 2649, 2586, 2523, 2460,
  2397, 2335, 2272, 2209, 2146, 2084, 2021, 1958, 1896, 1833,
  1771, 1708, 1646, 1583, 1521, 1459, 1396, 1334, 1272, 1210,
  1148, 1085, 1023, 961, 899, 837, 776, 714, 652, 590,
  528, 467, 405, 343, 282, 220, 158, 97, 35, -26,
  -87, -149, -210, -271, -333, -394, -455, -516, -577, -638,
  -699, -760, -821, -882, -943, -1004, -1065, -1126, -1186, -1247,
  -1308, -1369, -1429, -1490, -1550, -1611, -1671, -1732, -1792, -1852,
  -1913, -1973, -2033, -2094, -2154, -2214, -2274, -2334, -2394, -2454,
  -2514, -2574, -2634, -2694, -2754, -2814, -2874, -2933, -2993, -3053,
  -3112, -3172, -3232, -3291, -3351, -3410, -3469, -3529, -3588, -3648,
  -3707, -3766, -3825, -3885, -3944, -4003, -4062, -4121, -4180, -4239]

/-- The conversion `static_cast<int16_t>(t)` of a `float`: truncation toward zero.  The C++
conversion is only defined for a truncated value that fits `int16_t`; the value given here
outside that range is not the program's, and `atan_fuel` and `asin_fuel`, which model whether
a call returns, check the range before they use it. -/
def int16_cast (t : ℚ) : Int := if 0 ≤ t then ⌊t⌋ else ⌈t⌉

/-- The array read `table[index]`, converted to a number. -/
def table_at (table : List Int) (index : Int) : ℚ := ((table.getD index.toNat 0 : Int) : ℚ)

/-- `turbo::fsign`: the difference of the two comparison results. -/
def fsign (y : ℚ) : ℚ := (if 0 < y then 1 else 0) - (if y < 0 then 1 else 0)

/-- `turbo::fabs`. -/
def fabs {α : Type} [LinearOrderedField α] (x : α) : α := if x < 0 then -x else x

/-- `turbo::atan`. -/
def atan (x : ℚ) : ℚ :=
  if h : x < 0 then
    -1 * atan (-1 * x)
  else if h1 : x > 1 then
    M_PI / 2 - atan (1 / x)
  else
    let t := (x - atan_min_x) / (atan_max_x - atan_min_x) * (atan_num_entries : ℚ)
    let index := int16_cast t
    let delta_x := t - (index : ℚ)
    if index ≥ atan_num_entries then
      table_at atan_lookup_table (atan_num_entries - 1) / atan_scale_factor
    else if index < atan_num_entries - 1 then
      table_at atan_lookup_table index / atan_scale_factor
        + delta_x * (table_at atan_lookup_table (index + 1) - table_at atan_lookup_table index)
            / atan_scale_factor
    else
      table_at atan_lookup_table index / atan_scale_factor
        + delta_x * (table_at atan_lookup_table index - table_at atan_lookup_table (index - 1))
            / atan_scale_factor
termination_by (if x < 0 then 2 else if x > 1 then 1 else 0 : ℕ)
decreasing_by
  · have h2 : ¬ (-1 * x < 0) := by linarith
    simp only [h, h2, if_true, if_false]
    split <;> omega
  · have h2 : ¬ (1 / x < 0) := by
      have : (0 : ℚ) < 1 / x := by positivity
      linarith
    have h3 : ¬ (1 / x > 1) := by
      have : 1 / x < 1 := by rw [div_lt_one (by linarith)]; exact h1
      linarith
    simp only [h, h1, h2, h3, if_true, if_false]
    omega

/-- `turbo::atan2`. -/
def atan2 (y x : ℚ) : ℚ :=
  if x = 0 then
    if y < 0 then
      - M_PI / 2
    else if y > 0 then
      M_PI / 2
    else
      0
  else
    let arctan := atan (y / x)
    if x < 0 then
      if y < 0 then
        arctan - M_PI
      else
        arctan + M_PI
    else
      arctan

/-- `turbo::asin`. -/
def asin (x : ℚ) : ℚ :=
  if h : x < 0 then
    -1 * asin (-1 * x)
  else
    let t := (x - asin_min_x) / (asin_max_x - asin_min_x) * (asin_num_entries : ℚ)
    let index := int16_cast t
    let delta_x := t - (index : ℚ)
    if index ≥ asin_num_entries then
      table_at asin_lookup_table 500 / asin_scale_factor
    else if index < asin_num_entries - 1 then
      table_at asin_lookup_table index / asin_scale_factor
        + delta_x * (table_at asin_lookup_table (index + 1) - table_at asin_lookup_table index)
            / asin_scale_factor
    else
      table_at asin_lookup_table index / asin_scale_factor
        + delta_x * (table_at asin_lookup_table index - table_at asin_lookup_table (index - 1))
            / asin_scale_factor
termination_by (if x < 0 then 1 else 0 : ℕ)
decreasing_by
  have h2 : ¬ (-1 * x < 0) := by linarith
  simp only [h, h2, if_true, if_false]
  omega

/-- `turbo::alt`. -/
def alt (press : ℚ) : ℚ :=
  if press < (max_pressure : ℚ) ∧ press > (min_pressure : ℚ) then
    let t := (num_entries : ℚ) * (press - (min_pressure : ℚ))
      / ((max_pressure - min_pressure : Int) : ℚ)
    let index := int16_cast t
    let dp := t - (index : ℚ)
    if index < num_entries - 1 then
      table_at alt_lookup_table index / 10
        + dp * (table_at alt_lookup_table (index + 1) - table_at alt_lookup_table index) / 10
    else
      table_at alt_lookup_table index / 10
        + dp * (table_at alt_lookup_table index - table_at alt_lookup_table (index - 1)) / 10
  else
    0

/-- `quaternion::get_RPY`: the values stored in `roll`, `pitch` and `yaw`. -/
def quaternion.get_RPY (q : quaternion ℚ) : ℚ × ℚ × ℚ :=
  let roll := atan2 (2 * (q.w * q.x + q.y * q.z)) (1 - 2 * (q.x * q.x + q.y * q.y))
  let pitch := asin (2 * (q.w * q.y - q.z * q.x))
  let yaw := atan2 (2 * (q.w * q.z + q.x * q.y)) (1 - 2 * (q.y * q.y + q.z * q.z))
  (roll, pitch, yaw)

/-! ## Table lookups of `atan` and `asin`, and their recursion on a bounded call stack -/

/-- The table lookup that ends `turbo::atan`, reached when neither early `return` is taken. -/
def atan_table (x : ℚ) : ℚ :=
  let t := (x - atan_min_x) / (atan_max_x - atan_min_x) * (atan_num_entries : ℚ)
  let index := int16_cast t
  let delta_x := t - (index : ℚ)
  if index ≥ atan_num_entries then
    table_at atan_lookup_table (atan_num_entries - 1) / atan_scale_factor
  else if index < atan_num_entries - 1 then
    table_at atan_lookup_table index / atan_scale_factor
      + delta_x * (table_at atan_lookup_table (index + 1) - table_at atan_lookup_table index)
          / atan_scale_factor
  else
    table_at atan_lookup_table index / atan_scale_factor
      + delta_x * (table_at atan_lookup_table index - table_at atan_lookup_table (index - 1))
          / atan_scale_factor

/-- The table lookup that ends `turbo::asin`, reached when the early `return` is not taken. -/
def asin_table (x : ℚ) : ℚ :=
  let t := (x - asin_min_x) / (asin_max_x - asin_min_x) * (asin_num_entries : ℚ)
  let index := int16_cast t
  let delta_x := t - (index : ℚ)
  if index ≥ asin_num_entries then
    table_at asin_lookup_table 500 / asin_scale_factor
  else if index < asin_num_entries - 1 then
    table_at asin_lookup_table index / asin_scale_factor
      + delta_x * (table_at asin_lookup_table (index + 1) - table_at asin_lookup_table index)
          / asin_scale_factor
  else
    table_at asin_lookup_table index / asin_scale_factor
      + delta_x * (table_at asin_lookup_table index - table_at asin_lookup_table (index - 1))
          / asin_scale_factor

/-- The indices at which the table lookup that ends `turbo::atan` reads `atan_lookup_table`, in
the order of the `return` expression taken. -/
def atan_table_reads (x : ℚ) : List Int :=
  let t := (x - atan_min_x) / (atan_max_x - atan_min_x) * (atan_num_entries : ℚ)
  let index := int16_cast t
  if index ≥ atan_num_entries then
    [atan_num_entries - 1]
  else if index < atan_num_entries - 1 then
    [index, index + 1, index]
  else
    [index, index, index - 1]

/-- The indices at which `turbo::atan` reads `atan_lookup_table`, run on a bounded call stack as
`atan_fuel`. -/
def atan_reads : ℕ → ℚ → Option (List Int)
  | 0, _ => none
  | fuel + 1, x =>
    if x < 0 then
      atan_reads fuel (-1 * x)
    else if x > 1 then
      atan_reads fuel (1 / x)
    else
      some (atan_table_reads x)

/-- The indices at which the table lookup that ends `turbo::asin` reads `asin_lookup_table`. -/
def asin_table_reads (x : ℚ) : List Int :=
  let t := (x - asin_min_x) / (asin_max_x - asin_min_x) * (asin_num_entries : ℚ)
  let index := int16_cast t
  if index ≥ asin_num_entries then
    [500]
  else if index < asin_num_entries - 1 then
    [index, index + 1, index]
  else
    [index, index, index - 1]

/-- The indices at which `turbo::asin` reads `asin_lookup_table`, run on a bounded call stack as
`asin_fuel`. -/
def asin_reads : ℕ → ℚ → Option (List Int)
  | 0, _ => none
  | fuel + 1, x =>
    if x < 0 then
      asin_reads fuel (-1 * x)
    else
      some (asin_table_reads x)

/-- The indices at which `turbo::alt` reads `alt_lookup_table`. -/
def alt_reads (press : ℚ) : List Int :=
  if press < (max_pressure : ℚ) ∧ press > (min_pressure : ℚ) then
    let t := (num_entries : ℚ) * (press - (min_pressure : ℚ))
      / ((max_pressure - min_pressure : Int) : ℚ)
    let index := int16_cast t
    if index < num_entries - 1 then
      [index, index + 1, index]
    else
      [index, index, index - 1]
  else
    []

/-! ## IEEE-754 binary32 and `turbo::inv_sqrt`

A `float` is represented by its 32-bit pattern, a natural number below `2^32`.  Arithmetic on
finite operands returns the correctly rounded exact result (round to nearest, ties to even);
an operation with an infinite or NaN operand returns the NaN pattern `0x7fc00000`. -/

/-- The sign bit of a bit pattern. -/
def f32_sign (b : ℕ) : ℕ := b / 2 ^ 31 % 2

/-- The biased exponent field of a bit pattern. -/
def f32_exp (b : ℕ) : ℕ := b / 2 ^ 23 % 256

/-- The fraction field of a bit pattern. -/
def f32_man (b : ℕ) : ℕ := b % 2 ^ 23

/-- The bit pattern denotes a finite number (not an infinity, not a NaN). -/
def f32_finite (b : ℕ) : Bool := f32_exp b != 255

/-- The number denoted by a finite bit pattern. -/
def f32_val (b : ℕ) : ℚ :=
  (if f32_sign b = 1 then -1 else 1)
    * (if f32_exp b = 0 then (f32_man b : ℚ) * 2 ^ (-149 : ℤ)
       else ((2 ^ 23 + f32_man b : ℕ) : ℚ) * 2 ^ ((f32_exp b : ℤ) - 150))

/-- Binary logarithm of a natural number by repeated halving; `fuel` bounds the number of
halvings. -/
def log2_fuel : ℕ → ℕ → ℕ
  | 0, _ => 0
  | fuel + 1, n => if 2 ≤ n then log2_fuel fuel (n / 2) + 1 else 0

/-- The integer `e` with `2^e ≤ r < 2^(e+1)`, for a positive rational `r`. -/
def ilog2 (r : ℚ) : ℤ :=
  if (2 : ℚ) ^ ((log2_fuel r.num.natAbs r.num.natAbs : ℤ) - (log2_fuel r.den r.den : ℤ)) ≤ r then
    (log2_fuel r.num.natAbs r.num.natAbs : ℤ) - (log2_fuel r.den r.den : ℤ)
  else
    (log2_fuel r.num.natAbs r.num.natAbs : ℤ) - (log2_fuel r.den r.den : ℤ) - 1

/-- Rounding to the nearest integer, ties to the even one. -/
def round_half_even (n : ℚ) : ℤ :=
  if n - ⌊n⌋ < 1 / 2 then ⌊n⌋
  else if 1 / 2 < n - ⌊n⌋ then ⌊n⌋ + 1
  else if ⌊n⌋ % 2 = 0 then ⌊n⌋ else ⌊n⌋ + 1

/-- Rounding of a rational to binary32, round to nearest, ties to even: the unit in the last
place is `2^(e-23)` with `e` the exponent of `|r|`, not below `-126`; a magnitude that reaches
`2^128` gives an infinity. -/
def f32_round (r : ℚ) : ℕ :=
  if r = 0 then 0
  else
    let e := max (ilog2 |r|) (-126)
    let mag := ((e + 126) * 2 ^ 23 + round_half_even (|r| / 2 ^ (e - 23))).toNat
    let magc := if mag ≥ 0x7f800000 then 0x7f800000 else mag
    if r < 0 then 2 ^ 31 + magc else magc

/-- The `float` product. -/
def f32_mul (a b : ℕ) : ℕ :=
  if f32_finite a && f32_finite b then
    if f32_val a * f32_val b = 0 then (f32_sign a + f32_sign b) % 2 * 2 ^ 31
    else f32_round (f32_val a * f32_val b)
  else 0x7fc00000

/-- The `float` difference. -/
def f32_sub (a b : ℕ) : ℕ :=
  if f32_finite a && f32_finite b then
    if f32_val a - f32_val b = 0 then (if f32_sign a = 1 ∧ f32_sign b = 0 then 2 ^ 31 else 0)
    else f32_round (f32_val a - f32_val b)
  else 0x7fc00000

/-- `turbo::fabs` on a bit pattern: `-x` when `x < 0`, else `x`. -/
def f32_fabs (b : ℕ) : ℕ :=
  if f32_finite b && decide (f32_val b < 0) then b - 2 ^ 31 else b

/-- Modelled from the spec: the union `float_converter_t` is declared in `turbomath.h`, which is
not part of the sources at hand; its member `ivalue` is read here as a two's-complement
`int32_t` over the same 32 bits as `fvalue`. -/
def ivalue (b : ℕ) : ℤ := if b < 2 ^ 31 then (b : ℤ) else (b : ℤ) - 2 ^ 32

/-- The bit pattern of an `int32_t` value (wrapping modulo `2^32`). -/
def of_ivalue (i : ℤ) : ℕ := (i % 2 ^ 32).toNat

/-- `turbo::inv_sqrt` on bit patterns; `0x3f000000` is `0.5F`, `0x3fc00000` is `1.5F`, and
`>> 1` on `int32_t` is the arithmetic shift. -/
def inv_sqrt (x : ℕ) : ℕ :=
  let threehalfs := 0x3fc00000
  let x2 := f32_mul x 0x3f000000
  let y := x
  let i := ivalue y
  let i := of_ivalue (0x5f3759df - i / 2)
  let y := i
  let y := f32_mul y (f32_sub threehalfs (f32_mul (f32_mul x2 y) y))
  let y := f32_mul y (f32_sub threehalfs (f32_mul (f32_mul x2 y) y))
  f32_fabs y

/-- `turbo::inv_sqrt` as the vector and quaternion code calls it: the radicand, computed
exactly, is rounded to a `float`, the bit-level routine runs on it, and the result is the number
its bit pattern denotes. -/
def inv_sqrt_val (s : ℚ) : ℚ := f32_val (inv_sqrt (f32_round s))

/-! ## Certified enclosures used by the accuracy proofs -/

/-- Integer lower and upper bounds, in units of `1e-8`, of the arctangent at `i / 500`: the
tangent addition formula gives `arctan ((i+1)/500) = arctan (i/500) + arctan t` with
`t = 500 / (250000 + i (i+1))`, and `t - t^3 ≤ arctan t ≤ t`. -/
def arctanBounds : ℕ → ℤ × ℤ
  | 0 => (0, 0)
  | i + 1 =>
    let q : ℤ := ((50000000000 / (250000 + i * (i + 1)) : ℕ) : ℤ)
    ((arctanBounds i).1 + (q - 1), (arctanBounds i).2 + (q + 1))

/-- Partial sums of the sine series: `sinP k x` is the sum of the first `k` terms
`(-1)^j x^(2j+1) / (2j+1)!`. -/
def sinP {α : Type} [Field α] : ℕ → α → α
  | 0, _ => 0
  | k + 1, x => sinP k x + (-1) ^ k * x ^ (2 * k + 1) / ((2 * k + 1).factorial : α)

/-- Partial sums of the cosine series: `cosP k x` is `1` plus the next `k` terms
`(-1)^(j+1) x^(2j+2) / (2j+2)!`. -/
def cosP {α : Type} [Field α] : ℕ → α → α
  | 0, _ => 1
  | k + 1, x => cosP k x + (-1) ^ (k + 1) * x ^ (2 * k + 2) / ((2 * k + 2).factorial : α)

/-- Integer numerator of `sinP k (a / d)` over the denominator `sinDen d k`. -/
def sinNum (a d : ℤ) : ℕ → ℤ
  | 0 => 0
  | k + 1 => sinNum a d k * (d * d * ((2 * k : ℤ) * (2 * k + 1))) + (-1) ^ k * a ^ (2 * k + 1)

/-- Integer denominator of `sinP k (a / d)`. -/
def sinDen (d : ℤ) : ℕ → ℤ
  | 0 => 1
  | k + 1 => d ^ (2 * k + 1) * ((2 * k + 1).factorial : ℤ)

/-- Fold over the arctangent table from index `i`, carrying the enclosure `[L, U]` of
`10^8 * arctan (i / 500)`: every entry lies within `6e-5` of the enclosure, and consecutive
entries differ by at least 10 and at most 20. -/
def atanTableOk : List Int → ℕ → ℤ → ℤ → Bool
  | [], _, _, _ => true
  | a :: rest, i, L, U =>
    decide (a * 10000 ≤ L + 6000 ∧ U ≤ a * 10000 + 6000) &&
    (match rest with
      | [] => true
      | b :: _ => decide (10 ≤ b - a ∧ b - a ≤ 20)) &&
    atanTableOk rest (i + 1)
      (L + (((50000000000 / (250000 + i * (i + 1)) : ℕ) : ℤ) - 1))
      (U + (((50000000000 / (250000 + i * (i + 1)) : ℕ) : ℤ) + 1))

/-- Number of equal pieces into which a slot of the arcsine table is cut for the test: more
pieces where the table rises faster. -/
def asinPieces (T0 T1 : ℤ) : ℤ :=
  if T1 - T0 ≤ 100 then (T1 - T0) / 16 + 1 else (T1 - T0) / 9 + 1

/-- Integer test for piece `j` of slot `n` of the arcsine table, cut into `K` equal pieces; `T0`
and `T1` are the entries at the ends of the slot.  On the piece the interpolated value runs from
`Mlo = T0 K + j (T1 - T0)` to `Mhi = T0 K + (j + 1) (T1 - T0)` (units `1 / (10000 K)`) and the
argument from `n K + j` to `n K + j + 1` (units `1 / (500 K)`).  The test asks
`sin (Mhi - 0.002) ≤ plo` (or `Mhi ≤ 0.002`) and `phi ≤ sin (Mlo + 0.002)`, with the sine replaced
by an upper, respectively lower, partial sum of its series. -/
def asinPieceOk (n : ℕ) (T0 T1 K : ℤ) (j : ℕ) : Bool :=
  decide ((T0 * K + (j + 1) * (T1 - T0) - 20 * K ≤ 0 ∨
      sinNum (T0 * K + (j + 1) * (T1 - T0) - 20 * K) (10000 * K) 5 * (500 * K)
        ≤ (n * K + j) * sinDen (10000 * K) 5)
    ∧ (n * K + j + 1) * sinDen (10000 * K) 6
        ≤ sinNum (T0 * K + j * (T1 - T0) + 20 * K) (10000 * K) 6 * (500 * K)
    ∧ 0 ≤ T0 * K + j * (T1 - T0)
    ∧ T0 * K + (j + 1) * (T1 - T0) + 20 * K ≤ 15100 * K)

/-- Integer test for slot `n` of the arcsine table with end entries `T0 ≤ T1`: every piece
passes `asinPieceOk`. -/
def asinSlotOk (n : ℕ) (T0 T1 : ℤ) : Bool :=
  decide (0 ≤ T1 - T0) &&
    (List.range (asinPieces T0 T1).toNat).all (asinPieceOk n T0 T1 (asinPieces T0 T1))

/-- Fold over the arcsine table from index `n`: the slots `lo ≤ n < hi` pass `asinSlotOk`. -/
def asinTableOk : List Int → ℕ → ℕ → ℕ → Bool
  | a :: b :: rest, n, lo, hi =>
    (decide (n < lo) || decide (hi ≤ n) || asinSlotOk n a b)
      && asinTableOk (b :: rest) (n + 1) lo hi
  | _, _, _, _ => true

/-- The nodes of a table interpolant, continued one step past the last entry the way the last
slot extrapolates: `table[n]` for `n ≤ last`, and `2 table[last] - table[last - 1]` beyond. -/
def extended_nodes (table : List Int) (last : Int) (n : Int) : ℚ :=
  if n ≤ last then table_at table n else 2 * table_at table last - table_at table (last - 1)

/-- Every entry of the list is smaller than the one before it. -/
def table_decreasing : List Int → Bool
  | a :: b :: l => decide (b < a) && table_decreasing (b :: l)
  | _ => true

/-! ## Theorems -/

set_option maxHeartbeats 2000000 in
/-- The defining equation of `atan`. -/
theorem atan_eq (x : ℚ) :
    atan x =
      if x < 0 then -1 * atan (-1 * x)
      else if x > 1 then M_PI / 2 - atan (1 / x)
      else
        if int16_cast ((x - atan_min_x) / (atan_max_x - atan_min_x) * (atan_num_entries : ℚ))
            ≥ atan_num_entries then
          table_at atan_lookup_table (atan_num_entries - 1) / atan_scale_factor
        else if int16_cast ((x - atan_min_x) / (atan_max_x - atan_min_x)
            * (atan_num_entries : ℚ)) < atan_num_entries - 1 then
          table_at atan_lookup_table
              (int16_cast ((x - atan_min_x) / (atan_max_x - atan_min_x) * (atan_num_entries : ℚ)))
              / atan_scale_factor
            + ((x - atan_min_x) / (atan_max_x - atan_min_x) * (atan_num_entries : ℚ)
                - (int16_cast ((x - atan_min_x) / (atan_max_x - atan_min_x)
                    * (atan_num_entries : ℚ)) : ℚ))
              * (table_at atan_lookup_table
                  (int16_cast ((x - atan_min_x) / (atan_max_x - atan_min_x)
                    * (atan_num_entries : ℚ)) + 1)
                - table_at atan_lookup_table
                  (int16_cast ((x - atan_min_x) / (atan_max_x - atan_min_x)
                    * (atan_num_entries : ℚ))))
              / atan_scale_factor
        else
          table_at atan_lookup_table
              (int16_cast ((x - atan_min_x) / (atan_max_x - atan_min_x) * (atan_num_entries : ℚ)))
              / atan_scale_factor
            + ((x - atan_min_x) / (atan_max_x - atan_min_x) * (atan_num_entries : ℚ)
                - (int16_cast ((x - atan_min_x) / (atan_max_x - atan_min_x)
                    * (atan_num_entries : ℚ)) : ℚ))
              * (table_at atan_lookup_table
                  (int16_cast ((x - atan_min_x) / (atan_max_x - atan_min_x)
                    * (atan_num_entries : ℚ)))
                - table_at atan_lookup_table
                  (int16_cast ((x - atan_min_x) / (atan_max_x - atan_min_x)
                    * (atan_num_entries : ℚ)) - 1))
              / atan_scale_factor := by
  rw [atan]
  simp only [dite_eq_ite]

set_option maxHeartbeats 2000000 in
/-- The defining equation of `asin`. -/
theorem asin_eq (x : ℚ) :
    asin x =
      if x < 0 then -1 * asin (-1 * x)
      else
        if int16_cast ((x - asin_min_x) / (asin_max_x - asin_min_x) * (asin_num_entries : ℚ))
            ≥ asin_num_entries then
          table_at asin_lookup_table 500 / asin_scale_factor
        else if int16_cast ((x - asin_min_x) / (asin_max_x - asin_min_x)
            * (asin_num_entries : ℚ)) < asin_num_entries - 1 then
          table_at asin_lookup_table
              (int16_cast ((x - asin_min_x) / (asin_max_x - asin_min_x) * (asin_num_entries : ℚ)))
              / asin_scale_factor
            + ((x - asin_min_x) / (asin_max_x - asin_min_x) * (asin_num_entries : ℚ)
                - (int16_cast ((x - asin_min_x) / (asin_max_x - asin_min_x)
                    * (asin_num_entries : ℚ)) : ℚ))
              * (table_at asin_lookup_table
                  (int16_cast ((x - asin_min_x) / (asin_max_x - asin_min_x)
                    * (asin_num_entries : ℚ)) + 1)
                - table_at asin_lookup_table
                  (int16_cast ((x - asin_min_x) / (asin_max_x - asin_min_x)
                    * (asin_num_entries : ℚ))))
              / asin_scale_factor
        else
          table_at asin_lookup_table
              (int16_cast ((x - asin_min_x) / (asin_max_x - asin_min_x) * (asin_num_entries : ℚ)))
              / asin_scale_factor
            + ((x - asin_min_x) / (asin_max_x - asin_min_x) * (asin_num_entries : ℚ)
                - (int16_cast ((x - asin_min_x) / (asin_max_x - asin_min_x)
                    * (asin_num_entries : ℚ)) : ℚ))
              * (table_at asin_lookup_table
                  (int16_cast ((x - asin_min_x) / (asin_max_x - asin_min_x)
                    * (asin_num_entries : ℚ)))
                - table_at asin_lookup_table
                  (int16_cast ((x - asin_min_x) / (asin_max_x - asin_min_x)
                    * (asin_num_entries : ℚ)) - 1))
              / asin_scale_factor := by
  rw [asin]
  simp only [dite_eq_ite]

/-- C1 (as stated, refuted): in the code `(0,1,0,0) * (0,0,1,0)` is `(0,0,0,-1)`, not
`(0,0,0,1)`, and it differs from the Hamilton product of the specification. -/
theorem quaternion_mul_i_j_ne_k :
    quaternion.mul (⟨0, 1, 0, 0⟩ : quaternion ℚ) ⟨0, 0, 1, 0⟩ = ⟨0, 0, 0, -1⟩ ∧
    quaternion.mul (⟨0, 1, 0, 0⟩ : quaternion ℚ) ⟨0, 0, 1, 0⟩ ≠ ⟨0, 0, 0, 1⟩ ∧
    quaternion.mul (⟨0, 1, 0, 0⟩ : quaternion ℚ) ⟨0, 0, 1, 0⟩
      ≠ hamilton_spec ⟨0, 1, 0, 0⟩ ⟨0, 0, 1, 0⟩ := by
  refine ⟨?_, ?_, ?_⟩ <;> norm_num [quaternion.mul, hamilton_spec]

/-- C1 (amended): `p * q` and `p *= q` both compute the Hamilton product with the operands
exchanged, `q ⊗ p`; written out, `w = pw*qw - px*qx - py*qy - pz*qz`,
`x = pw*qx + px*qw - py*qz + pz*qy`, `y = pw*qy + px*qz + py*qw - pz*qx`,
`z = pw*qz - px*qy + py*qx + pz*qw`; so `(0,1,0,0) * (0,0,1,0) = (0,0,0,-1)`. -/
theorem quaternion_mul_eq_hamilton_swapped {α : Type} [LinearOrderedField α]
    (p q : quaternion α) :
    quaternion.mul p q = hamilton_spec q p ∧
    quaternion.mul_assign p q = hamilton_spec q p ∧
    quaternion.mul (⟨0, 1, 0, 0⟩ : quaternion α) ⟨0, 0, 1, 0⟩ = ⟨0, 0, 0, -1⟩ := by
  refine ⟨?_, ?_, ?_⟩
  · simp only [quaternion.mul, hamilton_spec, quaternion.mk.injEq]
    refine ⟨?_, ?_, ?_, ?_⟩ <;> ring
  · simp only [quaternion.mul_assign, hamilton_spec, quaternion.mk.injEq]
    refine ⟨?_, ?_, ?_, ?_⟩ <;> ring
  · simp [quaternion.mul]

/-- The program constant `M_PI` agrees with `π` to twelve decimal places. -/
theorem M_PI_approx : |((M_PI : ℚ) : ℝ) - Real.pi| < 1 / 10 ^ 12 := by
  have h1 := Real.pi_gt_d20
  have h2 := Real.pi_lt_d20
  rw [abs_lt]
  constructor <;> norm_num [M_PI] at * <;> linarith

/-- C7: for every pressure below 69681 or above 106598, `alt` returns exactly 0. -/
theorem alt_outside_range (press : ℚ) (h : press < 69681 ∨ press > 106598) :
    alt press = 0 := by
  unfold alt
  rw [if_neg]
  rintro ⟨h1, h2⟩
  norm_num [max_pressure, min_pressure] at h1 h2
  rcases h with h | h <;> linarith

/-- Witness of C7: pressures 50000 and 110000 lie outside the table range. -/
theorem alt_outside_range_witness :
    alt 50000 = 0 ∧ alt 110000 = 0 :=
  ⟨alt_outside_range 50000 (Or.inl (by norm_num)),
   alt_outside_range 110000 (Or.inr (by norm_num))⟩

/-- C8: at sea-level pressure 101325 the lookup lands in slot 428, between the entries 35 and
-26, and interpolates to `-20869/369170`, whose absolute value is at most 50. -/
theorem alt_sea_level :
    int16_cast ((num_entries : ℚ) * (101325 - (min_pressure : ℚ))
      / ((max_pressure - min_pressure : Int) : ℚ)) = 428 ∧
    table_at alt_lookup_table 428 = 35 ∧
    table_at alt_lookup_table 429 = -26 ∧
    alt 101325 = -20869 / 369170 ∧
    |alt 101325| ≤ 50 := by
  have hidx : int16_cast ((num_entries : ℚ) * (101325 - (min_pressure : ℚ))
      / ((max_pressure - min_pressure : Int) : ℚ)) = 428 := by
    unfold int16_cast
    rw [if_pos (by norm_num [num_entries, min_pressure, max_pressure])]
    rw [Int.floor_eq_iff]
    constructor <;> norm_num [num_entries, min_pressure, max_pressure]
  have h428 : table_at alt_lookup_table 428 = 35 := by
    have h : alt_lookup_table.getD (Int.toNat 428) 0 = 35 := by decide
    simp only [table_at, h, Int.cast_ofNat]
  have h429 : table_at alt_lookup_table 429 = -26 := by
    have h : alt_lookup_table.getD (Int.toNat 429) 0 = -26 := by decide
    simp only [table_at, h, Int.cast_neg, Int.cast_ofNat]
  have hval : alt 101325 = -20869 / 369170 := by
    unfold alt
    rw [if_pos (by norm_num [max_pressure, min_pressure])]
    simp only [hidx]
    rw [if_pos (by norm_num [num_entries])]
    rw [show (428 : Int) + 1 = 429 by norm_num, h428, h429]
    norm_num [num_entries, min_pressure, max_pressure]
  refine ⟨hidx, h428, h429, hval, ?_⟩
  rw [hval, abs_le]
  constructor <;> norm_num

/-- C9: with `x = 0`, `atan2 y 0` is `M_PI/2` for `y > 0`, `-M_PI/2` for `y < 0` and `0` for
`y = 0`; in particular `atan2 0 0 = 0`, `atan2 1 0 = M_PI/2`, `atan2 (-1) 0 = -M_PI/2`. -/
theorem atan2_x_zero (y : ℚ) :
    (y > 0 → atan2 y 0 = M_PI / 2) ∧
    (y < 0 → atan2 y 0 = - M_PI / 2) ∧
    (y = 0 → atan2 y 0 = 0) ∧
    atan2 0 0 = 0 ∧ atan2 1 0 = M_PI / 2 ∧ atan2 (-1) 0 = - M_PI / 2 := by
  refine ⟨?_, ?_, ?_, ?_, ?_, ?_⟩
  · intro h
    have h2 : ¬ y < 0 := by linarith
    simp [atan2, h, h2]
  · intro h
    simp [atan2, h]
  · intro h
    simp [atan2, h]
  · simp [atan2]
  · norm_num [atan2]
  · norm_num [atan2]

/-- Witness of C9 at `y = 3`, `y = -3` and `y = 0`. -/
theorem atan2_x_zero_witness :
    atan2 3 0 = M_PI / 2 ∧ atan2 (-3) 0 = - M_PI / 2 ∧ atan2 0 0 = 0 :=
  ⟨(atan2_x_zero 3).1 (by norm_num), (atan2_x_zero (-3)).2.1 (by norm_num),
   (atan2_x_zero 0).2.2.1 rfl⟩

/-- C10: for `x ≠ 0`, `atan2 y x` is `atan (y/x)` when `x > 0`, `atan (y/x) + M_PI` when
`x < 0` and `y ≥ 0`, and `atan (y/x) - M_PI` when `x < 0` and `y < 0`. -/
theorem atan2_quadrants (y x : ℚ) (hx : x ≠ 0) :
    (x > 0 → atan2 y x = atan (y / x)) ∧
    (x < 0 → y ≥ 0 → atan2 y x = atan (y / x) + M_PI) ∧
    (x < 0 → y < 0 → atan2 y x = atan (y / x) - M_PI) := by
  refine ⟨?_, ?_, ?_⟩
  · intro h
    have h2 : ¬ x < 0 := by linarith
    simp [atan2, hx, h2]
  · intro h hy
    have h2 : ¬ y < 0 := by linarith
    simp [atan2, hx, h, h2]
  · intro h hy
    simp [atan2, hx, h, hy]

/-- Witness of C10 in the three quadrant cases. -/
theorem atan2_quadrants_witness :
    atan2 1 2 = atan (1 / 2) ∧
    atan2 1 (-2) = atan (1 / -2) + M_PI ∧
    atan2 (-1) (-2) = atan (-1 / -2) - M_PI :=
  ⟨(atan2_quadrants 1 2 (by norm_num)).1 (by norm_num),
   (atan2_quadrants 1 (-2) (by norm_num)).2.1 (by norm_num) (by norm_num),
   (atan2_quadrants (-1) (-2) (by norm_num)).2.2 (by norm_num) (by norm_num)⟩

/-- Idealised `normalize`: for every quaternion other than zero, with `inv_sqrt` replaced by
`1/sqrt` over the reals, `normalize` yields a quaternion whose sum of squares is exactly 1 (so
within 1e-3 of 1), and a second `normalize` leaves it unchanged. -/
theorem normalize_unit_idempotent (q : quaternion ℝ) (hq : q.sum_sq ≠ 0) :
    (quaternion.normalize (fun s : ℝ => 1 / Real.sqrt s) q).sum_sq = 1 ∧
    |(quaternion.normalize (fun s : ℝ => 1 / Real.sqrt s) q).sum_sq - 1| ≤ 1 / 1000 ∧
    quaternion.normalize (fun s : ℝ => 1 / Real.sqrt s)
        (quaternion.normalize (fun s : ℝ => 1 / Real.sqrt s) q)
      = quaternion.normalize (fun s : ℝ => 1 / Real.sqrt s) q := by
  have hnn : 0 ≤ q.sum_sq := by
    unfold quaternion.sum_sq
    nlinarith [mul_self_nonneg q.w, mul_self_nonneg q.x, mul_self_nonneg q.y, mul_self_nonneg q.z]
  have hpos : 0 < q.sum_sq := lt_of_le_of_ne hnn (Ne.symm hq)
  have hs : Real.sqrt q.sum_sq * Real.sqrt q.sum_sq = q.sum_sq := Real.mul_self_sqrt hnn
  have hs0 : Real.sqrt q.sum_sq ≠ 0 := (Real.sqrt_pos.mpr hpos).ne'
  have h1 : (quaternion.normalize (fun s : ℝ => 1 / Real.sqrt s) q).sum_sq = 1 := by
    have e : (quaternion.normalize (fun s : ℝ => 1 / Real.sqrt s) q).sum_sq
        = q.sum_sq * (1 / Real.sqrt q.sum_sq) * (1 / Real.sqrt q.sum_sq) := by
      simp only [quaternion.normalize, quaternion.sum_sq]
      ring
    rw [e]
    field_simp
  refine ⟨h1, ?_, ?_⟩
  · rw [h1]; norm_num
  · have e : ∀ p : quaternion ℝ, quaternion.normalize (fun s : ℝ => 1 / Real.sqrt s) p
        = ⟨p.w * (1 / Real.sqrt p.sum_sq), p.x * (1 / Real.sqrt p.sum_sq),
           p.y * (1 / Real.sqrt p.sum_sq), p.z * (1 / Real.sqrt p.sum_sq)⟩ := fun p => rfl
    rw [e (quaternion.normalize (fun s : ℝ => 1 / Real.sqrt s) q), h1]
    simp

/-- The function `x - Real.arctan x` is monotone. -/
theorem sub_arctan_monotone : Monotone (fun x : ℝ => x - Real.arctan x) := by
  apply monotone_of_deriv_nonneg
  · exact differentiable_id.sub Real.differentiable_arctan
  · intro x
    have h : HasDerivAt (fun x : ℝ => x - Real.arctan x) (1 - 1 / (1 + x ^ 2)) x :=
      (hasDerivAt_id x).sub (Real.hasDerivAt_arctan x)
    rw [h.deriv]
    have : 1 / (1 + x ^ 2) ≤ 1 := by
      rw [div_le_one (by positivity)]
      nlinarith [sq_nonneg x]
    linarith

/-- The arctangent is 1-Lipschitz on increasing pairs. -/
theorem arctan_sub_le {a b : ℝ} (h : a ≤ b) : Real.arctan b - Real.arctan a ≤ b - a := by
  have := sub_arctan_monotone h
  simp only at this
  linarith

/-- On `[0, c]` the arctangent grows at least at the rate `1 / (1 + c^2)`. -/
theorem arctan_sub_ge {a b c : ℝ} (ha : 0 ≤ a) (h : a ≤ b) (hb : b ≤ c) :
    (b - a) / (1 + c ^ 2) ≤ Real.arctan b - Real.arctan a := by
  have hmono : MonotoneOn (fun x : ℝ => Real.arctan x - x / (1 + c ^ 2)) (Set.Icc 0 c) := by
    apply monotoneOn_of_deriv_nonneg (convex_Icc 0 c)
    · exact (Real.continuous_arctan.sub (continuous_id.div_const _)).continuousOn
    · exact ((Real.differentiable_arctan.sub (differentiable_id.div_const _))).differentiableOn
    · intro x hx
      rw [interior_Icc] at hx
      have h : HasDerivAt (fun x : ℝ => Real.arctan x - x / (1 + c ^ 2))
          (1 / (1 + x ^ 2) - 1 / (1 + c ^ 2)) x :=
        (Real.hasDerivAt_arctan x).sub ((hasDerivAt_id x).div_const _)
      rw [h.deriv]
      have h1 : x ^ 2 ≤ c ^ 2 := by nlinarith [hx.1, hx.2]
      have : 1 / (1 + c ^ 2) ≤ 1 / (1 + x ^ 2) :=
        one_div_le_one_div_of_le (by positivity) (by linarith)
      linarith
  have := hmono ⟨ha, h.trans hb⟩ ⟨ha.trans h, hb⟩ h
  simp only at this
  have e : (b - a) / (1 + c ^ 2) = b / (1 + c ^ 2) - a / (1 + c ^ 2) := by ring
  rw [e]
  linarith

/-- One step of the tangent addition formula along the grid `i / 500`. -/
theorem arctan_step (i : ℕ) :
    Real.arctan (((i : ℝ) + 1) / 500)
      = Real.arctan ((i : ℝ) / 500) + Real.arctan (500 / (250000 + (i : ℝ) * ((i : ℝ) + 1))) := by
  have hi : (0 : ℝ) ≤ i := Nat.cast_nonneg i
  have hD : (0 : ℝ) < 250000 + (i : ℝ) * ((i : ℝ) + 1) := by positivity
  have hD2 : (0 : ℝ) < 250000 + (i : ℝ) * (i : ℝ) := by positivity
  have hden : 1 - (i : ℝ) / 500 * (500 / (250000 + (i : ℝ) * ((i : ℝ) + 1)))
      = (250000 + (i : ℝ) * (i : ℝ)) / (250000 + (i : ℝ) * ((i : ℝ) + 1)) := by
    field_simp
    ring
  have hnum : (i : ℝ) / 500 + 500 / (250000 + (i : ℝ) * ((i : ℝ) + 1))
      = ((i : ℝ) + 1) / 500
        * ((250000 + (i : ℝ) * (i : ℝ)) / (250000 + (i : ℝ) * ((i : ℝ) + 1))) := by
    field_simp
    ring
  rw [Real.arctan_add]
  · rw [hden, hnum, mul_div_assoc, div_self (div_pos hD2 hD).ne', mul_one]
  · rw [div_mul_div_comm, div_lt_one (by positivity)]
    nlinarith

/-- The integer sequences of `arctanBounds` enclose `10^8 * Real.arctan (i / 500)`. -/
theorem arctanBounds_sound (i : ℕ) :
    ((arctanBounds i).1 : ℝ) ≤ 10 ^ 8 * Real.arctan ((i : ℝ) / 500) ∧
    10 ^ 8 * Real.arctan ((i : ℝ) / 500) ≤ ((arctanBounds i).2 : ℝ) := by
  induction i with
  | zero => simp [arctanBounds]
  | succ i ih =>
    have hi : (0 : ℝ) ≤ i := Nat.cast_nonneg i
    have hD : (0 : ℝ) < 250000 + (i : ℝ) * ((i : ℝ) + 1) := by positivity
    have hDge : (250000 : ℝ) ≤ 250000 + (i : ℝ) * ((i : ℝ) + 1) := by nlinarith
    obtain ⟨q, hq⟩ : ∃ q : ℕ, q = 50000000000 / (250000 + i * (i + 1)) := ⟨_, rfl⟩
    set t : ℝ := 500 / (250000 + (i : ℝ) * ((i : ℝ) + 1)) with ht
    have ht0 : 0 ≤ t := by positivity
    have ht1 : t ≤ 1 / 500 := by
      rw [ht, div_le_div_iff₀ hD (by norm_num)]
      linarith
    have hup : Real.arctan t ≤ t := by
      have := arctan_sub_le ht0
      simpa using this
    have hlo : t / (1 + t ^ 2) ≤ Real.arctan t := by
      have := arctan_sub_ge (le_refl (0 : ℝ)) ht0 (le_refl t)
      simpa using this
    have hlo2 : 10 ^ 8 * t - 1 ≤ 10 ^ 8 * (t / (1 + t ^ 2)) := by
      have h3 : t ^ 3 ≤ (1 / 500) ^ 3 := pow_le_pow_left₀ ht0 ht1 3
      have h4 : t / (1 + t ^ 2) = t - t ^ 3 / (1 + t ^ 2) := by
        field_simp
        ring
      have h5 : t ^ 3 / (1 + t ^ 2) ≤ t ^ 3 := by
        apply div_le_self (by positivity)
        nlinarith [sq_nonneg t]
      rw [h4]
      norm_num at h3
      linarith
    have hS : 10 ^ 8 * t = 50000000000 / (250000 + (i : ℝ) * ((i : ℝ) + 1)) := by
      rw [ht]; ring
    have hq1 : (q : ℝ) ≤ 10 ^ 8 * t := by
      have := @Nat.cast_div_le ℝ _ 50000000000 (250000 + i * (i + 1))
      rw [← hq] at this
      push_cast at this
      rw [hS]
      exact this
    have hq2 : 10 ^ 8 * t ≤ (q : ℝ) + 1 := by
      have h := Nat.lt_mul_div_succ 50000000000 (show 0 < 250000 + i * (i + 1) by positivity)
      rw [← hq] at h
      have h' : ((50000000000 : ℕ) : ℝ) < (((250000 + i * (i + 1)) * (q + 1) : ℕ) : ℝ) :=
        Nat.cast_lt.mpr h
      push_cast at h'
      rw [hS, div_le_iff₀ hD]
      linarith
    rw [show ((i + 1 : ℕ) : ℝ) = (i : ℝ) + 1 by push_cast; ring, arctan_step i]
    simp only [arctanBounds]
    rw [← hq]
    push_cast
    constructor
    · linarith [ih.1]
    · linarith [ih.2]

set_option maxRecDepth 100000 in
/-- The fold `atanTableOk` passes on the arctangent table. -/
theorem atanTableOk_true : atanTableOk atan_lookup_table 0 0 0 = true := by
  decide!

set_option maxRecDepth 100000 in
/-- The arctangent table has 500 entries. -/
theorem atan_table_length : atan_lookup_table.length = 500 := by
  decide!

/-- What the fold `atanTableOk` establishes, entry by entry. -/
theorem atanTableOk_sound (l : List Int) : ∀ i : ℕ,
    atanTableOk l i (arctanBounds i).1 (arctanBounds i).2 = true →
    ∀ n, n < l.length →
      (l.getD n 0 * 10000 ≤ (arctanBounds (i + n)).1 + 6000 ∧
        (arctanBounds (i + n)).2 ≤ l.getD n 0 * 10000 + 6000) ∧
      (n + 1 < l.length →
        10 ≤ l.getD (n + 1) 0 - l.getD n 0 ∧ l.getD (n + 1) 0 - l.getD n 0 ≤ 20) := by
  induction l with
  | nil => intro i _ n hn; simp at hn
  | cons a rest ih =>
    intro i h n hn
    simp only [atanTableOk, Bool.and_eq_true, decide_eq_true_eq] at h
    obtain ⟨⟨hnode, hstep⟩, hrest⟩ := h
    have hrest' : atanTableOk rest (i + 1) (arctanBounds (i + 1)).1 (arctanBounds (i + 1)).2
        = true := hrest
    cases n with
    | zero =>
      refine ⟨by simpa using hnode, ?_⟩
      intro h1
      cases rest with
      | nil => simp at h1
      | cons b rest' =>
        simp only [decide_eq_true_eq] at hstep
        simpa using hstep
    | succ m =>
      have hm : m < rest.length := by simpa using hn
      have := ih (i + 1) hrest' m hm
      have e : i + 1 + m = i + (m + 1) := by ring
      rw [e] at this
      refine ⟨by simpa using this.1, ?_⟩
      intro h1
      have h1' : m + 1 < rest.length := by simpa using h1
      simpa using this.2 h1'

/-- Every entry of `atan_lookup_table` lies within `6e-5` of the certified enclosure of the
arctangent at its grid point. -/
theorem atan_nodes_ok : ∀ n < 500,
    atan_lookup_table.getD n 0 * 10000 ≤ (arctanBounds n).1 + 6000 ∧
    (arctanBounds n).2 ≤ atan_lookup_table.getD n 0 * 10000 + 6000 := by
  intro n hn
  have h := (atanTableOk_sound atan_lookup_table 0 atanTableOk_true n
    (by rw [atan_table_length]; exact hn)).1
  simpa using h

/-- Consecutive entries of `atan_lookup_table` differ by at least 10 and at most 20. -/
theorem atan_steps_ok : ∀ n < 499,
    10 ≤ atan_lookup_table.getD (n + 1) 0 - atan_lookup_table.getD n 0 ∧
    atan_lookup_table.getD (n + 1) 0 - atan_lookup_table.getD n 0 ≤ 20 := by
  intro n hn
  exact (atanTableOk_sound atan_lookup_table 0 atanTableOk_true n
    (by rw [atan_table_length]; omega)).2 (by rw [atan_table_length]; omega)

set_option maxRecDepth 100000 in
/-- The enclosure of `10^8 * arctan 1`. -/
theorem arctanBounds_500 : arctanBounds 500 = (78539137, 78540137) := by
  decide!

set_option maxRecDepth 100000 in
/-- The last two entries of `atan_lookup_table`. -/
theorem atan_table_last :
    atan_lookup_table.getD 499 0 = 7844 ∧ atan_lookup_table.getD 498 0 = 7834 := by
  decide!

/-- The table branch of `atan`, with the constants written out. -/
theorem atan_table_eq (x : ℚ) (h0 : 0 ≤ x) (h1 : x ≤ 1) :
    atan x =
      if ⌊500 * x⌋ ≥ 500 then table_at atan_lookup_table 499 / 10000
      else if ⌊500 * x⌋ < 499 then
        table_at atan_lookup_table ⌊500 * x⌋ / 10000
          + (500 * x - (⌊500 * x⌋ : ℚ))
            * (table_at atan_lookup_table (⌊500 * x⌋ + 1) - table_at atan_lookup_table ⌊500 * x⌋)
            / 10000
      else
        table_at atan_lookup_table ⌊500 * x⌋ / 10000
          + (500 * x - (⌊500 * x⌋ : ℚ))
            * (table_at atan_lookup_table ⌊500 * x⌋ - table_at atan_lookup_table (⌊500 * x⌋ - 1))
            / 10000 := by
  have ht : (x - atan_min_x) / (atan_max_x - atan_min_x) * ((atan_num_entries : ℤ) : ℚ)
      = 500 * x := by
    simp only [atan_min_x, atan_max_x, atan_num_entries]
    push_cast
    ring
  have hc : int16_cast (500 * x) = ⌊500 * x⌋ := by
    unfold int16_cast
    rw [if_pos (by positivity)]
  rw [atan_eq, if_neg (not_lt.mpr h0), if_neg (not_lt.mpr h1)]
  simp only [ht, hc]
  simp only [atan_num_entries, atan_scale_factor]
  norm_num

/-- Reading a table at a natural-number index. -/
theorem table_at_natCast (table : List Int) (n : ℕ) :
    table_at table (n : ℤ) = ((table.getD n 0 : ℤ) : ℚ) := by
  simp [table_at]

/-- Reading a table one past a natural-number index. -/
theorem table_at_natCast_succ (table : List Int) (n : ℕ) :
    table_at table ((n : ℤ) + 1) = ((table.getD (n + 1) 0 : ℤ) : ℚ) := by
  have h : ((n : ℤ) + 1) = ((n + 1 : ℕ) : ℤ) := by push_cast; ring
  rw [h, table_at_natCast]

/-- Real-arithmetic core of the error estimate inside one slot of the arctangent table. -/
theorem atan_slot_estimate (a ax Tn dT δ : ℝ)
    (hT1 : Tn / 10000 - a ≤ 6 / 100000) (hT2 : a - Tn / 10000 ≤ 6 / 100000)
    (hδ0 : 0 ≤ δ) (hδ1 : δ ≤ 1) (hd1 : 10 ≤ dT) (hd2 : dT ≤ 20)
    (hlo : δ / 1000 ≤ ax - a) (hup : ax - a ≤ δ / 500) :
    |Tn / 10000 + δ * dT / 10000 - ax| ≤ 2 / 1000 := by
  have h1 := mul_le_mul_of_nonneg_left hd2 hδ0
  have h2 := mul_le_mul_of_nonneg_left hd1 hδ0
  rw [abs_le]
  constructor <;> linarith

/-- The node estimate in real form: the table entry at `n < 500` is within `6e-5` of the
arctangent at `n / 500`. -/
theorem atan_node_estimate (n : ℕ) (hn : n < 500) :
    ((atan_lookup_table.getD n 0 : ℤ) : ℝ) / 10000 - Real.arctan ((n : ℝ) / 500) ≤ 6 / 100000 ∧
    Real.arctan ((n : ℝ) / 500) - ((atan_lookup_table.getD n 0 : ℤ) : ℝ) / 10000
      ≤ 6 / 100000 := by
  obtain ⟨h1, h2⟩ := atan_nodes_ok n hn
  obtain ⟨h3, h4⟩ := arctanBounds_sound n
  have h1' : ((atan_lookup_table.getD n 0 * 10000 : ℤ) : ℝ) ≤ (((arctanBounds n).1 + 6000 : ℤ) : ℝ) :=
    Int.cast_le.mpr h1
  have h2' : (((arctanBounds n).2 : ℤ) : ℝ) ≤ ((atan_lookup_table.getD n 0 * 10000 + 6000 : ℤ) : ℝ) :=
    Int.cast_le.mpr h2
  push_cast at h1' h2'
  constructor <;> linarith

/-- Accuracy of `atan` on `[0, 1]`. -/
theorem atan_accuracy_nonneg (x : ℚ) (h0 : 0 ≤ x) (h1 : x ≤ 1) :
    |((atan x : ℚ) : ℝ) - Real.arctan (x : ℝ)| ≤ 2 / 1000 := by
  have hfl0 : 0 ≤ ⌊500 * x⌋ := Int.floor_nonneg.mpr (by positivity)
  obtain ⟨n, hn⟩ : ∃ n : ℕ, (n : ℤ) = ⌊500 * x⌋ := ⟨⌊500 * x⌋.toNat, Int.toNat_of_nonneg hfl0⟩
  have hle : ((n : ℤ) : ℚ) ≤ 500 * x := by rw [hn]; exact Int.floor_le _
  have hlt : 500 * x < ((n : ℤ) : ℚ) + 1 := by rw [hn]; exact Int.lt_floor_add_one _
  have hleR : (n : ℝ) ≤ 500 * (x : ℝ) := by exact_mod_cast hle
  have hltR : 500 * (x : ℝ) < (n : ℝ) + 1 := by exact_mod_cast hlt
  have hx0 : (0 : ℝ) ≤ x := by exact_mod_cast h0
  have hx1 : (x : ℝ) ≤ 1 := by exact_mod_cast h1
  have hn500 : n ≤ 500 := by
    have : (n : ℝ) ≤ 500 := by linarith
    exact_mod_cast this
  rw [atan_table_eq x h0 h1, ← hn]
  rcases Nat.lt_or_ge n 499 with hlt499 | hge499
  · -- an interior slot
    have c1 : ¬ ((n : ℤ) ≥ 500) := by omega
    have c2 : (n : ℤ) < 499 := by omega
    rw [if_neg c1, if_pos c2, table_at_natCast, table_at_natCast_succ]
    obtain ⟨hT1, hT2⟩ := atan_node_estimate n (by omega)
    obtain ⟨hs1, hs2⟩ := atan_steps_ok n hlt499
    have hs1' : ((10 : ℤ) : ℝ)
        ≤ ((atan_lookup_table.getD (n + 1) 0 - atan_lookup_table.getD n 0 : ℤ) : ℝ) :=
      Int.cast_le.mpr hs1
    have hs2' : ((atan_lookup_table.getD (n + 1) 0 - atan_lookup_table.getD n 0 : ℤ) : ℝ)
        ≤ ((20 : ℤ) : ℝ) := Int.cast_le.mpr hs2
    push_cast at hs1' hs2'
    have hxn : (n : ℝ) / 500 ≤ (x : ℝ) := by linarith
    have hlo := arctan_sub_ge (a := (n : ℝ) / 500) (b := (x : ℝ)) (c := 1)
      (by positivity) hxn hx1
    have hup := arctan_sub_le hxn
    have key := atan_slot_estimate (Real.arctan ((n : ℝ) / 500)) (Real.arctan (x : ℝ))
      ((atan_lookup_table.getD n 0 : ℤ) : ℝ)
      (((atan_lookup_table.getD (n + 1) 0 : ℤ) : ℝ) - ((atan_lookup_table.getD n 0 : ℤ) : ℝ))
      (500 * (x : ℝ) - (n : ℝ)) hT1 hT2 (by linarith) (by linarith) hs1' hs2'
      (by norm_num at hlo; linarith) (by linarith)
    push_cast
    exact key
  · rcases Nat.lt_or_ge n 500 with hlt500 | hge500
    · -- the last slot, extrapolated
      have hn499 : n = 499 := by omega
      subst hn499
      have c1 : ¬ (((499 : ℕ) : ℤ) ≥ 500) := by norm_num
      have c2 : ¬ (((499 : ℕ) : ℤ) < 499) := by norm_num
      rw [if_neg c1, if_neg c2, table_at_natCast]
      have e : ((499 : ℕ) : ℤ) - 1 = ((498 : ℕ) : ℤ) := by norm_num
      rw [e, table_at_natCast]
      obtain ⟨hT1, hT2⟩ := atan_node_estimate 499 (by norm_num)
      obtain ⟨t499, t498⟩ := atan_table_last
      rw [t499] at hT1 hT2
      rw [t499, t498]
      push_cast at hleR hltR hT1 hT2
      have hxn : (499 : ℝ) / 500 ≤ (x : ℝ) := by linarith
      have hlo := arctan_sub_ge (a := (499 : ℝ) / 500) (b := (x : ℝ)) (c := 1)
        (by positivity) hxn hx1
      have hup := arctan_sub_le hxn
      have key := atan_slot_estimate (Real.arctan ((499 : ℝ) / 500)) (Real.arctan (x : ℝ))
        7844 10 (500 * (x : ℝ) - 499) hT1 hT2 (by linarith) (by linarith) (by norm_num)
        (by norm_num) (by norm_num at hlo; linarith) (by linarith)
      push_cast
      have e2 : ((7844 : ℝ) - 7834) = 10 := by norm_num
      rw [e2]
      exact key
    · -- the clamped endpoint
      have hn500' : n = 500 := by omega
      subst hn500'
      have c1 : (((500 : ℕ) : ℤ) ≥ 500) := by norm_num
      rw [if_pos c1]
      have e : (499 : ℤ) = ((499 : ℕ) : ℤ) := by norm_num
      rw [e, table_at_natCast, atan_table_last.1]
      have hx : (x : ℝ) = 1 := by
        push_cast at hleR
        linarith
      rw [hx]
      obtain ⟨h3, h4⟩ := arctanBounds_sound 500
      rw [arctanBounds_500] at h3 h4
      push_cast at h3 h4
      rw [show ((500 : ℝ) / 500) = 1 by norm_num] at h3 h4
      push_cast
      rw [abs_le]
      constructor <;> linarith
/-- C4: for every `x` in `[-1, 1]` the table-driven `atan x` differs from the true arctangent of
`x` by at most 0.002 radians; at the clamped endpoint `atan 1 = 0.7844`. -/
theorem atan_accuracy (x : ℚ) (hlo : -1 ≤ x) (hhi : x ≤ 1) :
    |((atan x : ℚ) : ℝ) - Real.arctan (x : ℝ)| ≤ 2 / 1000 ∧ atan 1 = 7844 / 10000 := by
  constructor
  · rcases lt_or_le x 0 with hneg | hpos
    · rw [atan_eq, if_pos hneg]
      have h := atan_accuracy_nonneg (-1 * x) (by linarith) (by linarith)
      have e : (((-1 * x : ℚ)) : ℝ) = -(x : ℝ) := by push_cast; ring
      rw [e, Real.arctan_neg] at h
      push_cast
      rw [abs_le] at h ⊢
      constructor <;> linarith [h.1, h.2]
    · exact atan_accuracy_nonneg x hpos hhi
  · rw [atan_table_eq 1 (by norm_num) (by norm_num)]
    have hf : ⌊(500 : ℚ) * 1⌋ = 500 := by
      rw [mul_one]
      exact Int.floor_natCast (α := ℚ) 500
    rw [hf, if_pos (by norm_num)]
    have e : (499 : ℤ) = ((499 : ℕ) : ℤ) := by norm_num
    rw [e, table_at_natCast, atan_table_last.1]
    norm_num

/-- Witness of C4 at `x = 1/2` and at `x = -1`. -/
theorem atan_accuracy_witness :
    (|((atan (1 / 2) : ℚ) : ℝ) - Real.arctan ((1 / 2 : ℚ) : ℝ)| ≤ 2 / 1000
      ∧ atan 1 = 7844 / 10000) ∧
    (|((atan (-1) : ℚ) : ℝ) - Real.arctan ((-1 : ℚ) : ℝ)| ≤ 2 / 1000
      ∧ atan 1 = 7844 / 10000) :=
  ⟨atan_accuracy (1 / 2) (by norm_num) (by norm_num),
   atan_accuracy (-1) (by norm_num) (by norm_num)⟩

/-! ### Accuracy of `asin` -/

/-- The sine polynomial vanishes at 0. -/
theorem sinP_zero_arg (k : ℕ) : sinP k (0 : ℝ) = 0 := by
  induction k with
  | zero => rfl
  | succ k ih => simp [sinP, ih]

/-- The cosine polynomial is 1 at 0. -/
theorem cosP_zero_arg (k : ℕ) : cosP k (0 : ℝ) = 1 := by
  induction k with
  | zero => rfl
  | succ k ih => simp [cosP, ih]

/-- The derivative of the cosine polynomial is minus the sine polynomial. -/
theorem hasDerivAt_cosP (k : ℕ) (x : ℝ) : HasDerivAt (cosP k) (-(sinP k x)) x := by
  induction k with
  | zero =>
    have h : (cosP 0 : ℝ → ℝ) = fun _ => 1 := by funext y; rfl
    rw [h]
    simpa [sinP] using hasDerivAt_const x (1 : ℝ)
  | succ k ih =>
    have h : (cosP (k + 1) : ℝ → ℝ)
        = fun y => cosP k y + (-1) ^ (k + 1) * y ^ (2 * k + 2) / ((2 * k + 2).factorial : ℝ) := by
      funext y; rfl
    rw [h]
    have hp := ((hasDerivAt_pow (2 * k + 2) x).const_mul ((-1 : ℝ) ^ (k + 1))).div_const
      ((2 * k + 2).factorial : ℝ)
    have hsum := ih.add hp
    convert hsum using 1
    simp only [sinP]
    have hf : ((2 * k + 2).factorial : ℝ) = (2 * k + 2 : ℝ) * ((2 * k + 1).factorial : ℝ) := by
      rw [show 2 * k + 2 = (2 * k + 1) + 1 by ring, Nat.factorial_succ]
      push_cast
      ring
    have hne : ((2 * k + 1).factorial : ℝ) ≠ 0 := by positivity
    have hne2 : (2 * k + 2 : ℝ) ≠ 0 := by positivity
    rw [hf]
    field_simp
    ring

/-- The derivative of the sine polynomial is the cosine polynomial. -/
theorem hasDerivAt_sinP (k : ℕ) (x : ℝ) : HasDerivAt (sinP (k + 1)) (cosP k x) x := by
  induction k with
  | zero =>
    have h : (sinP 1 : ℝ → ℝ) = fun y => y := by funext y; simp [sinP]
    rw [h]
    simpa [cosP] using hasDerivAt_id x
  | succ k ih =>
    have h : (sinP (k + 1 + 1) : ℝ → ℝ)
        = fun y => sinP (k + 1) y
            + (-1) ^ (k + 1) * y ^ (2 * (k + 1) + 1) / ((2 * (k + 1) + 1).factorial : ℝ) := by
      funext y; rfl
    rw [h]
    have hp := ((hasDerivAt_pow (2 * (k + 1) + 1) x).const_mul ((-1 : ℝ) ^ (k + 1))).div_const
      ((2 * (k + 1) + 1).factorial : ℝ)
    have hsum := ih.add hp
    convert hsum using 1
    simp only [cosP]
    have hf : ((2 * (k + 1) + 1).factorial : ℝ)
        = (2 * k + 3 : ℝ) * ((2 * k + 2).factorial : ℝ) := by
      rw [show 2 * (k + 1) + 1 = (2 * k + 2) + 1 by ring, Nat.factorial_succ]
      push_cast
      ring
    have hne : ((2 * k + 2).factorial : ℝ) ≠ 0 := by positivity
    have hne2 : (2 * k + 3 : ℝ) ≠ 0 := by positivity
    rw [hf]
    simp only [Nat.add_sub_cancel]
    have e : 2 * (k + 1) = 2 * k + 2 := by ring
    rw [e]
    field_simp
    ring

/-- A function vanishing at 0 with nonpositive derivative on `[0, ∞)` is nonpositive there. -/
theorem nonpos_of_deriv_nonpos (f f' : ℝ → ℝ) (hf : ∀ x, HasDerivAt f (f' x) x) (h0 : f 0 = 0)
    (h : ∀ x, 0 ≤ x → f' x ≤ 0) : ∀ x, 0 ≤ x → f x ≤ 0 := by
  intro x hx
  have hanti : AntitoneOn f (Set.Ici 0) := by
    apply antitoneOn_of_deriv_nonpos (convex_Ici 0)
    · exact fun y _ => (hf y).continuousAt.continuousWithinAt
    · exact fun y _ => (hf y).differentiableAt.differentiableWithinAt
    · intro y hy
      rw [interior_Ici] at hy
      rw [(hf y).deriv]
      exact h y hy.le
  have := hanti (Set.mem_Ici.mpr (le_refl 0)) (Set.mem_Ici.mpr hx) hx
  linarith

/-- Alternating Taylor bounds of cosine and sine on `[0, ∞)`. -/
theorem taylor_alternating (k : ℕ) : ∀ x : ℝ, 0 ≤ x →
    (-1 : ℝ) ^ k * (Real.cos x - cosP k x) ≤ 0 ∧
    (-1 : ℝ) ^ k * (Real.sin x - sinP (k + 1) x) ≤ 0 := by
  induction k with
  | zero =>
    have hc : ∀ x : ℝ, 0 ≤ x → (-1 : ℝ) ^ 0 * (Real.cos x - cosP 0 x) ≤ 0 := by
      intro x _
      have := Real.cos_le_one x
      simp only [pow_zero, one_mul, cosP]
      linarith
    intro x hx
    refine ⟨hc x hx, ?_⟩
    exact nonpos_of_deriv_nonpos (fun y => (-1 : ℝ) ^ 0 * (Real.sin y - sinP (0 + 1) y))
      (fun y => (-1 : ℝ) ^ 0 * (Real.cos y - cosP 0 y))
      (fun y => ((Real.hasDerivAt_sin y).sub (hasDerivAt_sinP 0 y)).const_mul _)
      (by simp [sinP]) hc x hx
  | succ k ih =>
    have hc : ∀ x : ℝ, 0 ≤ x → (-1 : ℝ) ^ (k + 1) * (Real.cos x - cosP (k + 1) x) ≤ 0 := by
      apply nonpos_of_deriv_nonpos (fun y => (-1 : ℝ) ^ (k + 1) * (Real.cos y - cosP (k + 1) y))
        (fun y => (-1 : ℝ) ^ (k + 1) * (-Real.sin y - -(sinP (k + 1) y)))
        (fun y => ((Real.hasDerivAt_cos y).sub (hasDerivAt_cosP (k + 1) y)).const_mul _)
        (by simp [cosP_zero_arg])
      intro y hy
      have := (ih y hy).2
      rw [pow_succ]
      linarith
    intro x hx
    refine ⟨hc x hx, ?_⟩
    exact nonpos_of_deriv_nonpos
      (fun y => (-1 : ℝ) ^ (k + 1) * (Real.sin y - sinP (k + 1 + 1) y))
      (fun y => (-1 : ℝ) ^ (k + 1) * (Real.cos y - cosP (k + 1) y))
      (fun y => ((Real.hasDerivAt_sin y).sub (hasDerivAt_sinP (k + 1) y)).const_mul _)
      (by simp [sinP_zero_arg]) hc x hx

set_option maxRecDepth 100000 in
/-- The arcsine table has 501 entries. -/
theorem asin_table_length : asin_lookup_table.length = 501 := by
  decide!

set_option maxRecDepth 100000 in
/-- The integer test passes on the slots `0 .. 249` of the arcsine table. -/
theorem asinTableOk_0_250 : asinTableOk asin_lookup_table 0 0 250 = true := by
  decide!

set_option maxRecDepth 100000 in
/-- The integer test passes on the slots `250 .. 399` of the arcsine table. -/
theorem asinTableOk_250_400 : asinTableOk asin_lookup_table 0 250 400 = true := by
  decide!

set_option maxRecDepth 100000 in
/-- The integer test passes on the slots `400 .. 469` of the arcsine table. -/
theorem asinTableOk_400_470 : asinTableOk asin_lookup_table 0 400 470 = true := by
  decide!

set_option maxRecDepth 100000 in
/-- The integer test passes on the slots `470 .. 498` of the arcsine table. -/
theorem asinTableOk_470_499 : asinTableOk asin_lookup_table 0 470 499 = true := by
  decide!

/-- What the fold `asinTableOk` establishes, slot by slot. -/
theorem asinTableOk_sound (l : List Int) (lo hi : ℕ) : ∀ i : ℕ,
    asinTableOk l i lo hi = true →
    ∀ n, n + 1 < l.length → lo ≤ i + n → i + n < hi →
      asinSlotOk (i + n) (l.getD n 0) (l.getD (n + 1) 0) = true := by
  induction l with
  | nil => intro i _ n hn; simp at hn
  | cons a rest ih =>
    intro i h n hn hlo hhi
    cases rest with
    | nil => simp at hn
    | cons b rest' =>
      simp only [asinTableOk, Bool.and_eq_true, Bool.or_eq_true, decide_eq_true_eq] at h
      obtain ⟨hslot, hrest⟩ := h
      cases n with
      | zero =>
        rcases hslot with (h1 | h1) | h1
        · omega
        · omega
        · simpa using h1
      | succ m =>
        have hm : m + 1 < (b :: rest').length := by simpa using hn
        have := ih (i + 1) hrest m hm (by omega) (by omega)
        have e : i + 1 + m = i + (m + 1) := by ring
        rw [e] at this
        simpa using this

/-- Every slot `n ≤ 498` of the arcsine table passes the integer test. -/
theorem asinSlotOk_true (n : ℕ) (hn : n < 499) :
    asinSlotOk n (asin_lookup_table.getD n 0) (asin_lookup_table.getD (n + 1) 0) = true := by
  have hlen : n + 1 < asin_lookup_table.length := by rw [asin_table_length]; omega
  rcases Nat.lt_or_ge n 250 with h1 | h1
  · simpa using asinTableOk_sound _ 0 250 0 asinTableOk_0_250 n hlen (by omega) (by omega)
  rcases Nat.lt_or_ge n 400 with h2 | h2
  · simpa using asinTableOk_sound _ 250 400 0 asinTableOk_250_400 n hlen (by omega) (by omega)
  rcases Nat.lt_or_ge n 470 with h3 | h3
  · simpa using asinTableOk_sound _ 400 470 0 asinTableOk_400_470 n hlen (by omega) (by omega)
  · simpa using asinTableOk_sound _ 470 499 0 asinTableOk_470_499 n hlen (by omega) (by omega)

/-- The integer denominator is positive for a positive `d`. -/
theorem sinDen_pos (d : ℤ) (hd : 0 < d) (k : ℕ) : 0 < sinDen d k := by
  cases k with
  | zero => simp [sinDen]
  | succ k =>
    simp only [sinDen]
    have h1 : 0 < d ^ (2 * k + 1) := pow_pos hd _
    have h2 : (0 : ℤ) < ((2 * k + 1).factorial : ℤ) := by exact_mod_cast Nat.factorial_pos _
    positivity

/-- The integer numerator and denominator represent the sine polynomial at `a / d`. -/
theorem sinP_eq_sinNum (a d : ℤ) (hd : d ≠ 0) (k : ℕ) :
    sinP (k + 1) ((a : ℝ) / (d : ℝ)) * (sinDen d (k + 1) : ℝ) = (sinNum a d (k + 1) : ℝ) := by
  have hd' : (d : ℝ) ≠ 0 := by exact_mod_cast hd
  induction k with
  | zero =>
    simp only [sinP, sinNum, sinDen]
    push_cast
    simp
    field_simp
  | succ k ih =>
    have hD : (sinDen d (k + 1 + 1) : ℝ)
        = (sinDen d (k + 1) : ℝ) * ((d : ℝ) * d * ((2 * (k + 1 : ℕ) : ℝ) * (2 * (k + 1 : ℕ) + 1))) := by
      simp only [sinDen]
      rw [show 2 * (k + 1) + 1 = (2 * k + 1 + 1) + 1 by ring, Nat.factorial_succ,
        Nat.factorial_succ]
      push_cast
      ring
    have hf : ((2 * (k + 1) + 1).factorial : ℝ) ≠ 0 := by positivity
    rw [show sinP (k + 1 + 1) ((a : ℝ) / d) = sinP (k + 1) ((a : ℝ) / d)
        + (-1) ^ (k + 1) * ((a : ℝ) / d) ^ (2 * (k + 1) + 1)
          / ((2 * (k + 1) + 1).factorial : ℝ) from rfl]
    have e1 : sinP (k + 1) ((a : ℝ) / d) * (sinDen d (k + 1 + 1) : ℝ)
        = (sinNum a d (k + 1) : ℝ)
          * ((d : ℝ) * d * ((2 * (k + 1 : ℕ) : ℝ) * (2 * (k + 1 : ℕ) + 1))) := by
      rw [hD, ← mul_assoc, ih]
    have e2 : (-1 : ℝ) ^ (k + 1) * ((a : ℝ) / d) ^ (2 * (k + 1) + 1)
          / ((2 * (k + 1) + 1).factorial : ℝ) * (sinDen d (k + 1 + 1) : ℝ)
        = (-1) ^ (k + 1) * (a : ℝ) ^ (2 * (k + 1) + 1) := by
      simp only [sinDen]
      push_cast
      field_simp
    rw [add_mul, e1, e2]
    rw [show sinNum a d (k + 1 + 1) = sinNum a d (k + 1)
        * (d * d * ((2 * (k + 1 : ℕ) : ℤ) * (2 * (k + 1 : ℕ) + 1)))
        + (-1) ^ (k + 1) * a ^ (2 * (k + 1) + 1) from rfl]
    push_cast
    ring
/-- Certified upper bound of the sine at a nonnegative rational angle `a / d`. -/
theorem sin_le_of_sinNum (a d : ℤ) (hd : 0 < d) (ha : 0 ≤ a) (p : ℝ)
    (h : (sinNum a d 5 : ℝ) ≤ p * (sinDen d 5 : ℝ)) : Real.sin ((a : ℝ) / d) ≤ p := by
  have hd' : (0 : ℝ) < d := by exact_mod_cast hd
  have ha' : (0 : ℝ) ≤ a := by exact_mod_cast ha
  have hD : (0 : ℝ) < (sinDen d 5 : ℝ) := by exact_mod_cast sinDen_pos d hd 5
  have ht := (taylor_alternating 4 ((a : ℝ) / d) (by positivity)).2
  have hs : Real.sin ((a : ℝ) / d) ≤ sinP 5 ((a : ℝ) / d) := by
    norm_num at ht
    linarith
  have hl := sinP_eq_sinNum a d hd.ne' 4
  have : sinP 5 ((a : ℝ) / d) ≤ p := by
    rw [← hl] at h
    exact le_of_mul_le_mul_right h hD
  linarith

/-- Certified lower bound of the sine at a nonnegative rational angle `a / d`. -/
theorem le_sin_of_sinNum (a d : ℤ) (hd : 0 < d) (ha : 0 ≤ a) (p : ℝ)
    (h : p * (sinDen d 6 : ℝ) ≤ (sinNum a d 6 : ℝ)) : p ≤ Real.sin ((a : ℝ) / d) := by
  have hd' : (0 : ℝ) < d := by exact_mod_cast hd
  have ha' : (0 : ℝ) ≤ a := by exact_mod_cast ha
  have hD : (0 : ℝ) < (sinDen d 6 : ℝ) := by exact_mod_cast sinDen_pos d hd 6
  have ht := (taylor_alternating 5 ((a : ℝ) / d) (by positivity)).2
  have hs : sinP 6 ((a : ℝ) / d) ≤ Real.sin ((a : ℝ) / d) := by
    norm_num at ht
    linarith
  have hl := sinP_eq_sinNum a d hd.ne' 5
  have : p ≤ sinP 6 ((a : ℝ) / d) := by
    rw [← hl] at h
    exact le_of_mul_le_mul_right h hD
  linarith

set_option maxHeartbeats 1000000 in
/-- Error estimate on one piece of one slot of the arcsine table, from the integer test. -/
theorem asin_piece (n : ℕ) (K j T0 T1 : ℤ) (hK : 0 < K) (hj0 : 0 ≤ j)
    (hA : T0 * K + (j + 1) * (T1 - T0) - 20 * K ≤ 0 ∨
      sinNum (T0 * K + (j + 1) * (T1 - T0) - 20 * K) (10000 * K) 5 * (500 * K)
        ≤ (n * K + j) * sinDen (10000 * K) 5)
    (hB : (n * K + j + 1) * sinDen (10000 * K) 6
        ≤ sinNum (T0 * K + j * (T1 - T0) + 20 * K) (10000 * K) 6 * (500 * K))
    (hM0 : 0 ≤ T0 * K + j * (T1 - T0))
    (hM1 : T0 * K + (j + 1) * (T1 - T0) + 20 * K ≤ 15100 * K)
    (hT : 0 ≤ T1 - T0)
    (x δ : ℝ) (hδ1 : (j : ℝ) / K ≤ δ) (hδ2 : δ ≤ ((j : ℝ) + 1) / K)
    (hx : x = ((n : ℝ) + δ) / 500) (hx1 : x ≤ 1) :
    |((T0 : ℝ) + δ * ((T1 : ℝ) - T0)) / 10000 - Real.arcsin x| ≤ 2 / 1000 := by
  have hKR : (0 : ℝ) < K := by exact_mod_cast hK
  have hjR : (0 : ℝ) ≤ j := by exact_mod_cast hj0
  have hTR : (0 : ℝ) ≤ (T1 : ℝ) - T0 := by exact_mod_cast hT
  have hd : (0 : ℤ) < 10000 * K := by positivity
  have hδ0 : 0 ≤ δ := le_trans (by positivity) hδ1
  have hx0 : 0 ≤ x := by rw [hx]; positivity
  have hxm : x ∈ Set.Icc (-1 : ℝ) 1 := ⟨by linarith, hx1⟩
  have hpi : (3.14 : ℝ) < Real.pi := Real.pi_gt_d2
  have hM0R : (0 : ℝ) ≤ (T0 : ℝ) * K + j * ((T1 : ℝ) - T0) := by exact_mod_cast hM0
  have hM1R : (T0 : ℝ) * K + (j + 1) * ((T1 : ℝ) - T0) + 20 * K ≤ 15100 * K := by
    exact_mod_cast hM1
  -- the interpolated value lies between its values at the ends of the piece
  have hm1 : ((T0 : ℝ) * K + j * ((T1 : ℝ) - T0)) / (10000 * K)
      ≤ ((T0 : ℝ) + δ * ((T1 : ℝ) - T0)) / 10000 := by
    rw [div_le_div_iff₀ (by positivity) (by norm_num)]
    have := mul_le_mul_of_nonneg_right hδ1 hTR
    have h2 : (j : ℝ) / K * ((T1 : ℝ) - T0) * K = j * ((T1 : ℝ) - T0) := by
      field_simp
    nlinarith
  have hm2 : ((T0 : ℝ) + δ * ((T1 : ℝ) - T0)) / 10000
      ≤ ((T0 : ℝ) * K + (j + 1) * ((T1 : ℝ) - T0)) / (10000 * K) := by
    rw [div_le_div_iff₀ (by norm_num) (by positivity)]
    have := mul_le_mul_of_nonneg_right hδ2 hTR
    have h2 : ((j : ℝ) + 1) / K * ((T1 : ℝ) - T0) * K = (j + 1) * ((T1 : ℝ) - T0) := by
      field_simp
    nlinarith
  -- the argument lies between the ends of the piece
  have hp1 : ((n : ℝ) * K + j) / (500 * K) ≤ x := by
    rw [hx, div_le_div_iff₀ (by positivity) (by norm_num)]
    have h2 : (j : ℝ) / K * K = j := by field_simp
    nlinarith
  have hp2 : x ≤ ((n : ℝ) * K + j + 1) / (500 * K) := by
    rw [hx, div_le_div_iff₀ (by norm_num) (by positivity)]
    have h2 : ((j : ℝ) + 1) / K * K = j + 1 := by field_simp
    nlinarith
  rw [abs_le]
  constructor
  · -- arcsin x ≤ value + 0.002
    have ha : (0 : ℤ) ≤ T0 * K + j * (T1 - T0) + 20 * K := by linarith
    have hB' : ((n : ℝ) * K + j + 1) / (500 * K) * (sinDen (10000 * K) 6 : ℝ)
        ≤ (sinNum (T0 * K + j * (T1 - T0) + 20 * K) (10000 * K) 6 : ℝ) := by
      have hBR : (((n * K + j + 1) * sinDen (10000 * K) 6 : ℤ) : ℝ)
          ≤ ((sinNum (T0 * K + j * (T1 - T0) + 20 * K) (10000 * K) 6 * (500 * K) : ℤ) : ℝ) :=
        Int.cast_le.mpr hB
      push_cast at hBR
      rw [div_mul_eq_mul_div, div_le_iff₀ (by positivity)]
      exact hBR
    have hs := le_sin_of_sinNum _ _ hd ha _ hB'
    have hθ : ((T0 * K + j * (T1 - T0) + 20 * K : ℤ) : ℝ) / ((10000 * K : ℤ) : ℝ)
        = ((T0 : ℝ) * K + j * ((T1 : ℝ) - T0)) / (10000 * K) + 2 / 1000 := by
      push_cast
      field_simp
      ring
    rw [hθ] at hs
    have hθ1 : ((T0 : ℝ) * K + j * ((T1 : ℝ) - T0)) / (10000 * K) + 2 / 1000 ≤ 151 / 100 := by
      rw [← le_sub_iff_add_le, div_le_iff₀ (by positivity)]
      nlinarith
    have hθ0 : 0 ≤ ((T0 : ℝ) * K + j * ((T1 : ℝ) - T0)) / (10000 * K) := by positivity
    have := (Real.arcsin_le_iff_le_sin hxm
      ⟨by linarith, by linarith⟩).mpr (le_trans hp2 hs)
    linarith
  · -- value - 0.002 ≤ arcsin x
    have hnn := Real.arcsin_nonneg.mpr hx0
    rcases le_or_lt (T0 * K + (j + 1) * (T1 - T0) - 20 * K) 0 with hneg | hpos
    · have hnegR : (T0 : ℝ) * K + (j + 1) * ((T1 : ℝ) - T0) - 20 * K ≤ 0 := by
        exact_mod_cast hneg
      have : ((T0 : ℝ) * K + (j + 1) * ((T1 : ℝ) - T0)) / (10000 * K) ≤ 2 / 1000 := by
        rw [div_le_iff₀ (by positivity)]
        linarith
      linarith
    · rcases hA with hA | hA
      · omega
      · have hA' : (sinNum (T0 * K + (j + 1) * (T1 - T0) - 20 * K) (10000 * K) 5 : ℝ)
            ≤ ((n : ℝ) * K + j) / (500 * K) * (sinDen (10000 * K) 5 : ℝ) := by
          have hAR : ((sinNum (T0 * K + (j + 1) * (T1 - T0) - 20 * K) (10000 * K) 5
              * (500 * K) : ℤ) : ℝ) ≤ (((n * K + j) * sinDen (10000 * K) 5 : ℤ) : ℝ) :=
            Int.cast_le.mpr hA
          push_cast at hAR
          rw [div_mul_eq_mul_div, le_div_iff₀ (by positivity)]
          exact hAR
        have hs := sin_le_of_sinNum _ _ hd hpos.le _ hA'
        have hθ : ((T0 * K + (j + 1) * (T1 - T0) - 20 * K : ℤ) : ℝ) / ((10000 * K : ℤ) : ℝ)
            = ((T0 : ℝ) * K + (j + 1) * ((T1 : ℝ) - T0)) / (10000 * K) - 2 / 1000 := by
          push_cast
          field_simp
          ring
        rw [hθ] at hs
        have hθ1 : ((T0 : ℝ) * K + (j + 1) * ((T1 : ℝ) - T0)) / (10000 * K) ≤ 151 / 100 := by
          rw [div_le_iff₀ (by positivity)]
          nlinarith
        have hθ0 : 0 ≤ ((T0 : ℝ) * K + (j + 1) * ((T1 : ℝ) - T0)) / (10000 * K) :=
          le_trans (by positivity) (le_trans hm1 hm2)
        have := (Real.le_arcsin_iff_sin_le
          ⟨by linarith, by linarith⟩ hxm).mpr (le_trans hs hp1)
        linarith

/-- Error estimate on one slot of the arcsine table: for `n ≤ 498`, at an offset `δ ∈ [0, 1]`
from the grid point `n / 500`, the interpolated value is within 0.002 of the arcsine. -/
theorem asin_slot (n : ℕ) (hn : n < 499) (x δ : ℝ) (hδ0 : 0 ≤ δ) (hδ1 : δ ≤ 1)
    (hx : x = ((n : ℝ) + δ) / 500) (hx1 : x ≤ 1) :
    |(((asin_lookup_table.getD n 0 : ℤ) : ℝ)
        + δ * (((asin_lookup_table.getD (n + 1) 0 : ℤ) : ℝ)
            - ((asin_lookup_table.getD n 0 : ℤ) : ℝ))) / 10000
      - Real.arcsin x| ≤ 2 / 1000 := by
  have hslot := asinSlotOk_true n hn
  unfold asinSlotOk at hslot
  simp only [Bool.and_eq_true, decide_eq_true_eq, List.all_eq_true, List.mem_range] at hslot
  obtain ⟨hT, hpieces⟩ := hslot
  generalize asin_lookup_table.getD n 0 = T0 at hT hpieces ⊢
  generalize asin_lookup_table.getD (n + 1) 0 = T1 at hT hpieces ⊢
  have hK : 0 < asinPieces T0 T1 := by
    unfold asinPieces
    split
    · have : 0 ≤ (T1 - T0) / 16 := Int.ediv_nonneg hT (by norm_num)
      omega
    · have : 0 ≤ (T1 - T0) / 9 := Int.ediv_nonneg hT (by norm_num)
      omega
  generalize asinPieces T0 T1 = K at hK hpieces
  have hKR : (0 : ℝ) < K := by exact_mod_cast hK
  obtain ⟨Kn, hKn⟩ : ∃ Kn : ℕ, (Kn : ℤ) = K := ⟨K.toNat, Int.toNat_of_nonneg hK.le⟩
  have hKn1 : 1 ≤ Kn := by omega
  have hKnR : (Kn : ℝ) = (K : ℝ) := by exact_mod_cast congrArg (fun z : ℤ => (z : ℝ)) hKn
  -- the piece that contains the offset
  have hfl : (⌊δ * K⌋₊ : ℝ) ≤ δ * K := Nat.floor_le (by positivity)
  have hfl2 : δ * K < (⌊δ * K⌋₊ : ℝ) + 1 := Nat.lt_floor_add_one _
  have hjlt : min ⌊δ * K⌋₊ (Kn - 1) < K.toNat := by
    have : K.toNat = Kn := by omega
    rw [this]
    have := min_le_right ⌊δ * K⌋₊ (Kn - 1)
    omega
  have hp := hpieces (min ⌊δ * K⌋₊ (Kn - 1)) hjlt
  unfold asinPieceOk at hp
  simp only [decide_eq_true_eq] at hp
  obtain ⟨hA, hB, hM0, hM1⟩ := hp
  have hj1 : (((min ⌊δ * K⌋₊ (Kn - 1) : ℕ) : ℤ) : ℝ) / K ≤ δ := by
    rw [div_le_iff₀ hKR]
    have : ((min ⌊δ * K⌋₊ (Kn - 1) : ℕ) : ℝ) ≤ (⌊δ * K⌋₊ : ℝ) :=
      Nat.cast_le.mpr (min_le_left _ _)
    push_cast at this ⊢
    linarith
  have hj2 : δ ≤ ((((min ⌊δ * K⌋₊ (Kn - 1) : ℕ) : ℤ) : ℝ) + 1) / K := by
    rw [le_div_iff₀ hKR]
    rcases le_total ⌊δ * K⌋₊ (Kn - 1) with h | h
    · rw [min_eq_left h]
      push_cast
      linarith
    · rw [min_eq_right h]
      have e : (((Kn - 1 : ℕ) : ℤ) : ℝ) + 1 = (K : ℝ) := by
        rw [← hKnR]
        have : ((Kn - 1 : ℕ) : ℝ) = (Kn : ℝ) - 1 := by
          rw [Nat.cast_sub hKn1]
          simp
        push_cast [this]
        ring
      rw [e]
      nlinarith
  exact asin_piece n K _ T0 T1 hK (by positivity) hA hB hM0 hM1 hT x δ hj1 hj2 hx hx1
set_option maxRecDepth 100000 in
/-- The last three entries of `asin_lookup_table`. -/
theorem asin_table_last :
    asin_lookup_table.getD 500 0 = 15708 ∧ asin_lookup_table.getD 499 0 = 15075 ∧
    asin_lookup_table.getD 498 0 = 14813 := by
  decide!

/-- The table branch of `asin`, with the constants written out. -/
theorem asin_table_eq (x : ℚ) (h0 : 0 ≤ x) :
    asin x =
      if ⌊500 * x⌋ ≥ 500 then table_at asin_lookup_table 500 / 10000
      else if ⌊500 * x⌋ < 499 then
        table_at asin_lookup_table ⌊500 * x⌋ / 10000
          + (500 * x - (⌊500 * x⌋ : ℚ))
            * (table_at asin_lookup_table (⌊500 * x⌋ + 1) - table_at asin_lookup_table ⌊500 * x⌋)
            / 10000
      else
        table_at asin_lookup_table ⌊500 * x⌋ / 10000
          + (500 * x - (⌊500 * x⌋ : ℚ))
            * (table_at asin_lookup_table ⌊500 * x⌋ - table_at asin_lookup_table (⌊500 * x⌋ - 1))
            / 10000 := by
  have ht : (x - asin_min_x) / (asin_max_x - asin_min_x) * ((asin_num_entries : ℤ) : ℚ)
      = 500 * x := by
    simp only [asin_min_x, asin_max_x, asin_num_entries]
    push_cast
    ring
  have hc : int16_cast (500 * x) = ⌊500 * x⌋ := by
    unfold int16_cast
    rw [if_pos (by positivity)]
  rw [asin_eq, if_neg (not_lt.mpr h0)]
  simp only [ht, hc]
  simp only [asin_num_entries, asin_scale_factor]
  norm_num

/-- The value of `asin` at 0.999: slot 499, extrapolated from the entries 14813 and 15075. -/
theorem asin_at_999 : asin (999 / 1000) = 15206 / 10000 := by
  rw [asin_table_eq _ (by norm_num)]
  have hf : ⌊(500 : ℚ) * (999 / 1000)⌋ = 499 := by
    rw [Int.floor_eq_iff]
    constructor <;> norm_num
  rw [hf, if_neg (by norm_num), if_neg (by norm_num)]
  have e1 : (499 : ℤ) = ((499 : ℕ) : ℤ) := by norm_num
  have e2 : (499 : ℤ) - 1 = ((498 : ℕ) : ℤ) := by norm_num
  rw [e2, e1, table_at_natCast, table_at_natCast, asin_table_last.2.1, asin_table_last.2.2]
  norm_num

/-- C3 (as stated, refuted): at `x = 0.999`, in the last table slot, `asin` returns 1.5206 while
the true arcsine exceeds 1.5226, so the two differ by more than 0.002. -/
theorem asin_error_at_999 :
    ¬ |((asin (999 / 1000) : ℚ) : ℝ) - Real.arcsin ((999 / 1000 : ℚ) : ℝ)| ≤ 2 / 1000 := by
  have hpi := Real.pi_gt_d2
  have hs : Real.sin (((15226 : ℤ) : ℝ) / ((10000 : ℤ) : ℝ)) ≤ 9989 / 10000 := by
    apply sin_le_of_sinNum 15226 10000 (by norm_num) (by norm_num)
    have h : sinNum 15226 10000 5 * 10000 ≤ 9989 * sinDen 10000 5 := by decide!
    have h' : ((sinNum 15226 10000 5 * 10000 : ℤ) : ℝ) ≤ ((9989 * sinDen 10000 5 : ℤ) : ℝ) :=
      Int.cast_le.mpr h
    push_cast at h'
    linarith
  have hlt : (15226 : ℝ) / 10000 < Real.arcsin (999 / 1000) := by
    rw [Real.lt_arcsin_iff_sin_lt ⟨by norm_num at hpi ⊢; linarith, by norm_num at hpi ⊢; linarith⟩
      ⟨by norm_num, by norm_num⟩]
    push_cast at hs
    linarith
  rw [asin_at_999]
  push_cast
  intro h
  rw [abs_le] at h
  linarith [h.1]
/-- Accuracy of `asin` on `[0, 0.998]`. -/
theorem asin_accuracy_nonneg (x : ℚ) (h0 : 0 ≤ x) (h1 : x ≤ 998 / 1000) :
    |((asin x : ℚ) : ℝ) - Real.arcsin (x : ℝ)| ≤ 2 / 1000 := by
  have hfl0 : 0 ≤ ⌊500 * x⌋ := Int.floor_nonneg.mpr (by positivity)
  obtain ⟨n, hn⟩ : ∃ n : ℕ, (n : ℤ) = ⌊500 * x⌋ := ⟨⌊500 * x⌋.toNat, Int.toNat_of_nonneg hfl0⟩
  have hle : ((n : ℤ) : ℚ) ≤ 500 * x := by rw [hn]; exact Int.floor_le _
  have hlt : 500 * x < ((n : ℤ) : ℚ) + 1 := by rw [hn]; exact Int.lt_floor_add_one _
  have hleR : (n : ℝ) ≤ 500 * (x : ℝ) := by exact_mod_cast hle
  have hltR : 500 * (x : ℝ) < (n : ℝ) + 1 := by exact_mod_cast hlt
  have hx0 : (0 : ℝ) ≤ x := by exact_mod_cast h0
  have hx1 : (x : ℝ) ≤ 998 / 1000 := by
    have : ((x : ℚ) : ℝ) ≤ ((998 / 1000 : ℚ) : ℝ) := Rat.cast_le.mpr h1
    push_cast at this
    exact this
  have hn499 : n ≤ 499 := by
    have : (n : ℝ) ≤ 499 := by linarith
    exact_mod_cast this
  rw [asin_table_eq x h0, ← hn]
  rcases Nat.lt_or_ge n 499 with hlt499 | hge499
  · have c1 : ¬ ((n : ℤ) ≥ 500) := by omega
    have c2 : (n : ℤ) < 499 := by omega
    rw [if_neg c1, if_pos c2, table_at_natCast, table_at_natCast_succ]
    have key := asin_slot n hlt499 (x : ℝ) (500 * (x : ℝ) - n) (by linarith) (by linarith)
      (by ring) (by linarith)
    push_cast
    have e : ((asin_lookup_table.getD n 0 : ℤ) : ℝ) / 10000
        + (500 * (x : ℝ) - n) * (((asin_lookup_table.getD (n + 1) 0 : ℤ) : ℝ)
            - ((asin_lookup_table.getD n 0 : ℤ) : ℝ)) / 10000
        = (((asin_lookup_table.getD n 0 : ℤ) : ℝ)
            + (500 * (x : ℝ) - n) * (((asin_lookup_table.getD (n + 1) 0 : ℤ) : ℝ)
              - ((asin_lookup_table.getD n 0 : ℤ) : ℝ))) / 10000 := by ring
    rw [e]
    exact key
  · have hn' : n = 499 := by omega
    subst hn'
    push_cast at hleR
    have hx : (x : ℝ) = 499 / 500 := by linarith
    have c1 : ¬ (((499 : ℕ) : ℤ) ≥ 500) := by norm_num
    have c2 : ¬ (((499 : ℕ) : ℤ) < 499) := by norm_num
    rw [if_neg c1, if_neg c2, table_at_natCast]
    have e : ((499 : ℕ) : ℤ) - 1 = ((498 : ℕ) : ℤ) := by norm_num
    rw [e, table_at_natCast, asin_table_last.2.1, asin_table_last.2.2]
    have key := asin_slot 498 (by norm_num) (x : ℝ) 1 (by norm_num) (by norm_num)
      (by rw [hx]; norm_num) (by linarith)
    rw [show (498 + 1 : ℕ) = 499 from rfl, asin_table_last.2.1, asin_table_last.2.2] at key
    push_cast at key ⊢
    rw [hx] at key ⊢
    have e2 : (15075 : ℝ) / 10000 + (500 * (499 / 500) - 499) * (15075 - 14813) / 10000
        = (14813 + 1 * (15075 - 14813)) / 10000 := by norm_num
    rw [e2]
    exact key

/-- Accuracy of `asin` on `[0, 0.998]` and at 1. -/
theorem asin_accuracy_nonneg' (x : ℚ) (h0 : 0 ≤ x) (h : x ≤ 998 / 1000 ∨ x = 1) :
    |((asin x : ℚ) : ℝ) - Real.arcsin (x : ℝ)| ≤ 2 / 1000 := by
  rcases h with h | h
  · exact asin_accuracy_nonneg x h0 h
  · subst h
    rw [asin_table_eq 1 (by norm_num)]
    have hf : ⌊(500 : ℚ) * 1⌋ = 500 := by
      rw [mul_one]
      exact Int.floor_natCast (α := ℚ) 500
    rw [hf, if_pos (by norm_num)]
    have e : (500 : ℤ) = ((500 : ℕ) : ℤ) := by norm_num
    rw [e, table_at_natCast, asin_table_last.1]
    push_cast
    rw [Real.arcsin_one, abs_le]
    have h1 := Real.pi_gt_d4
    have h2 := Real.pi_lt_d4
    constructor <;> norm_num at h1 h2 ⊢ <;> linarith

/-- C3 (amended): for every `x` with `|x| ≤ 0.998`, and for `x = ±1`, the table-driven `asin x`
differs from the true arcsine of `x` by at most 0.002 radians. -/
theorem asin_accuracy (x : ℚ) (h : |x| ≤ 998 / 1000 ∨ |x| = 1) :
    |((asin x : ℚ) : ℝ) - Real.arcsin (x : ℝ)| ≤ 2 / 1000 := by
  rcases lt_or_le x 0 with hneg | hpos
  · rw [abs_of_neg hneg] at h
    rw [asin_eq, if_pos hneg]
    have h' : -1 * x ≤ 998 / 1000 ∨ -1 * x = 1 := by
      rcases h with h | h
      · left; linarith
      · right; linarith
    have key := asin_accuracy_nonneg' (-1 * x) (by linarith) h'
    have e : (((-1 * x : ℚ)) : ℝ) = -(x : ℝ) := by push_cast; ring
    rw [e, Real.arcsin_neg] at key
    push_cast
    rw [abs_le] at key ⊢
    constructor <;> linarith [key.1, key.2]
  · rw [abs_of_nonneg hpos] at h
    exact asin_accuracy_nonneg' x hpos h

/-- Witness of C3 (amended) at `x = 1/2`, `x = -0.998` and `x = 1`. -/
theorem asin_accuracy_witness :
    |((asin (1 / 2) : ℚ) : ℝ) - Real.arcsin ((1 / 2 : ℚ) : ℝ)| ≤ 2 / 1000 ∧
    |((asin (-998 / 1000) : ℚ) : ℝ) - Real.arcsin ((-998 / 1000 : ℚ) : ℝ)| ≤ 2 / 1000 ∧
    |((asin 1 : ℚ) : ℝ) - Real.arcsin ((1 : ℚ) : ℝ)| ≤ 2 / 1000 :=
  ⟨asin_accuracy (1 / 2) (Or.inl (by rw [abs_of_nonneg] <;> norm_num)),
   asin_accuracy (-998 / 1000) (Or.inl (by rw [abs_of_neg] <;> norm_num)),
   asin_accuracy 1 (Or.inr (by norm_num))⟩

/-! ### Symmetry, domain reduction and clamping of `atan` and `asin` -/

/-- On a negative argument `atan` negates its value at the negated argument. -/
theorem atan_of_neg (x : ℚ) (h : x < 0) : atan x = -1 * atan (-1 * x) := by
  conv_lhs => rw [atan_eq]
  rw [if_pos h]

/-- On an argument above 1 `atan` uses the reciprocal. -/
theorem atan_of_gt_one (x : ℚ) (h : 1 < x) : atan x = M_PI / 2 - atan (1 / x) := by
  conv_lhs => rw [atan_eq]
  rw [if_neg (by linarith), if_pos h]

/-- On `[0, 1]` the function `atan` is its table lookup. -/
theorem atan_of_unit (x : ℚ) (h0 : 0 ≤ x) (h1 : x ≤ 1) : atan x = atan_table x := by
  conv_lhs => rw [atan_eq]
  rw [if_neg (not_lt.mpr h0), if_neg (not_lt.mpr h1)]
  rfl

/-- On a negative argument `asin` negates its value at the negated argument. -/
theorem asin_of_neg (x : ℚ) (h : x < 0) : asin x = -1 * asin (-1 * x) := by
  conv_lhs => rw [asin_eq]
  rw [if_pos h]

/-- On a non-negative argument `asin` is its table lookup. -/
theorem asin_of_nonneg (x : ℚ) (h0 : 0 ≤ x) : asin x = asin_table x := by
  conv_lhs => rw [asin_eq]
  rw [if_neg (not_lt.mpr h0)]
  rfl

/-- The first table entry: `atan 0 = 0`. -/
theorem atan_zero : atan 0 = 0 := by
  rw [atan_of_unit 0 le_rfl (by norm_num)]
  have h : int16_cast 0 = 0 := by simp [int16_cast]
  have e : table_at atan_lookup_table 0 = 0 := by
    have e0 : atan_lookup_table.getD (Int.toNat 0) 0 = 0 := by decide
    unfold table_at
    rw [e0]
    simp
  simp [atan_table, atan_min_x, atan_max_x, atan_num_entries, h, e]

/-- The first table entry: `asin 0 = 0`. -/
theorem asin_zero : asin 0 = 0 := by
  rw [asin_of_nonneg 0 le_rfl]
  have h : int16_cast 0 = 0 := by simp [int16_cast]
  have e : table_at asin_lookup_table 0 = 0 := by
    have e0 : asin_lookup_table.getD (Int.toNat 0) 0 = 0 := by decide
    unfold table_at
    rw [e0]
    simp
  simp [asin_table, asin_min_x, asin_max_x, asin_num_entries, h, e]

/-- C11: `atan` is odd, `atan (-x) = -atan x` for every `x`. -/
theorem atan_odd (x : ℚ) : atan (-x) = -atan x := by
  rcases lt_trichotomy x 0 with h | h | h
  · rw [atan_of_neg x h, neg_one_mul, neg_one_mul, neg_neg]
  · subst h
    simp [atan_zero]
  · rw [atan_of_neg (-x) (by linarith), neg_one_mul, neg_one_mul, neg_neg]

/-- C12: `asin` is odd, `asin (-x) = -asin x` for every `x`. -/
theorem asin_odd (x : ℚ) : asin (-x) = -asin x := by
  rcases lt_trichotomy x 0 with h | h | h
  · rw [asin_of_neg x h, neg_one_mul, neg_one_mul, neg_neg]
  · subst h
    simp [asin_zero]
  · rw [asin_of_neg (-x) (by linarith), neg_one_mul, neg_one_mul, neg_neg]

/-- C13: for `|x| > 1`, `atan x = sign x * (π / 2) - atan (1 / x)` with the program constant
`M_PI` for `π`; the value is obtained from the table lookup at `1 / |x|`, which lies in
`[0, 1]`. -/
theorem atan_domain_reduction (x : ℚ) (hx : 1 < |x|) :
    atan x = fsign x * (M_PI / 2) - atan (1 / x) ∧
    0 ≤ 1 / |x| ∧ 1 / |x| ≤ 1 ∧
    atan x = fsign x * (M_PI / 2 - atan_table (1 / |x|)) := by
  have hpos : 0 < |x| := by linarith
  have h0 : 0 ≤ 1 / |x| := by positivity
  have h1 : 1 / |x| ≤ 1 := by
    rw [div_le_one hpos]
    exact hx.le
  refine ⟨?_, h0, h1, ?_⟩
  · rcases lt_or_le x 0 with h | h
    · have hx1 : 1 < -x := by rwa [abs_of_neg h] at hx
      have hs : fsign x = -1 := by
        unfold fsign
        rw [if_neg (by linarith), if_pos h]
        norm_num
      have hr : 1 / x < 0 := one_div_neg.mpr h
      have e : -1 * (1 / x) = 1 / -x := by
        rw [div_neg]
        ring
      rw [hs, atan_of_neg x h, neg_one_mul, neg_one_mul, atan_of_gt_one (-x) hx1,
        atan_of_neg (1 / x) hr, e]
      ring
    · have hx1 : 1 < x := by rwa [abs_of_nonneg h] at hx
      have hs : fsign x = 1 := by
        unfold fsign
        rw [if_pos (by linarith), if_neg (by linarith)]
        norm_num
      rw [hs, atan_of_gt_one x hx1]
      ring
  · rcases lt_or_le x 0 with h | h
    · have hx1 : 1 < -x := by rwa [abs_of_neg h] at hx
      have hs : fsign x = -1 := by
        unfold fsign
        rw [if_neg (by linarith), if_pos h]
        norm_num
      rw [hs, atan_of_neg x h, neg_one_mul, neg_one_mul, atan_of_gt_one (-x) hx1,
        abs_of_neg h, atan_of_unit (1 / -x) (by rwa [abs_of_neg h] at h0)
          (by rwa [abs_of_neg h] at h1)]
      ring
    · have hx1 : 1 < x := by rwa [abs_of_nonneg h] at hx
      have hs : fsign x = 1 := by
        unfold fsign
        rw [if_pos (by linarith), if_neg (by linarith)]
        norm_num
      rw [hs, atan_of_gt_one x hx1, abs_of_nonneg h,
        atan_of_unit (1 / x) (by rwa [abs_of_nonneg h] at h0) (by rwa [abs_of_nonneg h] at h1)]
      ring

/-- Witness of C13 at `x = -2`: `atan (-2) = -(π / 2) - atan (-1 / 2)`, looked up at `1 / 2`. -/
theorem atan_domain_reduction_witness :
    (1 : ℚ) < |(-2 : ℚ)| ∧
    (atan (-2) = fsign (-2) * (M_PI / 2) - atan (1 / (-2)) ∧
      0 ≤ 1 / |(-2 : ℚ)| ∧ 1 / |(-2 : ℚ)| ≤ 1 ∧
      atan (-2) = fsign (-2) * (M_PI / 2 - atan_table (1 / |(-2 : ℚ)|))) :=
  ⟨by norm_num, atan_domain_reduction (-2) (by norm_num)⟩

/-- C14: for `1 ≤ x ≤ 65` the scaled position `500 x` fits the 16-bit index, `asin x` is exactly
the final table entry, `1.5708`, and `asin (-x)` is exactly `-1.5708`. -/
theorem asin_clamp (x : ℚ) (h1 : 1 ≤ x) (h65 : x ≤ 65) :
    int16_cast ((x - asin_min_x) / (asin_max_x - asin_min_x) * (asin_num_entries : ℚ)) ≤ 32767 ∧
    asin x = table_at asin_lookup_table 500 / asin_scale_factor ∧
    asin x = 15708 / 10000 ∧ asin (-x) = -(15708 / 10000) := by
  have hfit : int16_cast
      ((x - asin_min_x) / (asin_max_x - asin_min_x) * (asin_num_entries : ℚ)) ≤ 32767 := by
    have ht : (x - asin_min_x) / (asin_max_x - asin_min_x) * (asin_num_entries : ℚ) = x * 500 := by
      norm_num [asin_min_x, asin_max_x, asin_num_entries]
    rw [ht]
    unfold int16_cast
    rw [if_pos (by linarith)]
    have h2 : ⌊x * 500⌋ < 32767 + 1 := by
      apply Int.floor_lt.mpr
      push_cast
      linarith
    omega
  have hidx : asin_num_entries ≤ int16_cast
      ((x - asin_min_x) / (asin_max_x - asin_min_x) * (asin_num_entries : ℚ)) := by
    have ht : (x - asin_min_x) / (asin_max_x - asin_min_x) * (asin_num_entries : ℚ) = x * 500 := by
      norm_num [asin_min_x, asin_max_x, asin_num_entries]
    rw [ht]
    unfold int16_cast asin_num_entries
    rw [if_pos (by linarith)]
    apply Int.le_floor.mpr
    push_cast
    linarith
  have e : asin x = table_at asin_lookup_table 500 / asin_scale_factor := by
    rw [asin_of_nonneg x (by linarith)]
    unfold asin_table
    simp only
    rw [if_pos hidx]
  have hv : table_at asin_lookup_table 500 / asin_scale_factor = 15708 / 10000 := by
    have e1 : (500 : ℤ) = ((500 : ℕ) : ℤ) := by norm_num
    rw [e1, table_at_natCast, asin_table_last.1]
    norm_num [asin_scale_factor]
  refine ⟨hfit, e, by rw [e, hv], ?_⟩
  rw [asin_of_neg (-x) (by linarith), neg_one_mul, neg_one_mul, neg_neg, e, hv]

/-- Witness of C14 at `x = 2`. -/
theorem asin_clamp_witness :
    int16_cast ((2 - asin_min_x) / (asin_max_x - asin_min_x) * (asin_num_entries : ℚ)) ≤ 32767 ∧
    asin 2 = table_at asin_lookup_table 500 / asin_scale_factor ∧
    asin 2 = 15708 / 10000 ∧ asin (-2) = -(15708 / 10000) :=
  asin_clamp 2 (by norm_num) (by norm_num)

/-! ### Vector and quaternion algebra -/

/-- C15: `cross` is the right-handed cross product, and `(1,0,0) × (0,1,0) = (0,0,1)`. -/
theorem cross_right_handed {α : Type} [LinearOrderedField α] (u v : vector α) :
    u.cross v = ⟨u.y * v.z - u.z * v.y, u.z * v.x - u.x * v.z, u.x * v.y - u.y * v.x⟩ ∧
    (⟨1, 0, 0⟩ : vector α).cross ⟨0, 1, 0⟩ = ⟨0, 0, 1⟩ := by
  refine ⟨rfl, ?_⟩
  simp [vector.cross]

/-- C16: `inverse` is the conjugate, `invert` leaves the object in that state, and a unit
quaternion times its inverse is the identity on either side. -/
theorem inverse_conjugate {α : Type} [LinearOrderedField α] (q : quaternion α)
    (hq : q.w * q.w + q.x * q.x + q.y * q.y + q.z * q.z = 1) :
    q.inverse = ⟨q.w, -q.x, -q.y, -q.z⟩ ∧ q.invert = q.inverse ∧
    q.mul q.inverse = quaternion.identity ∧ q.inverse.mul q = quaternion.identity := by
  refine ⟨rfl, ?_, ?_, ?_⟩
  · simp only [quaternion.invert, quaternion.inverse, quaternion.mk.injEq]
    refine ⟨trivial, ?_, ?_, ?_⟩ <;> ring
  · simp only [quaternion.mul, quaternion.inverse, quaternion.identity, quaternion.mk.injEq]
    refine ⟨?_, ?_, ?_, ?_⟩
    · linear_combination hq
    · ring
    · ring
    · ring
  · simp only [quaternion.mul, quaternion.inverse, quaternion.identity, quaternion.mk.injEq]
    refine ⟨?_, ?_, ?_, ?_⟩
    · linear_combination hq
    · ring
    · ring
    · ring

/-- Witness of C16 at the unit quaternion `(3/5, 0, 4/5, 0)`. -/
theorem inverse_conjugate_witness :
    (⟨3 / 5, 0, 4 / 5, 0⟩ : quaternion ℚ).mul (⟨3 / 5, 0, 4 / 5, 0⟩ : quaternion ℚ).inverse
      = quaternion.identity :=
  (inverse_conjugate (⟨3 / 5, 0, 4 / 5, 0⟩ : quaternion ℚ) (by norm_num)).2.2.1

/-- C17: when `dot u v ≥ 1`, `from_two_unit_vectors` sets the quaternion to the identity, for
every previous value of the object and every function standing for `inv_sqrt`. -/
theorem from_two_unit_vectors_aligned {α : Type} [LinearOrderedField α] (inv_sqrt : α → α)
    (q : quaternion α) (u v : vector α) (h : u.dot v ≥ 1) :
    quaternion.from_two_unit_vectors inv_sqrt q u v = ⟨1, 0, 0, 0⟩ := by
  unfold quaternion.from_two_unit_vectors
  simp only
  rw [if_pos h]

/-- Witness of C17 at `u = v = (1,0,0)`, on the object `(5,6,7,8)`, with the constant function 0
for `inv_sqrt`. -/
theorem from_two_unit_vectors_aligned_witness :
    quaternion.from_two_unit_vectors (fun _ : ℚ => 0) ⟨5, 6, 7, 8⟩ ⟨1, 0, 0⟩ ⟨1, 0, 0⟩
      = ⟨1, 0, 0, 0⟩ :=
  from_two_unit_vectors_aligned (fun _ : ℚ => 0) ⟨5, 6, 7, 8⟩ ⟨1, 0, 0⟩ ⟨1, 0, 0⟩
    (by norm_num [vector.dot])

/-- C18: `fsign y` is one of `-1`, `0`, `1`; it is `1` exactly when `y > 0`, `-1` exactly when
`y < 0`, and `0` exactly when `y = 0`. -/
theorem fsign_values (y : ℚ) :
    (fsign y = -1 ∨ fsign y = 0 ∨ fsign y = 1) ∧
    (fsign y = 1 ↔ 0 < y) ∧ (fsign y = -1 ↔ y < 0) ∧ (fsign y = 0 ↔ y = 0) := by
  unfold fsign
  rcases lt_trichotomy y 0 with h | h | h
  · have h2 : ¬ 0 < y := by linarith
    have h3 : y ≠ 0 := by linarith
    simp only [h, h2, h3, if_true, if_false]
    norm_num
  · subst h
    norm_num
  · have h2 : ¬ y < 0 := by linarith
    have h3 : y ≠ 0 := by linarith
    simp only [h, h2, h3, if_true, if_false]
    norm_num

/-- C19: on the identity quaternion `get_RPY` returns roll 0, pitch 0 and yaw 0. -/
theorem get_RPY_identity :
    (quaternion.identity : quaternion ℚ).get_RPY = (0, 0, 0) := by
  have h1 : atan2 0 1 = 0 := by
    unfold atan2
    rw [if_neg (by norm_num)]
    simp only
    rw [if_neg (by norm_num)]
    norm_num [atan_zero]
  unfold quaternion.get_RPY quaternion.identity
  norm_num [h1, asin_zero]

/-! ### Termination of the recursive approximations -/

/-- With enough fuel, `log2_fuel` is the binary logarithm. -/
theorem log2_fuel_eq : ∀ fuel n : ℕ, n ≤ fuel → log2_fuel fuel n = Nat.log2 n := by
  intro fuel
  induction fuel with
  | zero =>
    intro n hn
    have : n = 0 := by omega
    subst this
    simp [log2_fuel, Nat.log2_zero]
  | succ fuel ih =>
    intro n hn
    rw [Nat.log2]
    simp only [log2_fuel]
    by_cases h : 2 ≤ n
    · rw [if_pos h, if_pos h, ih (n / 2) (by omega)]
    · rw [if_neg h, if_neg h]

/-- The exponent `ilog2 r` of a positive rational brackets it between two powers of 2. -/
theorem ilog2_spec (r : ℚ) (hr : 0 < r) :
    (2 : ℚ) ^ ilog2 r ≤ r ∧ r < (2 : ℚ) ^ (ilog2 r + 1) := by
  have hnum : 0 < r.num := Rat.num_pos.mpr hr
  obtain ⟨n, hn⟩ : ∃ n : ℕ, (n : ℤ) = r.num := ⟨r.num.natAbs, Int.natAbs_of_nonneg hnum.le⟩
  have hn0 : n ≠ 0 := by
    intro h
    rw [h] at hn
    simp at hn
    omega
  have hd0 : r.den ≠ 0 := r.den_nz
  have hnat : r.num.natAbs = n := by rw [← hn]; simp
  have hr' : r = (n : ℚ) / (r.den : ℚ) := by
    have := Rat.num_div_den r
    rw [← hn, Int.cast_natCast] at this
    exact this.symm
  have hfuel : log2_fuel r.den r.den = Nat.log2 r.den := log2_fuel_eq r.den r.den le_rfl
  have ha1 : ((2 ^ Nat.log2 n : ℕ) : ℚ) ≤ (n : ℚ) := Nat.cast_le.mpr (Nat.log2_self_le hn0)
  have ha2 : (n : ℚ) < ((2 ^ (Nat.log2 n + 1) : ℕ) : ℚ) := Nat.cast_lt.mpr Nat.lt_log2_self
  have hb1 : ((2 ^ Nat.log2 r.den : ℕ) : ℚ) ≤ (r.den : ℚ) := Nat.cast_le.mpr (Nat.log2_self_le hd0)
  have hb2 : (r.den : ℚ) < ((2 ^ (Nat.log2 r.den + 1) : ℕ) : ℚ) := Nat.cast_lt.mpr Nat.lt_log2_self
  push_cast at ha1 ha2 hb1 hb2
  have hdpos : (0 : ℚ) < r.den := by exact_mod_cast Nat.pos_of_ne_zero hd0
  unfold ilog2
  rw [hnat, log2_fuel_eq n n le_rfl, hfuel]
  generalize Nat.log2 r.den = b at hb1 hb2 ⊢
  generalize Nat.log2 n = a at ha1 ha2 ⊢
  generalize r.den = d at hr' hb1 hb2 hdpos ⊢
  have hz1 : (2 : ℚ) ^ ((a : ℤ) - (b : ℤ) - 1) < r := by
    have e : (2 : ℚ) ^ ((a : ℤ) - (b : ℤ) - 1) = (2 : ℚ) ^ a / (2 : ℚ) ^ (b + 1) := by
      rw [show ((a : ℤ) - (b : ℤ) - 1) = (a : ℤ) - ((b + 1 : ℕ) : ℤ) by push_cast; ring]
      rw [zpow_sub₀ (by norm_num), zpow_natCast, zpow_natCast]
    rw [e, hr', div_lt_div_iff₀ (by positivity) hdpos]
    calc (2 : ℚ) ^ a * d < (2 : ℚ) ^ a * 2 ^ (b + 1) := by
          apply mul_lt_mul_of_pos_left hb2 (by positivity)
      _ ≤ n * 2 ^ (b + 1) := by
          apply mul_le_mul_of_nonneg_right ha1 (by positivity)
  have hz2 : r < (2 : ℚ) ^ ((a : ℤ) - (b : ℤ) + 1) := by
    have e : (2 : ℚ) ^ ((a : ℤ) - (b : ℤ) + 1) = (2 : ℚ) ^ (a + 1) / (2 : ℚ) ^ b := by
      rw [show ((a : ℤ) - (b : ℤ) + 1) = ((a + 1 : ℕ) : ℤ) - (b : ℤ) by push_cast; ring]
      rw [zpow_sub₀ (by norm_num), zpow_natCast, zpow_natCast]
    rw [e, hr', div_lt_div_iff₀ hdpos (by positivity)]
    calc (n : ℚ) * 2 ^ b < 2 ^ (a + 1) * 2 ^ b := by
          apply mul_lt_mul_of_pos_right ha2 (by positivity)
      _ ≤ 2 ^ (a + 1) * d := by
          apply mul_le_mul_of_nonneg_left hb1 (by positivity)
  split
  · rename_i h
    exact ⟨h, hz2⟩
  · rename_i h
    refine ⟨hz1.le, ?_⟩
    rw [sub_add_cancel]
    exact not_le.mp h

/-- Rounding to nearest moves a number by at most one half. -/
theorem round_half_even_err (n : ℚ) : |(round_half_even n : ℚ) - n| ≤ 1 / 2 := by
  have h1 := Int.floor_le n
  have h2 := Int.lt_floor_add_one n
  unfold round_half_even
  split_ifs <;> push_cast <;> rw [abs_le] <;> constructor <;> linarith

/-- Rounding to nearest does not cross an integer. -/
theorem round_half_even_mono (n : ℚ) (a b : ℤ) (ha : (a : ℚ) ≤ n) (hb : n ≤ (b : ℚ)) :
    a ≤ round_half_even n ∧ round_half_even n ≤ b := by
  have h := round_half_even_err n
  rw [abs_le] at h
  constructor
  · have : (a : ℚ) - 1 < (round_half_even n : ℚ) := by linarith [h.1]
    have : a - 1 < round_half_even n := by exact_mod_cast this
    omega
  · have : (round_half_even n : ℚ) < (b : ℚ) + 1 := by linarith [h.2]
    have : round_half_even n < b + 1 := by exact_mod_cast this
    omega

/-- Decoding of a positive normal bit pattern `2^23 ≤ b < 255 * 2^23`. -/
theorem f32_val_pos_normal (b : ℕ) (h1 : 8388608 ≤ b) (h2 : b < 2139095040) :
    f32_val b = ((8388608 + b % 8388608 : ℕ) : ℚ) * 2 ^ (((b / 8388608 : ℕ) : ℤ) - 150) ∧
    f32_finite b = true := by
  have e23 : (2 : ℕ) ^ 23 = 8388608 := by norm_num
  have e31 : (2 : ℕ) ^ 31 = 2147483648 := by norm_num
  have hs : f32_sign b = 0 := by
    unfold f32_sign
    rw [e31]
    omega
  have he : f32_exp b = b / 8388608 := by
    unfold f32_exp
    rw [e23]
    omega
  have hm : f32_man b = b % 8388608 := by
    unfold f32_man
    rw [e23]
  have he1 : b / 8388608 ≠ 0 := by omega
  have he2 : b / 8388608 ≠ 255 := by omega
  constructor
  · unfold f32_val
    rw [hs, he, hm, if_neg (by norm_num), if_neg he1, one_mul, e23]
  · unfold f32_finite
    rw [he]
    simpa using he2

/-- Rounding of a rational in the normal range: the result is a positive normal bit pattern
whose value is within relative error `2^-24` of the argument. -/
theorem f32_round_normal (r : ℚ) (h1 : (2 : ℚ) ^ (-126 : ℤ) ≤ r) (h2 : r < (2 : ℚ) ^ (127 : ℤ)) :
    8388608 ≤ f32_round r ∧ f32_round r < 2139095040 ∧
    |f32_val (f32_round r) - r| ≤ r / 2 ^ 24 := by
  have hr : 0 < r := lt_of_lt_of_le (by positivity) h1
  have habs : |r| = r := abs_of_pos hr
  obtain ⟨hlo, hhi⟩ := ilog2_spec r hr
  have he1 : -126 ≤ ilog2 r := by
    have : (2 : ℚ) ^ (-126 : ℤ) < (2 : ℚ) ^ (ilog2 r + 1) := lt_of_le_of_lt h1 hhi
    have := (zpow_lt_zpow_iff_right₀ (by norm_num : (1 : ℚ) < 2)).mp this
    omega
  have he2 : ilog2 r ≤ 126 := by
    have : (2 : ℚ) ^ (ilog2 r) < (2 : ℚ) ^ (127 : ℤ) := lt_of_le_of_lt hlo h2
    have := (zpow_lt_zpow_iff_right₀ (by norm_num : (1 : ℚ) < 2)).mp this
    omega
  obtain ⟨k, hk⟩ : ∃ k : ℕ, (k : ℤ) = ilog2 r + 126 :=
    ⟨(ilog2 r + 126).toNat, Int.toNat_of_nonneg (by omega)⟩
  have hk252 : k ≤ 252 := by omega
  have he : ilog2 r = (k : ℤ) - 126 := by omega
  rw [he] at hlo hhi
  -- the scaled argument and its rounding
  have hP : (0 : ℚ) < (2 : ℚ) ^ ((k : ℤ) - 126) := by positivity
  have hhi' : r < 2 * (2 : ℚ) ^ ((k : ℤ) - 126) := by
    rw [zpow_add_one₀ (by norm_num)] at hhi
    linarith
  have h3 : (2 : ℚ) ^ ((k : ℤ) - 126 - 23) = (2 : ℚ) ^ ((k : ℤ) - 126) / 8388608 := by
    rw [zpow_sub₀ (by norm_num)]
    norm_num
  have hu : (0 : ℚ) < (2 : ℚ) ^ ((k : ℤ) - 126 - 23) := by positivity
  have hn1 : ((8388608 : ℤ) : ℚ) ≤ r / 2 ^ ((k : ℤ) - 126 - 23) := by
    rw [le_div_iff₀ hu, h3]
    push_cast
    linarith
  have hn2 : r / 2 ^ ((k : ℤ) - 126 - 23) ≤ ((16777216 : ℤ) : ℚ) := by
    rw [div_le_iff₀ hu, h3]
    push_cast
    linarith
  obtain ⟨N, hNdef⟩ : ∃ N : ℤ, N = round_half_even (r / 2 ^ ((k : ℤ) - 126 - 23)) := ⟨_, rfl⟩
  obtain ⟨hN1, hN2⟩ := round_half_even_mono _ _ _ hn1 hn2
  have herr := round_half_even_err (r / 2 ^ ((k : ℤ) - 126 - 23))
  rw [← hNdef] at hN1 hN2 herr
  obtain ⟨m, hm⟩ : ∃ m : ℕ, (m : ℤ) = N := ⟨N.toNat, Int.toNat_of_nonneg (by omega)⟩
  have hm1 : 8388608 ≤ m := by omega
  have hm2 : m ≤ 16777216 := by omega
  have hround : f32_round r = k * 8388608 + m := by
    unfold f32_round
    rw [if_neg hr.ne', habs]
    simp only []
    rw [he, max_eq_left (by omega), ← hNdef, ← hm]
    have hmag : (((k : ℤ) - 126 + 126) * 2 ^ 23 + (m : ℤ)).toNat = k * 8388608 + m := by
      have : ((k : ℤ) - 126 + 126) * 2 ^ 23 + (m : ℤ) = ((k * 8388608 + m : ℕ) : ℤ) := by
        push_cast
        ring
      rw [this, Int.toNat_natCast]
    rw [if_neg (not_lt.mpr hr.le), hmag, if_neg (show ¬ (k * 8388608 + m ≥ 2139095040) by omega)]
  rw [hround]
  have hb1 : 8388608 ≤ k * 8388608 + m := by omega
  have hb2 : k * 8388608 + m < 2139095040 := by omega
  refine ⟨hb1, hb2, ?_⟩
  -- the value of the result is `m * 2^(k - 149)`
  have hval : f32_val (k * 8388608 + m) = (m : ℚ) * 2 ^ ((k : ℤ) - 126 - 23) := by
    rw [(f32_val_pos_normal _ hb1 hb2).1]
    rcases Nat.lt_or_ge m 16777216 with hlt | hge
    · have hq : (k * 8388608 + m) / 8388608 = k + 1 := by omega
      have hmod : (k * 8388608 + m) % 8388608 = m - 8388608 := by omega
      rw [hq, hmod]
      have e1 : 8388608 + (m - 8388608) = m := by omega
      have e : (((k + 1 : ℕ) : ℤ) - 150) = (k : ℤ) - 126 - 23 := by
        push_cast
        ring
      rw [e1, e]
    · have hm24 : m = 16777216 := by omega
      subst hm24
      have hq : (k * 8388608 + 16777216) / 8388608 = k + 2 := by omega
      have hmod : (k * 8388608 + 16777216) % 8388608 = 0 := by omega
      rw [hq, hmod]
      have e2 : (((k + 2 : ℕ) : ℤ) - 150) = ((k : ℤ) - 126 - 23) + 1 := by
        push_cast
        ring
      rw [e2, zpow_add₀ (by norm_num)]
      push_cast
      ring
  rw [hval]
  have hmN : ((m : ℤ) : ℚ) = (m : ℚ) := by push_cast; rfl
  rw [← hm] at herr
  rw [hmN] at herr
  have hkey : (m : ℚ) * 2 ^ ((k : ℤ) - 126 - 23) - r
      = ((m : ℚ) - r / 2 ^ ((k : ℤ) - 126 - 23)) * 2 ^ ((k : ℤ) - 126 - 23) := by
    field_simp
  rw [hkey, abs_mul, abs_of_pos hu]
  calc |(m : ℚ) - r / 2 ^ ((k : ℤ) - 126 - 23)| * 2 ^ ((k : ℤ) - 126 - 23)
      ≤ 1 / 2 * 2 ^ ((k : ℤ) - 126 - 23) := mul_le_mul_of_nonneg_right herr hu.le
    _ = (2 : ℚ) ^ ((k : ℤ) - 126) / 2 ^ 24 := by rw [h3]; ring
    _ ≤ r / 2 ^ 24 := div_le_div_of_nonneg_right hlo (by positivity)

/-- A positive normal bit pattern denotes a positive number. -/
theorem f32_val_pos (b : ℕ) (h1 : 8388608 ≤ b) (h2 : b < 2139095040) : 0 < f32_val b := by
  rw [(f32_val_pos_normal b h1 h2).1]
  positivity

/-- The product of two positive normal floats whose exact product lies in the normal range is
a positive normal float within relative error `2^-24` of the exact product. -/
theorem f32_mul_normal (a b : ℕ) (ha1 : 8388608 ≤ a) (ha2 : a < 2139095040)
    (hb1 : 8388608 ≤ b) (hb2 : b < 2139095040)
    (h1 : (2 : ℚ) ^ (-126 : ℤ) ≤ f32_val a * f32_val b)
    (h2 : f32_val a * f32_val b < (2 : ℚ) ^ (127 : ℤ)) :
    8388608 ≤ f32_mul a b ∧ f32_mul a b < 2139095040 ∧
    |f32_val (f32_mul a b) - f32_val a * f32_val b| ≤ f32_val a * f32_val b / 2 ^ 24 := by
  have hne : f32_val a * f32_val b ≠ 0 :=
    (mul_pos (f32_val_pos a ha1 ha2) (f32_val_pos b hb1 hb2)).ne'
  have e : f32_mul a b = f32_round (f32_val a * f32_val b) := by
    unfold f32_mul
    rw [(f32_val_pos_normal a ha1 ha2).2, (f32_val_pos_normal b hb1 hb2).2]
    simp only [Bool.and_self, if_true]
    rw [if_neg hne]
  rw [e]
  exact f32_round_normal _ h1 h2

/-- The difference of two positive normal floats whose exact difference lies in the normal range
is a positive normal float within relative error `2^-24` of the exact difference. -/
theorem f32_sub_normal (a b : ℕ) (ha1 : 8388608 ≤ a) (ha2 : a < 2139095040)
    (hb1 : 8388608 ≤ b) (hb2 : b < 2139095040)
    (h1 : (2 : ℚ) ^ (-126 : ℤ) ≤ f32_val a - f32_val b)
    (h2 : f32_val a - f32_val b < (2 : ℚ) ^ (127 : ℤ)) :
    8388608 ≤ f32_sub a b ∧ f32_sub a b < 2139095040 ∧
    |f32_val (f32_sub a b) - (f32_val a - f32_val b)| ≤ (f32_val a - f32_val b) / 2 ^ 24 := by
  have hpos : 0 < f32_val a - f32_val b := lt_of_lt_of_le (by positivity) h1
  have e : f32_sub a b = f32_round (f32_val a - f32_val b) := by
    unfold f32_sub
    rw [(f32_val_pos_normal a ha1 ha2).2, (f32_val_pos_normal b hb1 hb2).2]
    simp only [Bool.and_self, if_true]
    rw [if_neg hpos.ne']
  rw [e]
  exact f32_round_normal _ h1 h2

/-- Monotone bounds of the cubic `(2^23 + M) (c - h)^2` on a range of `h`, with `M` equal to
`2 h` or `2 h + 1`. -/
theorem cubic_chunk (c h M lo hi : ℚ) (h1 : lo ≤ h) (h2 : h ≤ hi) (hM1 : 2 * h ≤ M)
    (hM2 : M ≤ 2 * h + 1) (hc : hi ≤ c) (hlo : 0 ≤ lo) :
    (8388608 + 2 * lo) * (c - hi) ^ 2 ≤ (8388608 + M) * (c - h) ^ 2 ∧
    (8388608 + M) * (c - h) ^ 2 ≤ (8388608 + 2 * hi + 1) * (c - lo) ^ 2 := by
  have ha : 0 ≤ c - hi := by linarith
  have hb : c - hi ≤ c - h := by linarith
  have hd : c - h ≤ c - lo := by linarith
  have hs1 : (c - hi) ^ 2 ≤ (c - h) ^ 2 := pow_le_pow_left₀ ha hb 2
  have hs2 : (c - h) ^ 2 ≤ (c - lo) ^ 2 := pow_le_pow_left₀ (by linarith) hd 2
  constructor
  · apply mul_le_mul (by linarith) hs1 (by positivity) (by linarith)
  · apply mul_le_mul (by linarith) hs2 (by positivity) (by linarith)

/-- Powers of two combine in the product `s * y^2`. -/
theorem two_zpow_combine (e1 e2 : ℤ) :
    (2 : ℚ) ^ e1 * ((2 : ℚ) ^ e2) ^ 2 = (2 : ℚ) ^ (e1 + 2 * e2) := by
  rw [pow_two, ← zpow_add₀ (by norm_num), ← zpow_add₀ (by norm_num)]
  congr 1
  ring

/-- The cubic bound on a range of `h`, with natural-number data and numeric end checks. -/
theorem cubic_chunk_nat (c lo hi h M : ℕ) (L U : ℚ) (hlo : lo ≤ h) (hhi : h ≤ hi)
    (hM : M / 2 = h) (hc : hi ≤ c)
    (hL : L ≤ (8388608 + 2 * (lo : ℚ)) * ((c : ℚ) - hi) ^ 2)
    (hU : (8388608 + 2 * (hi : ℚ) + 1) * ((c : ℚ) - lo) ^ 2 ≤ U) :
    L ≤ (8388608 + (M : ℚ)) * ((c : ℚ) - h) ^ 2 ∧
    (8388608 + (M : ℚ)) * ((c : ℚ) - h) ^ 2 ≤ U := by
  have hM1 : 2 * (h : ℚ) ≤ M := by
    have : 2 * h ≤ M := by omega
    exact_mod_cast this
  have hM2 : (M : ℚ) ≤ 2 * h + 1 := by
    have : M ≤ 2 * h + 1 := by omega
    exact_mod_cast this
  have h := cubic_chunk (c : ℚ) (h : ℚ) (M : ℚ) (lo : ℚ) (hi : ℚ) (by exact_mod_cast hlo)
    (by exact_mod_cast hhi) hM1 hM2 (by exact_mod_cast hc) (by positivity)
  exact ⟨hL.trans h.1, h.2.trans hU⟩

/-- The magic constant on an even exponent, no borrow from the exponent field. -/
theorem magic_case_even (h M : ℕ) (hM : M / 2 = h) (hh : h ≤ 3627487) :
    (9 / 10 : ℚ) * 2 ^ 70 ≤ (8388608 + (M : ℚ)) * ((12016095 : ℕ) - (h : ℚ)) ^ 2 ∧
    (8388608 + (M : ℚ)) * ((12016095 : ℕ) - (h : ℚ)) ^ 2 ≤ (11 / 10 : ℚ) * 2 ^ 70 := by
  have hj : h / 131072 ≤ 27 := by omega
  generalize hjd : h / 131072 = j at hj
  interval_cases j
  · exact cubic_chunk_nat 12016095 0 131072 h M _ _ (by omega) (by omega) hM (by norm_num)
      (by norm_num) (by norm_num)
  · exact cubic_chunk_nat 12016095 131072 262144 h M _ _ (by omega) (by omega) hM (by norm_num)
      (by norm_num) (by norm_num)
  · exact cubic_chunk_nat 12016095 262144 393216 h M _ _ (by omega) (by omega) hM (by norm_num)
      (by norm_num) (by norm_num)
  · exact cubic_chunk_nat 12016095 393216 524288 h M _ _ (by omega) (by omega) hM (by norm_num)
      (by norm_num) (by norm_num)
  · exact cubic_chunk_nat 12016095 524288 655360 h M _ _ (by omega) (by omega) hM (by norm_num)
      (by norm_num) (by norm_num)
  · exact cubic_chunk_nat 12016095 655360 786432 h M _ _ (by omega) (by omega) hM (by norm_num)
      (by norm_num) (by norm_num)
  · exact cubic_chunk_nat 12016095 786432 917504 h M _ _ (by omega) (by omega) hM (by norm_num)
      (by norm_num) (by norm_num)
  · exact cubic_chunk_nat 12016095 917504 1048576 h M _ _ (by omega) (by omega) hM (by norm_num)
      (by norm_num) (by norm_num)
  · exact cubic_chunk_nat 12016095 1048576 1179648 h M _ _ (by omega) (by omega) hM (by norm_num)
      (by norm_num) (by norm_num)
  · exact cubic_chunk_nat 12016095 1179648 1310720 h M _ _ (by omega) (by omega) hM (by norm_num)
      (by norm_num) (by norm_num)
  · exact cubic_chunk_nat 12016095 1310720 1441792 h M _ _ (by omega) (by omega) hM (by norm_num)
      (by norm_num) (by norm_num)
  · exact cubic_chunk_nat 12016095 1441792 1572864 h M _ _ (by omega) (by omega) hM (by norm_num)
      (by norm_num) (by norm_num)
  · exact cubic_chunk_nat 12016095 1572864 1703936 h M _ _ (by omega) (by omega) hM (by norm_num)
      (by norm_num) (by norm_num)
  · exact cubic_chunk_nat 12016095 1703936 1835008 h M _ _ (by omega) (by omega) hM (by norm_num)
      (by norm_num) (by norm_num)
  · exact cubic_chunk_nat 12016095 1835008 1966080 h M _ _ (by omega) (by omega) hM (by norm_num)
      (by norm_num) (by norm_num)
  · exact cubic_chunk_nat 12016095 1966080 2097152 h M _ _ (by omega) (by omega) hM (by norm_num)
      (by norm_num) (by norm_num)
  · exact cubic_chunk_nat 12016095 2097152 2228224 h M _ _ (by omega) (by omega) hM (by norm_num)
      (by norm_num) (by norm_num)
  · exact cubic_chunk_nat 12016095 2228224 2359296 h M _ _ (by omega) (by omega) hM (by norm_num)
      (by norm_num) (by norm_num)
  · exact cubic_chunk_nat 12016095 2359296 2490368 h M _ _ (by omega) (by omega) hM (by norm_num)
      (by norm_num) (by norm_num)
  · exact cubic_chunk_nat 12016095 2490368 2621440 h M _ _ (by omega) (by omega) hM (by norm_num)
      (by norm_num) (by norm_num)
  · exact cubic_chunk_nat 12016095 2621440 2752512 h M _ _ (by omega) (by omega) hM (by norm_num)
      (by norm_num) (by norm_num)
  · exact cubic_chunk_nat 12016095 2752512 2883584 h M _ _ (by omega) (by omega) hM (by norm_num)
      (by norm_num) (by norm_num)
  · exact cubic_chunk_nat 12016095 2883584 3014656 h M _ _ (by omega) (by omega) hM (by norm_num)
      (by norm_num) (by norm_num)
  · exact cubic_chunk_nat 12016095 3014656 3145728 h M _ _ (by omega) (by omega) hM (by norm_num)
      (by norm_num) (by norm_num)
  · exact cubic_chunk_nat 12016095 3145728 3276800 h M _ _ (by omega) (by omega) hM (by norm_num)
      (by norm_num) (by norm_num)
  · exact cubic_chunk_nat 12016095 3276800 3407872 h M _ _ (by omega) (by omega) hM (by norm_num)
      (by norm_num) (by norm_num)
  · exact cubic_chunk_nat 12016095 3407872 3538944 h M _ _ (by omega) (by omega) hM (by norm_num)
      (by norm_num) (by norm_num)
  · exact cubic_chunk_nat 12016095 3538944 3670016 h M _ _ (by omega) (by omega) hM (by norm_num)
      (by norm_num) (by norm_num)

/-- The magic constant on an even exponent, with a borrow from the exponent field. -/
theorem magic_case_even_borrow (h M : ℕ) (hM : M / 2 = h) (hh1 : 3627488 ≤ h)
    (hh2 : h < 4194304) :
    (9 / 10 : ℚ) * 2 ^ 72 ≤ (8388608 + (M : ℚ)) * ((20404703 : ℕ) - (h : ℚ)) ^ 2 ∧
    (8388608 + (M : ℚ)) * ((20404703 : ℕ) - (h : ℚ)) ^ 2 ≤ (11 / 10 : ℚ) * 2 ^ 72 := by
  rcases lt_or_le h 3670016 with hc | hc
  · exact cubic_chunk_nat 20404703 3627488 3670016 h M _ _ (by omega) (by omega) hM (by norm_num)
      (by norm_num) (by norm_num)
  rcases lt_or_le h 3932160 with hc' | hc'
  · exact cubic_chunk_nat 20404703 3670016 3932160 h M _ _ (by omega) (by omega) hM (by norm_num)
      (by norm_num) (by norm_num)
  · exact cubic_chunk_nat 20404703 3932160 4194304 h M _ _ (by omega) (by omega) hM (by norm_num)
      (by norm_num) (by norm_num)

/-- The magic constant on an odd exponent. -/
theorem magic_case_odd (h M : ℕ) (hM : M / 2 = h) (hh : h < 4194304) :
    (9 / 10 : ℚ) * 2 ^ 71 ≤ (8388608 + (M : ℚ)) * ((16210399 : ℕ) - (h : ℚ)) ^ 2 ∧
    (8388608 + (M : ℚ)) * ((16210399 : ℕ) - (h : ℚ)) ^ 2 ≤ (11 / 10 : ℚ) * 2 ^ 71 := by
  have hj : h / 131072 ≤ 31 := by omega
  generalize hjd : h / 131072 = j at hj
  interval_cases j
  · exact cubic_chunk_nat 16210399 0 131072 h M _ _ (by omega) (by omega) hM (by norm_num)
      (by norm_num) (by norm_num)
  · exact cubic_chunk_nat 16210399 131072 262144 h M _ _ (by omega) (by omega) hM (by norm_num)
      (by norm_num) (by norm_num)
  · exact cubic_chunk_nat 16210399 262144 393216 h M _ _ (by omega) (by omega) hM (by norm_num)
      (by norm_num) (by norm_num)
  · exact cubic_chunk_nat 16210399 393216 524288 h M _ _ (by omega) (by omega) hM (by norm_num)
      (by norm_num) (by norm_num)
  · exact cubic_chunk_nat 16210399 524288 655360 h M _ _ (by omega) (by omega) hM (by norm_num)
      (by norm_num) (by norm_num)
  · exact cubic_chunk_nat 16210399 655360 786432 h M _ _ (by omega) (by omega) hM (by norm_num)
      (by norm_num) (by norm_num)
  · exact cubic_chunk_nat 16210399 786432 917504 h M _ _ (by omega) (by omega) hM (by norm_num)
      (by norm_num) (by norm_num)
  · exact cubic_chunk_nat 16210399 917504 1048576 h M _ _ (by omega) (by omega) hM (by norm_num)
      (by norm_num) (by norm_num)
  · exact cubic_chunk_nat 16210399 1048576 1179648 h M _ _ (by omega) (by omega) hM (by norm_num)
      (by norm_num) (by norm_num)
  · exact cubic_chunk_nat 16210399 1179648 1310720 h M _ _ (by omega) (by omega) hM (by norm_num)
      (by norm_num) (by norm_num)
  · exact cubic_chunk_nat 16210399 1310720 1441792 h M _ _ (by omega) (by omega) hM (by norm_num)
      (by norm_num) (by norm_num)
  · exact cubic_chunk_nat 16210399 1441792 1572864 h M _ _ (by omega) (by omega) hM (by norm_num)
      (by norm_num) (by norm_num)
  · exact cubic_chunk_nat 16210399 1572864 1703936 h M _ _ (by omega) (by omega) hM (by norm_num)
      (by norm_num) (by norm_num)
  · exact cubic_chunk_nat 16210399 1703936 1835008 h M _ _ (by omega) (by omega) hM (by norm_num)
      (by norm_num) (by norm_num)
  · exact cubic_chunk_nat 16210399 1835008 1966080 h M _ _ (by omega) (by omega) hM (by norm_num)
      (by norm_num) (by norm_num)
  · exact cubic_chunk_nat 16210399 1966080 2097152 h M _ _ (by omega) (by omega) hM (by norm_num)
      (by norm_num) (by norm_num)
  · exact cubic_chunk_nat 16210399 2097152 2228224 h M _ _ (by omega) (by omega) hM (by norm_num)
      (by norm_num) (by norm_num)
  · exact cubic_chunk_nat 16210399 2228224 2359296 h M _ _ (by omega) (by omega) hM (by norm_num)
      (by norm_num) (by norm_num)
  · exact cubic_chunk_nat 16210399 2359296 2490368 h M _ _ (by omega) (by omega) hM (by norm_num)
      (by norm_num) (by norm_num)
  · exact cubic_chunk_nat 16210399 2490368 2621440 h M _ _ (by omega) (by omega) hM (by norm_num)
      (by norm_num) (by norm_num)
  · exact cubic_chunk_nat 16210399 2621440 2752512 h M _ _ (by omega) (by omega) hM (by norm_num)
      (by norm_num) (by norm_num)
  · exact cubic_chunk_nat 16210399 2752512 2883584 h M _ _ (by omega) (by omega) hM (by norm_num)
      (by norm_num) (by norm_num)
  · exact cubic_chunk_nat 16210399 2883584 3014656 h M _ _ (by omega) (by omega) hM (by norm_num)
      (by norm_num) (by norm_num)
  · exact cubic_chunk_nat 16210399 3014656 3145728 h M _ _ (by omega) (by omega) hM (by norm_num)
      (by norm_num) (by norm_num)
  · exact cubic_chunk_nat 16210399 3145728 3276800 h M _ _ (by omega) (by omega) hM (by norm_num)
      (by norm_num) (by norm_num)
  · exact cubic_chunk_nat 16210399 3276800 3407872 h M _ _ (by omega) (by omega) hM (by norm_num)
      (by norm_num) (by norm_num)
  · exact cubic_chunk_nat 16210399 3407872 3538944 h M _ _ (by omega) (by omega) hM (by norm_num)
      (by norm_num) (by norm_num)
  · exact cubic_chunk_nat 16210399 3538944 3670016 h M _ _ (by omega) (by omega) hM (by norm_num)
      (by norm_num) (by norm_num)
  · exact cubic_chunk_nat 16210399 3670016 3801088 h M _ _ (by omega) (by omega) hM (by norm_num)
      (by norm_num) (by norm_num)
  · exact cubic_chunk_nat 16210399 3801088 3932160 h M _ _ (by omega) (by omega) hM (by norm_num)
      (by norm_num) (by norm_num)
  · exact cubic_chunk_nat 16210399 3932160 4063232 h M _ _ (by omega) (by omega) hM (by norm_num)
      (by norm_num) (by norm_num)
  · exact cubic_chunk_nat 16210399 4063232 4194304 h M _ _ (by omega) (by omega) hM (by norm_num)
      (by norm_num) (by norm_num)

/-- The value of a positive normal float given by its exponent and fraction fields. -/
theorem f32_val_of_fields (b E M : ℕ) (hb : b = E * 8388608 + M) (hE1 : 1 ≤ E) (hE2 : E ≤ 254)
    (hM : M < 8388608) :
    8388608 ≤ b ∧ b < 2139095040 ∧
    f32_val b = (8388608 + (M : ℚ)) * 2 ^ ((E : ℤ) - 150) := by
  have h1 : 8388608 ≤ b := by omega
  have h2 : b < 2139095040 := by omega
  refine ⟨h1, h2, ?_⟩
  rw [(f32_val_pos_normal b h1 h2).1]
  have e1 : b % 8388608 = M := by omega
  have e2 : b / 8388608 = E := by omega
  rw [e1, e2]
  push_cast
  rfl

set_option maxHeartbeats 1000000 in
/-- The initial guess of `inv_sqrt`, the bit pattern `0x5f3759df - (i >> 1)`: for a positive
normal `s` it is a positive normal float `y` with `0.9 ≤ s y² ≤ 1.1`. -/
theorem magic_guess (s : ℕ) (h1 : 16777216 ≤ s) (h2 : s < 2130706432) :
    8388608 ≤ of_ivalue (0x5f3759df - ivalue s / 2) ∧
    of_ivalue (0x5f3759df - ivalue s / 2) < 2139095040 ∧
    9 / 10 ≤ f32_val s * f32_val (of_ivalue (0x5f3759df - ivalue s / 2)) ^ 2 ∧
    f32_val s * f32_val (of_ivalue (0x5f3759df - ivalue s / 2)) ^ 2 ≤ 11 / 10 := by
  have hi : ivalue s = (s : ℤ) := by
    unfold ivalue
    rw [if_pos (by norm_num; omega)]
  have hy : of_ivalue (0x5f3759df - ivalue s / 2) = 1597463007 - s / 2 := by
    rw [hi]
    unfold of_ivalue
    norm_num
    omega
  rw [hy]
  obtain ⟨E, M, hs, hM⟩ : ∃ E M : ℕ, s = E * 8388608 + M ∧ M < 8388608 :=
    ⟨s / 8388608, s % 8388608, by omega, by omega⟩
  have hE1 : 2 ≤ E := by omega
  have hE2 : E ≤ 253 := by omega
  obtain ⟨_, _, hvs⟩ := f32_val_of_fields s E M hs (by omega) (by omega) hM
  obtain ⟨k, hk | hk⟩ := Nat.even_or_odd' E
  · -- even exponent
    rcases le_or_lt (M / 2) 3627487 with hb | hb
    · obtain ⟨My, hMy⟩ : ∃ My : ℕ, My + M / 2 = 3627487 := ⟨3627487 - M / 2, by omega⟩
      obtain ⟨Ey, hEy⟩ : ∃ Ey : ℕ, Ey + k = 190 := ⟨190 - k, by omega⟩
      obtain ⟨g1, g2, hvy⟩ := f32_val_of_fields (1597463007 - s / 2) Ey My (by omega) (by omega)
        (by omega) (by omega)
      refine ⟨g1, g2, ?_⟩
      have hMyq : (My : ℚ) = 3627487 - ((M / 2 : ℕ) : ℚ) := by
        have : (My : ℚ) + ((M / 2 : ℕ) : ℚ) = 3627487 := by exact_mod_cast hMy
        linarith
      have hexp : ((E : ℤ) - 150) + 2 * ((Ey : ℤ) - 150) = -70 := by omega
      have hu : f32_val s * f32_val (1597463007 - s / 2) ^ 2
          = (8388608 + (M : ℚ)) * ((12016095 : ℕ) - ((M / 2 : ℕ) : ℚ)) ^ 2 * 2 ^ (-70 : ℤ) := by
        rw [hvs, hvy, hMyq, ← hexp, ← two_zpow_combine]
        push_cast
        ring
      rw [hu]
      obtain ⟨b1, b2⟩ := magic_case_even (M / 2) M rfl hb
      have hp : (2 : ℚ) ^ (-70 : ℤ) * 2 ^ 70 = 1 := by norm_num
      have hpos : (0 : ℚ) < 2 ^ (-70 : ℤ) := by positivity
      constructor
      · nlinarith
      · nlinarith
    · obtain ⟨My, hMy⟩ : ∃ My : ℕ, My + M / 2 = 12016095 := ⟨12016095 - M / 2, by omega⟩
      obtain ⟨Ey, hEy⟩ : ∃ Ey : ℕ, Ey + k = 189 := ⟨189 - k, by omega⟩
      obtain ⟨g1, g2, hvy⟩ := f32_val_of_fields (1597463007 - s / 2) Ey My (by omega) (by omega)
        (by omega) (by omega)
      refine ⟨g1, g2, ?_⟩
      have hMyq : (My : ℚ) = 12016095 - ((M / 2 : ℕ) : ℚ) := by
        have : (My : ℚ) + ((M / 2 : ℕ) : ℚ) = 12016095 := by exact_mod_cast hMy
        linarith
      have hexp : ((E : ℤ) - 150) + 2 * ((Ey : ℤ) - 150) = -72 := by omega
      have hu : f32_val s * f32_val (1597463007 - s / 2) ^ 2
          = (8388608 + (M : ℚ)) * ((20404703 : ℕ) - ((M / 2 : ℕ) : ℚ)) ^ 2 * 2 ^ (-72 : ℤ) := by
        rw [hvs, hvy, hMyq, ← hexp, ← two_zpow_combine]
        push_cast
        ring
      rw [hu]
      obtain ⟨b1, b2⟩ := magic_case_even_borrow (M / 2) M rfl (by omega) (by omega)
      have hp : (2 : ℚ) ^ (-72 : ℤ) * 2 ^ 72 = 1 := by norm_num
      have hpos : (0 : ℚ) < 2 ^ (-72 : ℤ) := by positivity
      constructor
      · nlinarith
      · nlinarith
  · -- odd exponent
    obtain ⟨My, hMy⟩ : ∃ My : ℕ, My + M / 2 = 7821791 := ⟨7821791 - M / 2, by omega⟩
    obtain ⟨Ey, hEy⟩ : ∃ Ey : ℕ, Ey + k = 189 := ⟨189 - k, by omega⟩
    obtain ⟨g1, g2, hvy⟩ := f32_val_of_fields (1597463007 - s / 2) Ey My (by omega) (by omega)
      (by omega) (by omega)
    refine ⟨g1, g2, ?_⟩
    have hMyq : (My : ℚ) = 7821791 - ((M / 2 : ℕ) : ℚ) := by
      have : (My : ℚ) + ((M / 2 : ℕ) : ℚ) = 7821791 := by exact_mod_cast hMy
      linarith
    have hexp : ((E : ℤ) - 150) + 2 * ((Ey : ℤ) - 150) = -71 := by omega
    have hu : f32_val s * f32_val (1597463007 - s / 2) ^ 2
        = (8388608 + (M : ℚ)) * ((16210399 : ℕ) - ((M / 2 : ℕ) : ℚ)) ^ 2 * 2 ^ (-71 : ℤ) := by
      rw [hvs, hvy, hMyq, ← hexp, ← two_zpow_combine]
      push_cast
      ring
    rw [hu]
    obtain ⟨b1, b2⟩ := magic_case_odd (M / 2) M rfl (by omega)
    have hp : (2 : ℚ) ^ (-71 : ℤ) * 2 ^ 71 = 1 := by norm_num
    have hpos : (0 : ℚ) < 2 ^ (-71 : ℤ) := by positivity
    constructor
    · nlinarith
    · nlinarith

/-- A relative error bound written with a multiplicative perturbation. -/
theorem rel_err_factor (r rt : ℚ) (hr : 0 < r) (h : |rt - r| ≤ r / 2 ^ 24) :
    ∃ δ : ℚ, |δ| ≤ 1 / 2 ^ 24 ∧ rt = r * (1 + δ) := by
  refine ⟨(rt - r) / r, ?_, ?_⟩
  · rw [abs_div, abs_of_pos hr, div_le_iff₀ hr]
    calc |rt - r| ≤ r / 2 ^ 24 := h
      _ = 1 / 2 ^ 24 * r := by ring
  · field_simp

/-- One Newton iteration on exact numbers with perturbed operations: from `|u - 1| ≤ d` the
next iterate satisfies `1 - d² - 10⁻⁵ ≤ u' ≤ 1 + 10⁻⁵`, where `u = s y²`. -/
theorem newton_value (u η w d : ℚ) (hd : d ≤ 1 / 5) (hu : |u - 1| ≤ d)
    (hη : |η| ≤ 4 / 10 ^ 7) (hw : |w - 1| ≤ 3 / 10 ^ 7) :
    1 - d ^ 2 - 1 / 10 ^ 5 ≤ u * ((3 / 2 - u / 2 * (1 + η)) * w) ^ 2 ∧
    u * ((3 / 2 - u / 2 * (1 + η)) * w) ^ 2 ≤ 1 + 1 / 10 ^ 5 := by
  obtain ⟨hu1, hu2⟩ := abs_le.mp hu
  obtain ⟨hη1, hη2⟩ := abs_le.mp hη
  obtain ⟨hw1, hw2⟩ := abs_le.mp hw
  have hd0 : 0 ≤ d := le_trans (abs_nonneg _) hu
  -- the exact iterate
  have hf : u * (3 / 2 - u / 2) ^ 2 = 1 - (1 - u) ^ 2 * (4 - u) / 4 := by ring
  have hsq : (1 - u) ^ 2 ≤ d ^ 2 := by
    apply sq_le_sq'
    · linarith
    · linarith
  have hsq0 : 0 ≤ (1 - u) ^ 2 := sq_nonneg _
  have hf1 : 1 - d ^ 2 ≤ u * (3 / 2 - u / 2) ^ 2 := by
    rw [hf]
    nlinarith
  have hf2 : u * (3 / 2 - u / 2) ^ 2 ≤ 1 := by
    rw [hf]
    nlinarith
  -- the perturbation of the factor
  have hΔ1 : |(3 / 2 - u / 2) * (w - 1)| ≤ 11 / 10 * (3 / 10 ^ 7) := by
    rw [abs_mul]
    apply mul_le_mul _ hw (abs_nonneg _) (by norm_num)
    rw [abs_le]
    constructor <;> linarith
  have hΔ2 : |u / 2 * η * w| ≤ 6 / 10 * (4 / 10 ^ 7) * (11 / 10) := by
    rw [abs_mul, abs_mul]
    apply mul_le_mul _ _ (abs_nonneg _) (by norm_num)
    · apply mul_le_mul _ hη (abs_nonneg _) (by norm_num)
      rw [abs_le]
      constructor <;> linarith
    · rw [abs_le]
      constructor <;> linarith
  obtain ⟨a1, a2⟩ := abs_le.mp hΔ1
  obtain ⟨b1, b2⟩ := abs_le.mp hΔ2
  have hG : (3 / 2 - u / 2 * (1 + η)) * w
      = (3 / 2 - u / 2) + ((3 / 2 - u / 2) * (w - 1) - u / 2 * η * w) := by ring
  have hΔ : |(3 / 2 - u / 2) * (w - 1) - u / 2 * η * w| ≤ 6 / 10 ^ 7 := by
    rw [abs_le]
    constructor <;> norm_num at a1 a2 b1 b2 ⊢ <;> linarith
  rw [hG]
  generalize (3 / 2 - u / 2) * (w - 1) - u / 2 * η * w = Δ at hΔ
  obtain ⟨c1, c2⟩ := abs_le.mp hΔ
  have hexp : u * ((3 / 2 - u / 2) + Δ) ^ 2
      = u * (3 / 2 - u / 2) ^ 2 + u * (2 * (3 / 2 - u / 2) + Δ) * Δ := by ring
  have hc : |u * (2 * (3 / 2 - u / 2) + Δ) * Δ| ≤ 6 / 5 * (23 / 10) * (6 / 10 ^ 7) := by
    rw [abs_mul, abs_mul]
    apply mul_le_mul _ hΔ (abs_nonneg _) (by norm_num)
    apply mul_le_mul _ _ (abs_nonneg _) (by norm_num)
    · rw [abs_le]
      constructor <;> linarith
    · rw [abs_le]
      constructor <;> linarith
  obtain ⟨e1, e2⟩ := abs_le.mp hc
  rw [hexp]
  constructor <;> norm_num at e1 e2 ⊢ <;> linarith

/-- The error of a product of two perturbed factors. -/
theorem one_add_mul_err (a b A B : ℚ) (ha : |a| ≤ A) (hb : |b| ≤ B) :
    |(1 + a) * (1 + b) - 1| ≤ A + B + A * B := by
  have e : (1 + a) * (1 + b) - 1 = a + b + a * b := by ring
  have hA : 0 ≤ A := le_trans (abs_nonneg _) ha
  have hab : |a * b| ≤ A * B := by
    rw [abs_mul]
    exact mul_le_mul ha hb (abs_nonneg _) hA
  rw [e]
  calc |a + b + a * b| ≤ |a + b| + |a * b| := abs_add _ _
    _ ≤ |a| + |b| + |a * b| := by linarith [abs_add a b]
    _ ≤ A + B + A * B := by linarith

/-- Comparison of non-negative numbers through their squares. -/
theorem le_of_sq_le_sq (c x : ℚ) (hx : 0 ≤ x) (h : c ^ 2 ≤ x ^ 2) : c ≤ x := by
  by_contra hlt
  push_neg at hlt
  have := pow_lt_pow_left₀ hlt hx two_ne_zero
  linarith

/-- The bit pattern `0x3fc00000` is `1.5F`, and `0x3f000000` is `0.5F`. -/
theorem f32_val_consts : f32_val 0x3fc00000 = 3 / 2 ∧ f32_val 0x3f000000 = 1 / 2 := by
  constructor
  · rw [(f32_val_of_fields 0x3fc00000 127 4194304 (by norm_num) (by norm_num) (by norm_num)
      (by norm_num)).2.2]
    norm_num
  · rw [(f32_val_of_fields 0x3f000000 126 0 (by norm_num) (by norm_num) (by norm_num)
      (by norm_num)).2.2]
    norm_num

set_option maxHeartbeats 2000000 in
/-- One Newton iteration `y * (1.5 - x2 * y * y)` carried out with four rounded operations, on
exact numbers: every intermediate result stays in the normal range of binary32, and from
`|s y² - 1| ≤ d ≤ 1/5` the next iterate satisfies `1 - d² - 10⁻⁵ ≤ s y'² ≤ 1 + 10⁻⁵`. -/
theorem newton_exact (sv a yv d : ℚ)
    (hs1 : (2 : ℚ) ^ (-125 : ℤ) ≤ sv) (hs2 : sv ≤ (2 : ℚ) ^ (127 : ℤ))
    (hxv : |a - sv / 2| ≤ sv / 2 / 2 ^ 24) (hypos : 0 < yv)
    (hd : d ≤ 1 / 5) (hu : |sv * yv ^ 2 - 1| ≤ d) :
    ((2 : ℚ) ^ (-126 : ℤ) ≤ a * yv ∧ a * yv < (2 : ℚ) ^ (127 : ℤ)) ∧
    ∀ t1 : ℚ, |t1 - a * yv| ≤ a * yv / 2 ^ 24 →
    ((2 : ℚ) ^ (-126 : ℤ) ≤ t1 * yv ∧ t1 * yv < (2 : ℚ) ^ (127 : ℤ)) ∧
    ∀ t2 : ℚ, |t2 - t1 * yv| ≤ t1 * yv / 2 ^ 24 →
    ((2 : ℚ) ^ (-126 : ℤ) ≤ 3 / 2 - t2 ∧ 3 / 2 - t2 < (2 : ℚ) ^ (127 : ℤ)) ∧
    ∀ t3 : ℚ, |t3 - (3 / 2 - t2)| ≤ (3 / 2 - t2) / 2 ^ 24 →
    ((2 : ℚ) ^ (-126 : ℤ) ≤ yv * t3 ∧ yv * t3 < (2 : ℚ) ^ (127 : ℤ)) ∧
    ∀ yn : ℚ, |yn - yv * t3| ≤ yv * t3 / 2 ^ 24 →
    1 - d ^ 2 - 1 / 10 ^ 5 ≤ sv * yn ^ 2 ∧ sv * yn ^ 2 ≤ 1 + 1 / 10 ^ 5 := by
  have hsv : 0 < sv := lt_of_lt_of_le (by positivity) hs1
  have hs1' : 1 / 42535295865117307932921825928971026432 ≤ sv := by
    norm_num at hs1
    linarith
  have hs2' : sv ≤ 170141183460469231731687303715884105728 := by
    norm_num at hs2
    linarith
  have hlo : (2 : ℚ) ^ (-126 : ℤ) = 1 / 85070591730234615865843651857942052864 := by norm_num
  have hhi : (2 : ℚ) ^ (127 : ℤ) = 170141183460469231731687303715884105728 := by norm_num
  rw [hlo, hhi]
  obtain ⟨hu1, hu2⟩ := abs_le.mp hu
  obtain ⟨δ0, hδ0, ha⟩ := rel_err_factor (sv / 2) a (by positivity) hxv
  obtain ⟨hδ0a, hδ0b⟩ := abs_le.mp hδ0
  norm_num at hδ0a hδ0b
  have hub1 : 4 / 5 ≤ sv * yv ^ 2 := by linarith
  have hub2 : sv * yv ^ 2 ≤ 6 / 5 := by linarith
  -- bounds on `yv`
  have hyv1 : 1 / 18446744073709551616 ≤ yv := by
    apply le_of_sq_le_sq _ _ hypos.le
    nlinarith [sq_nonneg yv]
  have hyv2 : yv ≤ 9223372036854775808 := by
    apply le_of_sq_le_sq _ _ (by norm_num)
    nlinarith [sq_nonneg yv]
  -- first product `x2 * y`
  have hp1 : a * yv = sv / 2 * yv * (1 + δ0) := by rw [ha]; ring
  have hp1sq : (a * yv) ^ 2 = sv * (sv * yv ^ 2) / 4 * (1 + δ0) ^ 2 := by rw [ha]; ring
  have hq1 : 99 / 100 ≤ (1 + δ0) ^ 2 := by nlinarith
  have hq2 : (1 + δ0) ^ 2 ≤ 101 / 100 := by nlinarith
  have hd0pos : 0 < 1 + δ0 := by linarith
  have hp1pos : 0 < a * yv := by
    rw [hp1]
    positivity
  have hsu1 : 1 / 42535295865117307932921825928971026432 * (4 / 5) ≤ sv * (sv * yv ^ 2) :=
    mul_le_mul hs1' hub1 (by norm_num) hsv.le
  have hsu2 : sv * (sv * yv ^ 2) ≤ 170141183460469231731687303715884105728 * (6 / 5) :=
    mul_le_mul hs2' hub2 (by positivity) (by norm_num)
  have hp1lo : 1 / 18446744073709551616 ≤ a * yv := by
    apply le_of_sq_le_sq _ _ hp1pos.le
    rw [hp1sq]
    have : 1 / 42535295865117307932921825928971026432 * (4 / 5) / 4 * (99 / 100)
        ≤ sv * (sv * yv ^ 2) / 4 * (1 + δ0) ^ 2 :=
      mul_le_mul (by linarith) hq1 (by norm_num) (by positivity)
    norm_num at this ⊢
    linarith
  have hp1hi : a * yv ≤ 9223372036854775808 := by
    apply le_of_sq_le_sq _ _ (by norm_num)
    rw [hp1sq]
    have : sv * (sv * yv ^ 2) / 4 * (1 + δ0) ^ 2
        ≤ 170141183460469231731687303715884105728 * (6 / 5) / 4 * (101 / 100) :=
      mul_le_mul (by linarith) hq2 (by positivity) (by norm_num)
    norm_num at this ⊢
    linarith
  refine ⟨⟨by linarith, by linarith⟩, ?_⟩
  intro t1 ht1
  obtain ⟨δ1, hδ1, e1⟩ := rel_err_factor (a * yv) t1 hp1pos ht1
  obtain ⟨hδ1a, hδ1b⟩ := abs_le.mp hδ1
  norm_num at hδ1a hδ1b
  -- second product `(x2 * y) * y`
  have h01 := one_add_mul_err δ0 δ1 _ _ hδ0 hδ1
  obtain ⟨h01a, h01b⟩ := abs_le.mp h01
  norm_num at h01a h01b
  have hp2 : t1 * yv = sv * yv ^ 2 / 2 * ((1 + δ0) * (1 + δ1)) := by rw [e1, ha]; ring
  have hp2pos : 0 < t1 * yv := by
    rw [hp2]
    have : 0 < (1 + δ0) * (1 + δ1) := by linarith
    positivity
  have hp2lo : 39 / 100 ≤ t1 * yv := by
    rw [hp2]
    have : 4 / 5 / 2 * (99 / 100) ≤ sv * yv ^ 2 / 2 * ((1 + δ0) * (1 + δ1)) :=
      mul_le_mul (by linarith) (by linarith) (by norm_num) (by positivity)
    norm_num at this ⊢
    linarith
  have hp2hi : t1 * yv ≤ 61 / 100 := by
    rw [hp2]
    have : sv * yv ^ 2 / 2 * ((1 + δ0) * (1 + δ1)) ≤ 6 / 5 / 2 * (101 / 100) :=
      mul_le_mul (by linarith) (by linarith) (by linarith) (by norm_num)
    norm_num at this ⊢
    linarith
  refine ⟨⟨by linarith, by linarith⟩, ?_⟩
  intro t2 ht2
  obtain ⟨δ2, hδ2, e2⟩ := rel_err_factor (t1 * yv) t2 hp2pos ht2
  have h012 := one_add_mul_err ((1 + δ0) * (1 + δ1) - 1) δ2 _ _ h01 hδ2
  have hη : |(1 + δ0) * (1 + δ1) * (1 + δ2) - 1| ≤ 4 / 10 ^ 7 := by
    have e : (1 + ((1 + δ0) * (1 + δ1) - 1)) * (1 + δ2) - 1
        = (1 + δ0) * (1 + δ1) * (1 + δ2) - 1 := by ring
    rw [e] at h012
    refine h012.trans ?_
    norm_num
  obtain ⟨hηa, hηb⟩ := abs_le.mp hη
  have ht2v : t2 = sv * yv ^ 2 / 2 * (1 + ((1 + δ0) * (1 + δ1) * (1 + δ2) - 1)) := by
    rw [e2, hp2]
    ring
  generalize (1 + δ0) * (1 + δ1) * (1 + δ2) - 1 = η at hη hηa hηb ht2v
  norm_num at hηa hηb
  have ht2lo : 39 / 100 ≤ t2 := by
    rw [ht2v]
    have : 4 / 5 / 2 * (99 / 100) ≤ sv * yv ^ 2 / 2 * (1 + η) :=
      mul_le_mul (by linarith) (by linarith) (by norm_num) (by positivity)
    norm_num at this ⊢
    linarith
  have ht2hi : t2 ≤ 61 / 100 := by
    rw [ht2v]
    have : sv * yv ^ 2 / 2 * (1 + η) ≤ 6 / 5 / 2 * (101 / 100) :=
      mul_le_mul (by linarith) (by linarith) (by linarith) (by norm_num)
    norm_num at this ⊢
    linarith
  refine ⟨⟨by linarith, by linarith⟩, ?_⟩
  intro t3 ht3
  obtain ⟨δ3, hδ3, e3⟩ := rel_err_factor (3 / 2 - t2) t3 (by linarith) ht3
  obtain ⟨hδ3a, hδ3b⟩ := abs_le.mp hδ3
  norm_num at hδ3a hδ3b
  have ht3lo : 88 / 100 ≤ t3 := by
    rw [e3]
    have : 89 / 100 * (99 / 100) ≤ (3 / 2 - t2) * (1 + δ3) :=
      mul_le_mul (by linarith) (by linarith) (by norm_num) (by linarith)
    norm_num at this ⊢
    linarith
  have ht3hi : t3 ≤ 113 / 100 := by
    rw [e3]
    have : (3 / 2 - t2) * (1 + δ3) ≤ 111 / 100 * (101 / 100) :=
      mul_le_mul (by linarith) (by linarith) (by linarith) (by norm_num)
    norm_num at this ⊢
    linarith
  have hp4pos : 0 < yv * t3 := mul_pos hypos (by linarith)
  have hp4lo : 1 / 18446744073709551616 * (88 / 100) ≤ yv * t3 :=
    mul_le_mul hyv1 ht3lo (by norm_num) hypos.le
  have hp4hi : yv * t3 ≤ 9223372036854775808 * (113 / 100) :=
    mul_le_mul hyv2 ht3hi (by linarith) (by norm_num)
  refine ⟨⟨by norm_num at hp4lo ⊢; linarith, by norm_num at hp4hi ⊢; linarith⟩, ?_⟩
  intro yn hyn
  obtain ⟨δ4, hδ4, e4⟩ := rel_err_factor (yv * t3) yn hp4pos hyn
  have hw := one_add_mul_err δ3 δ4 _ _ hδ3 hδ4
  have hw' : |(1 + δ3) * (1 + δ4) - 1| ≤ 3 / 10 ^ 7 := by
    refine hw.trans ?_
    norm_num
  have hval : sv * yn ^ 2
      = sv * yv ^ 2 * ((3 / 2 - sv * yv ^ 2 / 2 * (1 + η))
          * (1 + ((1 + δ3) * (1 + δ4) - 1))) ^ 2 := by
    rw [e4, e3, ht2v]
    ring
  rw [hval]
  generalize (1 + δ3) * (1 + δ4) - 1 = w' at hw'
  have hw'' : |(1 + w') - 1| ≤ 3 / 10 ^ 7 := by
    rw [add_sub_cancel_left]
    exact hw'
  exact newton_value (sv * yv ^ 2) η (1 + w') d hd hu hη hw''

/-- One Newton iteration of `inv_sqrt` on floats: for positive normal `x2 ≈ s / 2` and `y` with
`|s y² - 1| ≤ d ≤ 1/5`, the next iterate `y * (1.5 - x2 * y * y)` is a positive normal float
with `1 - d² - 10⁻⁵ ≤ s y'² ≤ 1 + 10⁻⁵`. -/
theorem newton_step (x2 y : ℕ) (sv d : ℚ)
    (hx1 : 8388608 ≤ x2) (hx2 : x2 < 2139095040) (hy1 : 8388608 ≤ y) (hy2 : y < 2139095040)
    (hs1 : (2 : ℚ) ^ (-125 : ℤ) ≤ sv) (hs2 : sv ≤ (2 : ℚ) ^ (127 : ℤ))
    (hxv : |f32_val x2 - sv / 2| ≤ sv / 2 / 2 ^ 24)
    (hd : d ≤ 1 / 5) (hu : |sv * f32_val y ^ 2 - 1| ≤ d) :
    8388608 ≤ f32_mul y (f32_sub 0x3fc00000 (f32_mul (f32_mul x2 y) y)) ∧
    f32_mul y (f32_sub 0x3fc00000 (f32_mul (f32_mul x2 y) y)) < 2139095040 ∧
    1 - d ^ 2 - 1 / 10 ^ 5
      ≤ sv * f32_val (f32_mul y (f32_sub 0x3fc00000 (f32_mul (f32_mul x2 y) y))) ^ 2 ∧
    sv * f32_val (f32_mul y (f32_sub 0x3fc00000 (f32_mul (f32_mul x2 y) y))) ^ 2
      ≤ 1 + 1 / 10 ^ 5 := by
  obtain ⟨r1, k1⟩ := newton_exact sv (f32_val x2) (f32_val y) d hs1 hs2 hxv
    (f32_val_pos y hy1 hy2) hd hu
  obtain ⟨n1a, n1b, e1⟩ := f32_mul_normal x2 y hx1 hx2 hy1 hy2 r1.1 r1.2
  obtain ⟨r2, k2⟩ := k1 _ e1
  obtain ⟨n2a, n2b, e2⟩ := f32_mul_normal _ y n1a n1b hy1 hy2 r2.1 r2.2
  obtain ⟨r3, k3⟩ := k2 _ e2
  have h15 := f32_val_consts.1
  obtain ⟨n3a, n3b, e3⟩ := f32_sub_normal 0x3fc00000 _ (by norm_num) (by norm_num) n2a n2b
    (by rw [h15]; exact r3.1) (by rw [h15]; exact r3.2)
  rw [h15] at e3
  obtain ⟨r4, k4⟩ := k3 _ e3
  obtain ⟨n4a, n4b, e4⟩ := f32_mul_normal y _ hy1 hy2 n3a n3b r4.1 r4.2
  exact ⟨n4a, n4b, k4 _ e4⟩

/-- The exponent field of a positive normal float whose value lies in `[2^-125, 2^127)`. -/
theorem f32_bits_range (s : ℕ) (h1 : 8388608 ≤ s) (h2 : s < 2139095040)
    (hv1 : (2 : ℚ) ^ (-125 : ℤ) ≤ f32_val s) (hv2 : f32_val s < (2 : ℚ) ^ (127 : ℤ)) :
    16777216 ≤ s ∧ s < 2130706432 := by
  obtain ⟨E, M, hs, hM⟩ : ∃ E M : ℕ, s = E * 8388608 + M ∧ M < 8388608 :=
    ⟨s / 8388608, s % 8388608, by omega, by omega⟩
  obtain ⟨_, _, hv⟩ := f32_val_of_fields s E M hs (by omega) (by omega) hM
  rw [hv] at hv1 hv2
  have hMq : (M : ℚ) < 8388608 := by exact_mod_cast hM
  have hM0 : (0 : ℚ) ≤ M := by positivity
  constructor
  · by_contra hlt
    have hE : E = 1 := by omega
    rw [hE] at hv1
    norm_num at hv1
    linarith
  · by_contra hge
    have hE : 254 ≤ E := by omega
    have hz : (2 : ℚ) ^ (104 : ℤ) ≤ 2 ^ ((E : ℤ) - 150) :=
      zpow_le_zpow_right₀ (by norm_num) (by omega)
    have : (8388608 : ℚ) * 2 ^ (104 : ℤ) ≤ (8388608 + (M : ℚ)) * 2 ^ ((E : ℤ) - 150) :=
      mul_le_mul (by linarith) hz (by positivity) (by positivity)
    norm_num at this hv2
    linarith

/-- The float product `x * x` of a finite float with `2^-62 ≤ |x| ≤ 50` is a positive normal
float within relative error `2^-24` of the exact square. -/
theorem f32_square_normal (x : ℕ) (hfin : f32_finite x = true)
    (h1 : (2 : ℚ) ^ (-62 : ℤ) ≤ |f32_val x|) (h2 : |f32_val x| ≤ 50) :
    8388608 ≤ f32_mul x x ∧ f32_mul x x < 2139095040 ∧
    |f32_val (f32_mul x x) - f32_val x * f32_val x| ≤ f32_val x * f32_val x / 2 ^ 24 ∧
    (2 : ℚ) ^ (-124 : ℤ) ≤ f32_val x * f32_val x ∧ f32_val x * f32_val x ≤ 2500 := by
  have habs : f32_val x * f32_val x = |f32_val x| * |f32_val x| := (abs_mul_abs_self _).symm
  have hpos : (0 : ℚ) < 2 ^ (-62 : ℤ) := by positivity
  have hlo : (2 : ℚ) ^ (-124 : ℤ) ≤ f32_val x * f32_val x := by
    rw [habs]
    have : (2 : ℚ) ^ (-62 : ℤ) * 2 ^ (-62 : ℤ) ≤ |f32_val x| * |f32_val x| :=
      mul_le_mul h1 h1 hpos.le (abs_nonneg _)
    norm_num at this ⊢
    linarith
  have hhi : f32_val x * f32_val x ≤ 2500 := by
    rw [habs]
    have : |f32_val x| * |f32_val x| ≤ 50 * 50 :=
      mul_le_mul h2 h2 (abs_nonneg _) (by norm_num)
    linarith
  have hne : f32_val x * f32_val x ≠ 0 := by
    have : (0 : ℚ) < 2 ^ (-124 : ℤ) := by positivity
    linarith
  have e : f32_mul x x = f32_round (f32_val x * f32_val x) := by
    unfold f32_mul
    rw [hfin]
    simp only [Bool.and_self, if_true]
    rw [if_neg hne]
  rw [e]
  obtain ⟨a, b, c⟩ := f32_round_normal (f32_val x * f32_val x)
    (by norm_num at hlo ⊢; linarith) (by norm_num; linarith)
  exact ⟨a, b, c, hlo, hhi⟩

set_option maxHeartbeats 1000000 in
/-- On a positive normal float `s` with `2^-125 ≤ s < 2^127`, the result `y` of `inv_sqrt` is a
positive float with `0.999889 ≤ s y² ≤ 1.00001`. -/
theorem inv_sqrt_normal (s : ℕ) (h1 : 8388608 ≤ s) (h2 : s < 2139095040)
    (hv1 : (2 : ℚ) ^ (-125 : ℤ) ≤ f32_val s) (hv2 : f32_val s < (2 : ℚ) ^ (127 : ℤ)) :
    0 < f32_val (inv_sqrt s) ∧
    1 - 111 / 10 ^ 6 ≤ f32_val s * f32_val (inv_sqrt s) ^ 2 ∧
    f32_val s * f32_val (inv_sqrt s) ^ 2 ≤ 1 + 1 / 10 ^ 5 := by
  obtain ⟨hb1, hb2⟩ := f32_bits_range s h1 h2 hv1 hv2
  have hhalf := f32_val_consts.2
  have hsv : 0 < f32_val s := f32_val_pos s h1 h2
  -- `x2 = x * 0.5F`
  obtain ⟨x1, x2, xe⟩ := f32_mul_normal s 0x3f000000 h1 h2 (by norm_num) (by norm_num)
    (by rw [hhalf]; norm_num at hv1 ⊢; linarith) (by rw [hhalf]; norm_num at hv2 ⊢; linarith)
  rw [hhalf] at xe
  have xe' : |f32_val (f32_mul s 0x3f000000) - f32_val s / 2| ≤ f32_val s / 2 / 2 ^ 24 := by
    have e : f32_val s * (1 / 2) = f32_val s / 2 := by ring
    rw [e] at xe
    exact xe
  -- the initial guess
  obtain ⟨g1, g2, g3, g4⟩ := magic_guess s hb1 hb2
  have hu0 : |f32_val s * f32_val (of_ivalue (0x5f3759df - ivalue s / 2)) ^ 2 - 1| ≤ 1 / 10 := by
    rw [abs_le]
    constructor <;> linarith
  -- first iteration
  obtain ⟨a1, a2, a3, a4⟩ := newton_step _ _ (f32_val s) (1 / 10) x1 x2 g1 g2 hv1
    hv2.le xe' (by norm_num) hu0
  have hu1 : |f32_val s * f32_val (f32_mul (of_ivalue (0x5f3759df - ivalue s / 2))
      (f32_sub 0x3fc00000 (f32_mul (f32_mul (f32_mul s 0x3f000000)
        (of_ivalue (0x5f3759df - ivalue s / 2))) (of_ivalue (0x5f3759df - ivalue s / 2))))) ^ 2
      - 1| ≤ 1001 / 100000 := by
    rw [abs_le]
    constructor <;> norm_num at a3 a4 ⊢ <;> linarith
  -- second iteration
  obtain ⟨b1, b2, b3, b4⟩ := newton_step _ _ (f32_val s) (1001 / 100000) x1 x2 a1 a2 hv1
    hv2.le xe' (by norm_num) hu1
  have hpos := f32_val_pos _ b1 b2
  have hinv : inv_sqrt s = f32_mul (f32_mul (of_ivalue (0x5f3759df - ivalue s / 2))
      (f32_sub 0x3fc00000 (f32_mul (f32_mul (f32_mul s 0x3f000000)
        (of_ivalue (0x5f3759df - ivalue s / 2))) (of_ivalue (0x5f3759df - ivalue s / 2)))))
      (f32_sub 0x3fc00000 (f32_mul (f32_mul (f32_mul s 0x3f000000)
        (f32_mul (of_ivalue (0x5f3759df - ivalue s / 2))
          (f32_sub 0x3fc00000 (f32_mul (f32_mul (f32_mul s 0x3f000000)
            (of_ivalue (0x5f3759df - ivalue s / 2))) (of_ivalue (0x5f3759df - ivalue s / 2))))))
        (f32_mul (of_ivalue (0x5f3759df - ivalue s / 2))
          (f32_sub 0x3fc00000 (f32_mul (f32_mul (f32_mul s 0x3f000000)
            (of_ivalue (0x5f3759df - ivalue s / 2)))
            (of_ivalue (0x5f3759df - ivalue s / 2))))))) := by
    unfold inv_sqrt
    simp only
    unfold f32_fabs
    rw [if_neg]
    simp only [Bool.and_eq_true, decide_eq_true_eq, not_and, not_lt]
    intro _
    exact hpos.le
  rw [hinv]
  refine ⟨hpos, ?_, b4⟩
  norm_num at b3 ⊢
  linarith

/-- C5 (as stated, refuted): the float `x = 2^-80` (bit pattern `0x17800000`) is finite,
non-zero and within `[-50, 50]`, its float square underflows to zero, and `inv_sqrt (x * x)`
is about `2.97e19` while `1 / |x| = 2^80`; the relative error exceeds 0.2%. -/
theorem inv_sqrt_underflow :
    f32_finite 0x17800000 = true ∧ f32_val 0x17800000 ≠ 0 ∧ |f32_val 0x17800000| ≤ 50 ∧
    f32_mul 0x17800000 0x17800000 = 0 ∧
    ¬ |f32_val (inv_sqrt (f32_mul 0x17800000 0x17800000)) - 1 / (|f32_val 0x17800000|)|
        ≤ 2 / 1000 * (1 / (|f32_val 0x17800000|)) := by
  have hx : f32_val 0x17800000 = 2 ^ (-80 : ℤ) := by
    rw [(f32_val_of_fields 0x17800000 47 0 (by norm_num) (by norm_num) (by norm_num)
      (by norm_num)).2.2]
    norm_num
  have hm : f32_mul 0x17800000 0x17800000 = 0 := by decide!
  have hi : inv_sqrt 0 = 1607353626 := by decide!
  have hy : f32_val 1607353626 = 13518106 * 2 ^ (41 : ℤ) := by
    rw [(f32_val_of_fields 1607353626 191 5129498 (by norm_num) (by norm_num) (by norm_num)
      (by norm_num)).2.2]
    norm_num
  refine ⟨by decide!, ?_, ?_, hm, ?_⟩
  · rw [hx]
    positivity
  · rw [hx]
    norm_num [abs_of_pos]
  · rw [hm, hi, hy, hx]
    norm_num [abs_of_pos]

/-- C5 (amended): for every finite float `x` with `2^-62 ≤ |x| ≤ 50`, `inv_sqrt (x * x)`, with
`x * x` the float product, is within 0.2% relative error of `1 / |x|`. -/
theorem inv_sqrt_accuracy (x : ℕ) (hfin : f32_finite x = true)
    (h1 : (2 : ℚ) ^ (-62 : ℤ) ≤ |f32_val x|) (h2 : |f32_val x| ≤ 50) :
    |f32_val (inv_sqrt (f32_mul x x)) - 1 / (|f32_val x|)| ≤ 2 / 1000 * (1 / (|f32_val x|)) := by
  obtain ⟨n1, n2, e, rlo, rhi⟩ := f32_square_normal x hfin h1 h2
  have hv : 0 < |f32_val x| := lt_of_lt_of_le (by positivity) h1
  have habs : f32_val x * f32_val x = |f32_val x| ^ 2 := by
    rw [pow_two]
    exact (abs_mul_abs_self _).symm
  rw [habs] at e rlo rhi
  generalize |f32_val x| = v at *
  obtain ⟨e1, e2⟩ := abs_le.mp e
  have hs1 : (2 : ℚ) ^ (-125 : ℤ) ≤ f32_val (f32_mul x x) := by
    norm_num at rlo e1 ⊢
    linarith
  have hs2 : f32_val (f32_mul x x) < (2 : ℚ) ^ (127 : ℤ) := by
    norm_num at e2 ⊢
    linarith
  obtain ⟨ypos, u1, u2⟩ := inv_sqrt_normal (f32_mul x x) n1 n2 hs1 hs2
  generalize f32_val (inv_sqrt (f32_mul x x)) = y at *
  generalize f32_val (f32_mul x x) = s at *
  have hy2 : 0 < y ^ 2 := by positivity
  -- the exact square in place of the rounded one
  have k1 : 9983 / 10000 ≤ (y * v) ^ 2 := by
    have : s * y ^ 2 ≤ (v ^ 2 + v ^ 2 / 2 ^ 24) * y ^ 2 :=
      mul_le_mul_of_nonneg_right (by linarith) hy2.le
    have e3 : (v ^ 2 + v ^ 2 / 2 ^ 24) * y ^ 2 = (y * v) ^ 2 * (1 + 1 / 2 ^ 24) := by ring
    rw [e3] at this
    norm_num at this u1 ⊢
    linarith
  have k2 : (y * v) ^ 2 ≤ 10001 / 10000 := by
    have : (v ^ 2 - v ^ 2 / 2 ^ 24) * y ^ 2 ≤ s * y ^ 2 :=
      mul_le_mul_of_nonneg_right (by linarith) hy2.le
    have e3 : (v ^ 2 - v ^ 2 / 2 ^ 24) * y ^ 2 = (y * v) ^ 2 * (1 - 1 / 2 ^ 24) := by ring
    rw [e3] at this
    norm_num at this u2 ⊢
    linarith
  have hyv : 0 < y * v := mul_pos ypos hv
  have t1 : 998 / 1000 ≤ y * v := by
    apply le_of_sq_le_sq _ _ hyv.le
    norm_num at k1 ⊢
    linarith
  have t2 : y * v ≤ 1002 / 1000 := by
    apply le_of_sq_le_sq _ _ (by norm_num)
    norm_num at k2 ⊢
    linarith
  have ed : y - 1 / v = (y * v - 1) / v := by
    field_simp
  rw [ed, abs_div, abs_of_pos hv]
  have : |y * v - 1| ≤ 2 / 1000 := by
    rw [abs_le]
    constructor <;> linarith
  calc |y * v - 1| / v ≤ 2 / 1000 / v := div_le_div_of_nonneg_right this hv.le
    _ = 2 / 1000 * (1 / v) := by ring

/-- Witness of C5 (amended) at `x = 2.0F`, bit pattern `0x40000000`. -/
theorem inv_sqrt_accuracy_witness :
    |f32_val (inv_sqrt (f32_mul 0x40000000 0x40000000)) - 1 / (|f32_val 0x40000000|)|
      ≤ 2 / 1000 * (1 / (|f32_val 0x40000000|)) :=
  have hx : f32_val 0x40000000 = 2 :=
    (f32_val_of_fields 0x40000000 128 0 (by norm_num) (by norm_num) (by norm_num)
      (by norm_num)).2.2.trans (by norm_num)
  inv_sqrt_accuracy 0x40000000 (by decide!) (by rw [hx]; norm_num) (by rw [hx]; norm_num)

/-- The accuracy of `inv_sqrt` as the vector and quaternion code calls it: for a radicand `S`
with `2^-124 ≤ S ≤ 2^126`, the result `y` is positive and `0.99988 ≤ S y² ≤ 1.00002`. -/
theorem inv_sqrt_val_accuracy (S : ℚ) (h1 : (2 : ℚ) ^ (-124 : ℤ) ≤ S) (h2 : S ≤ (2 : ℚ) ^ (126 : ℤ)) :
    0 < inv_sqrt_val S ∧
    1 - 12 / 10 ^ 5 ≤ S * inv_sqrt_val S ^ 2 ∧ S * inv_sqrt_val S ^ 2 ≤ 1 + 2 / 10 ^ 5 := by
  have hS : 0 < S := lt_of_lt_of_le (by positivity) h1
  obtain ⟨n1, n2, e⟩ := f32_round_normal S (by norm_num at h1 ⊢; linarith)
    (by norm_num at h2 ⊢; linarith)
  obtain ⟨e1, e2⟩ := abs_le.mp e
  have hs1 : (2 : ℚ) ^ (-125 : ℤ) ≤ f32_val (f32_round S) := by
    norm_num at h1 e1 ⊢
    linarith
  have hs2 : f32_val (f32_round S) < (2 : ℚ) ^ (127 : ℤ) := by
    norm_num at h2 e2 ⊢
    linarith
  obtain ⟨ypos, u1, u2⟩ := inv_sqrt_normal (f32_round S) n1 n2 hs1 hs2
  unfold inv_sqrt_val
  generalize f32_val (inv_sqrt (f32_round S)) = y at *
  generalize f32_val (f32_round S) = s at *
  have hy2 : 0 < y ^ 2 := by positivity
  refine ⟨ypos, ?_, ?_⟩
  · have : s * y ^ 2 ≤ (S + S / 2 ^ 24) * y ^ 2 :=
      mul_le_mul_of_nonneg_right (by linarith) hy2.le
    have e3 : (S + S / 2 ^ 24) * y ^ 2 = S * y ^ 2 * (1 + 1 / 2 ^ 24) := by ring
    rw [e3] at this
    norm_num at this u1 ⊢
    linarith
  · have : (S - S / 2 ^ 24) * y ^ 2 ≤ s * y ^ 2 :=
      mul_le_mul_of_nonneg_right (by linarith) hy2.le
    have e3 : (S - S / 2 ^ 24) * y ^ 2 = S * y ^ 2 * (1 - 1 / 2 ^ 24) := by ring
    rw [e3] at this
    norm_num at this u2 ⊢
    linarith

/-! ### `normalize` and `from_two_unit_vectors` with the bit-level `inv_sqrt` -/

/-- `inv_sqrt_val` at the radicands 25, `2^-140` and 2. -/
theorem inv_sqrt_val_samples :
    inv_sqrt_val 25 = 3355431 / 16777216 ∧
    inv_sqrt_val (1 / 2 ^ 140) = 29721965336691998720 ∧
    inv_sqrt_val 2 = 11863281 / 16777216 := by
  have r1 : f32_round 25 = 1103626240 := by decide!
  have i1 : inv_sqrt 1103626240 = 1045220508 := by decide!
  have r2 : f32_round (1 / 2 ^ 140) = 512 := by decide!
  have i2 : inv_sqrt 512 = 1607351505 := by decide!
  have r3 : f32_round 2 = 1073741824 := by decide!
  have i3 : inv_sqrt 1073741824 = 1060439281 := by decide!
  unfold inv_sqrt_val
  rw [r1, i1, r2, i2, r3, i3]
  refine ⟨?_, ?_, ?_⟩
  · rw [(f32_val_of_fields 1045220508 124 5033116 (by norm_num) (by norm_num) (by norm_num)
      (by norm_num)).2.2]
    norm_num
  · rw [(f32_val_of_fields 1607351505 191 5127377 (by norm_num) (by norm_num) (by norm_num)
      (by norm_num)).2.2]
    norm_num
  · rw [(f32_val_of_fields 1060439281 126 3474673 (by norm_num) (by norm_num) (by norm_num)
      (by norm_num)).2.2]
    norm_num

/-- `inv_sqrt_val` at the sum of squares of the normalised `(3, 4, 0, 0)`. -/
theorem inv_sqrt_val_sample_unit :
    inv_sqrt_val (281472929894025 / 281474976710656) = 4194301 / 4194304 := by
  have r1 : f32_round (281472929894025 / 281474976710656) = 1065353094 := by decide!
  have i1 : inv_sqrt 1065353094 = 1065353204 := by decide!
  unfold inv_sqrt_val
  rw [r1, i1, (f32_val_of_fields 1065353204 126 8388596 (by norm_num) (by norm_num) (by norm_num)
    (by norm_num)).2.2]
  norm_num

/-- C6 (as stated, refuted), with the bit-level `inv_sqrt`: the zero quaternion normalises to
sum of squares 0; `(2^-70, 0, 0, 0)`, whose sum of squares `2^-140` is a subnormal float,
normalises to sum of squares about 0.00063; and a second `normalize` changes the result of the
first on `(3, 4, 0, 0)`. -/
theorem normalize_not_unit :
    (quaternion.normalize inv_sqrt_val (⟨0, 0, 0, 0⟩ : quaternion ℚ)).sum_sq = 0 ∧
    ¬ |(quaternion.normalize inv_sqrt_val (⟨0, 0, 0, 0⟩ : quaternion ℚ)).sum_sq - 1| ≤ 1 / 1000 ∧
    (quaternion.normalize inv_sqrt_val (⟨1 / 2 ^ 70, 0, 0, 0⟩ : quaternion ℚ)).sum_sq
      = 182681850520225 / 288230376151711744 ∧
    ¬ |(quaternion.normalize inv_sqrt_val (⟨1 / 2 ^ 70, 0, 0, 0⟩ : quaternion ℚ)).sum_sq - 1|
        ≤ 1 / 1000 ∧
    quaternion.normalize inv_sqrt_val (quaternion.normalize inv_sqrt_val ⟨3, 4, 0, 0⟩)
      ≠ quaternion.normalize inv_sqrt_val (⟨3, 4, 0, 0⟩ : quaternion ℚ) := by
  have h0 : (quaternion.normalize inv_sqrt_val (⟨0, 0, 0, 0⟩ : quaternion ℚ)).sum_sq = 0 := by
    simp [quaternion.normalize, quaternion.sum_sq]
  have e140 : (1 / 2 ^ 70 : ℚ) * (1 / 2 ^ 70) + 0 * 0 + 0 * 0 + 0 * 0 = 1 / 2 ^ 140 := by
    norm_num
  have h1 : (quaternion.normalize inv_sqrt_val (⟨1 / 2 ^ 70, 0, 0, 0⟩ : quaternion ℚ)).sum_sq
      = 182681850520225 / 288230376151711744 := by
    simp only [quaternion.normalize, quaternion.sum_sq]
    rw [e140, inv_sqrt_val_samples.2.1]
    norm_num
  have e25 : (3 : ℚ) * 3 + 4 * 4 + 0 * 0 + 0 * 0 = 25 := by norm_num
  have h2 : quaternion.normalize inv_sqrt_val (⟨3, 4, 0, 0⟩ : quaternion ℚ)
      = ⟨10066293 / 16777216, 3355431 / 4194304, 0, 0⟩ := by
    simp only [quaternion.normalize]
    rw [e25, inv_sqrt_val_samples.1]
    norm_num
  have e1 : (10066293 / 16777216 : ℚ) * (10066293 / 16777216)
      + 3355431 / 4194304 * (3355431 / 4194304) + 0 * 0 + 0 * 0
      = 281472929894025 / 281474976710656 := by norm_num
  have h3 : quaternion.normalize inv_sqrt_val
      (⟨10066293 / 16777216, 3355431 / 4194304, 0, 0⟩ : quaternion ℚ)
      = ⟨42221062796193 / 70368744177664, 14073687598731 / 17592186044416, 0, 0⟩ := by
    simp only [quaternion.normalize]
    rw [e1, inv_sqrt_val_sample_unit]
    norm_num
  refine ⟨h0, ?_, h1, ?_, ?_⟩
  · rw [h0]
    norm_num
  · rw [h1]
    rw [abs_le]
    norm_num
  · rw [h2, h3]
    intro h
    have := congrArg quaternion.w h
    norm_num at this

/-- The shape of `normalize`: every component is scaled by the inverse square root of the sum
of squares, so the sum of squares is scaled by its square. -/
theorem normalize_shape (f : ℚ → ℚ) (p : quaternion ℚ) :
    (quaternion.normalize f p).w = p.w * f p.sum_sq ∧
    (quaternion.normalize f p).x = p.x * f p.sum_sq ∧
    (quaternion.normalize f p).y = p.y * f p.sum_sq ∧
    (quaternion.normalize f p).z = p.z * f p.sum_sq ∧
    (quaternion.normalize f p).sum_sq = p.sum_sq * f p.sum_sq ^ 2 := by
  refine ⟨rfl, rfl, rfl, rfl, ?_⟩
  simp only [quaternion.normalize, quaternion.sum_sq]
  ring

/-- The second `normalize` on exact numbers: with `T` the sum of squares after the first call
and `z` the factor of the second, both within the accuracy of `inv_sqrt`, the sums of squares
stay within 1e-3 of 1 and every component moves by at most 1e-3. -/
theorem normalize_twice_bounds (T z : ℚ) (b1 : 1 - 12 / 10 ^ 5 ≤ T) (b2 : T ≤ 1 + 2 / 10 ^ 5)
    (zpos : 0 < z) (c1 : 1 - 12 / 10 ^ 5 ≤ T * z ^ 2) (c2 : T * z ^ 2 ≤ 1 + 2 / 10 ^ 5) :
    |T - 1| ≤ 1 / 1000 ∧ |T * z ^ 2 - 1| ≤ 1 / 1000 ∧
    ∀ c : ℚ, c * c ≤ T → |c * z - c| ≤ 1 / 1000 := by
  have hz1 : 9999 / 10000 ≤ z := by
    apply le_of_sq_le_sq _ _ zpos.le
    have : T * z ^ 2 ≤ (1 + 2 / 10 ^ 5) * z ^ 2 := mul_le_mul_of_nonneg_right b2 (sq_nonneg z)
    norm_num at this c1 ⊢
    linarith
  have hz2 : z ≤ 10001 / 10000 := by
    apply le_of_sq_le_sq _ _ (by norm_num)
    have : (1 - 12 / 10 ^ 5) * z ^ 2 ≤ T * z ^ 2 := mul_le_mul_of_nonneg_right b1 (sq_nonneg z)
    norm_num at this c2 ⊢
    linarith
  refine ⟨?_, ?_, ?_⟩
  · rw [abs_le]
    constructor <;> norm_num at b1 b2 ⊢ <;> linarith
  · rw [abs_le]
    constructor <;> norm_num at c1 c2 ⊢ <;> linarith
  · intro c hc
    have hc1 : |c| ≤ 2 := by
      rw [abs_le]
      constructor <;> nlinarith
    have e : c * z - c = c * (z - 1) := by ring
    have hz3 : |z - 1| ≤ 1 / 10000 := by
      rw [abs_le]
      constructor <;> linarith
    rw [e, abs_mul]
    calc |c| * |z - 1| ≤ 2 * (1 / 10000) := mul_le_mul hc1 hz3 (abs_nonneg _) (by norm_num)
      _ ≤ 1 / 1000 := by norm_num

/-- C6 (amended): for every quaternion whose sum of squares `S` satisfies `2^-124 ≤ S ≤ 2^126`,
`normalize` with the bit-level `inv_sqrt` (exact arithmetic elsewhere) yields a quaternion whose
sum of squares is within 1e-3 of 1, and a second `normalize` keeps the sum of squares within
1e-3 of 1 and changes each component by at most 1e-3; with `inv_sqrt` idealised as `1/sqrt`, for
every quaternion other than zero the sum of squares is exactly 1 and the second `normalize`
changes nothing. -/
theorem normalize_accuracy (q : quaternion ℚ) (h1 : (2 : ℚ) ^ (-124 : ℤ) ≤ q.sum_sq)
    (h2 : q.sum_sq ≤ (2 : ℚ) ^ (126 : ℤ)) :
    |(quaternion.normalize inv_sqrt_val q).sum_sq - 1| ≤ 1 / 1000 ∧
    |(quaternion.normalize inv_sqrt_val (quaternion.normalize inv_sqrt_val q)).sum_sq - 1|
      ≤ 1 / 1000 ∧
    |(quaternion.normalize inv_sqrt_val (quaternion.normalize inv_sqrt_val q)).w
      - (quaternion.normalize inv_sqrt_val q).w| ≤ 1 / 1000 ∧
    |(quaternion.normalize inv_sqrt_val (quaternion.normalize inv_sqrt_val q)).x
      - (quaternion.normalize inv_sqrt_val q).x| ≤ 1 / 1000 ∧
    |(quaternion.normalize inv_sqrt_val (quaternion.normalize inv_sqrt_val q)).y
      - (quaternion.normalize inv_sqrt_val q).y| ≤ 1 / 1000 ∧
    |(quaternion.normalize inv_sqrt_val (quaternion.normalize inv_sqrt_val q)).z
      - (quaternion.normalize inv_sqrt_val q).z| ≤ 1 / 1000 ∧
    (∀ p : quaternion ℝ, p.sum_sq ≠ 0 →
      (quaternion.normalize (fun s : ℝ => 1 / Real.sqrt s) p).sum_sq = 1 ∧
      quaternion.normalize (fun s : ℝ => 1 / Real.sqrt s)
          (quaternion.normalize (fun s : ℝ => 1 / Real.sqrt s) p)
        = quaternion.normalize (fun s : ℝ => 1 / Real.sqrt s) p) := by
  obtain ⟨ypos, a1, a2⟩ := inv_sqrt_val_accuracy q.sum_sq h1 h2
  obtain ⟨-, -, -, -, s1⟩ := normalize_shape inv_sqrt_val q
  obtain ⟨w2, x2, y2, z2, s2⟩ := normalize_shape inv_sqrt_val (quaternion.normalize inv_sqrt_val q)
  rw [← s1] at a1 a2
  rw [w2, x2, y2, z2, s2]
  generalize quaternion.normalize inv_sqrt_val q = q1 at a1 a2 ⊢
  obtain ⟨zpos, c1, c2⟩ := inv_sqrt_val_accuracy q1.sum_sq
    (le_trans (by norm_num) a1) (le_trans a2 (by norm_num))
  obtain ⟨k1, k2, k3⟩ := normalize_twice_bounds _ _ a1 a2 zpos c1 c2
  refine ⟨k1, k2, k3 _ ?_, k3 _ ?_, k3 _ ?_, k3 _ ?_, fun p hp =>
    ⟨(normalize_unit_idempotent p hp).1, (normalize_unit_idempotent p hp).2.2⟩⟩
  · unfold quaternion.sum_sq
    linarith [mul_self_nonneg q1.x, mul_self_nonneg q1.y, mul_self_nonneg q1.z]
  · unfold quaternion.sum_sq
    linarith [mul_self_nonneg q1.w, mul_self_nonneg q1.y, mul_self_nonneg q1.z]
  · unfold quaternion.sum_sq
    linarith [mul_self_nonneg q1.w, mul_self_nonneg q1.x, mul_self_nonneg q1.z]
  · unfold quaternion.sum_sq
    linarith [mul_self_nonneg q1.w, mul_self_nonneg q1.x, mul_self_nonneg q1.y]

/-- Witness of C6 (amended) at the quaternion `(3, 4, 0, 0)`. -/
theorem normalize_accuracy_witness :
    ((2 : ℚ) ^ (-124 : ℤ) ≤ (⟨3, 4, 0, 0⟩ : quaternion ℚ).sum_sq ∧
      (⟨3, 4, 0, 0⟩ : quaternion ℚ).sum_sq ≤ (2 : ℚ) ^ (126 : ℤ)) ∧
    |(quaternion.normalize inv_sqrt_val (⟨3, 4, 0, 0⟩ : quaternion ℚ)).sum_sq - 1| ≤ 1 / 1000 := by
  have h1 : (2 : ℚ) ^ (-124 : ℤ) ≤ (⟨3, 4, 0, 0⟩ : quaternion ℚ).sum_sq := by
    norm_num [quaternion.sum_sq]
  have h2 : (⟨3, 4, 0, 0⟩ : quaternion ℚ).sum_sq ≤ (2 : ℚ) ^ (126 : ℤ) := by
    norm_num [quaternion.sum_sq]
  exact ⟨⟨h1, h2⟩, (normalize_accuracy ⟨3, 4, 0, 0⟩ h1 h2).1⟩

/-- A sequence that increases at every step of `[0, N)` is monotone on `[0, N]`. -/
theorem nodes_mono (g : ℤ → ℚ) (N : ℤ) (hg : ∀ n, 0 ≤ n → n < N → g n < g (n + 1))
    (a b : ℤ) (ha : 0 ≤ a) (hab : a ≤ b) (hb : b ≤ N) : g a ≤ g b := by
  obtain ⟨k, rfl⟩ : ∃ k : ℕ, b = a + k := ⟨(b - a).toNat, by omega⟩
  clear hab
  induction k with
  | zero => simp
  | succ k ih =>
    have h1 := ih (by push_cast at hb ⊢; omega)
    have h2 := hg (a + k) (by omega) (by push_cast at hb ⊢; omega)
    have e : a + ((k + 1 : ℕ) : ℤ) = a + k + 1 := by push_cast; ring
    rw [e]
    exact h1.trans h2.le

/-- The value of a piecewise-linear interpolant lies between the nodes of its slot. -/
theorem interp_bounds (g : ℤ → ℚ) (N : ℤ) (hg : ∀ n, 0 ≤ n → n < N → g n < g (n + 1))
    (t : ℚ) (h0 : 0 ≤ t) (hN : t < N) :
    g ⌊t⌋ ≤ g ⌊t⌋ + (t - ⌊t⌋) * (g (⌊t⌋ + 1) - g ⌊t⌋) ∧
    g ⌊t⌋ + (t - ⌊t⌋) * (g (⌊t⌋ + 1) - g ⌊t⌋) < g (⌊t⌋ + 1) ∧
    0 ≤ ⌊t⌋ ∧ ⌊t⌋ < N := by
  have hf0 : 0 ≤ ⌊t⌋ := Int.floor_nonneg.mpr h0
  have hfN : ⌊t⌋ < N := Int.floor_lt.mpr hN
  have hd := hg ⌊t⌋ hf0 hfN
  have h1 := Int.floor_le t
  have h2 := Int.lt_floor_add_one t
  refine ⟨?_, ?_, hf0, hfN⟩
  · nlinarith
  · nlinarith

/-- A piecewise-linear interpolant through increasing nodes is strictly increasing. -/
theorem interp_strictMono (g : ℤ → ℚ) (N : ℤ) (hg : ∀ n, 0 ≤ n → n < N → g n < g (n + 1))
    (s t : ℚ) (hs : 0 ≤ s) (hst : s < t) (ht : t < N) :
    g ⌊s⌋ + (s - ⌊s⌋) * (g (⌊s⌋ + 1) - g ⌊s⌋)
      < g ⌊t⌋ + (t - ⌊t⌋) * (g (⌊t⌋ + 1) - g ⌊t⌋) := by
  obtain ⟨_, s2, s3, _⟩ := interp_bounds g N hg s hs (hst.trans ht)
  obtain ⟨t1, _, _, t4⟩ := interp_bounds g N hg t (hs.trans hst.le) ht
  have hmn : ⌊s⌋ ≤ ⌊t⌋ := Int.floor_mono hst.le
  rcases hmn.eq_or_lt with h | h
  · rw [h]
    have hd := hg ⌊t⌋ (by omega) t4
    nlinarith
  · have := nodes_mono g N hg (⌊s⌋ + 1) ⌊t⌋ (by omega) (by omega) (by omega)
    linarith

/-- The last two entries of the arctangent table, as `table_at` reads them. -/
theorem atan_table_at_last :
    table_at atan_lookup_table 499 = 7844 ∧ table_at atan_lookup_table (499 - 1) = 7834 := by
  have e1 : (499 : ℤ) = ((499 : ℕ) : ℤ) := by norm_num
  have e2 : (499 : ℤ) - 1 = ((498 : ℕ) : ℤ) := by norm_num
  rw [e2, e1, table_at_natCast, table_at_natCast, atan_table_last.1, atan_table_last.2]
  norm_num

/-- The nodes of the arctangent table, continued past the last entry, increase. -/
theorem atan_nodes_increasing (n : ℤ) (h0 : 0 ≤ n) (hn : n < 500) :
    extended_nodes atan_lookup_table 499 n < extended_nodes atan_lookup_table 499 (n + 1) := by
  obtain ⟨k, rfl⟩ := Int.eq_ofNat_of_zero_le h0
  have hk : k < 500 := by omega
  unfold extended_nodes
  rw [if_pos (by omega)]
  by_cases h : k < 499
  · rw [if_pos (by omega), table_at_natCast, table_at_natCast_succ]
    have := (atan_steps_ok k h).1
    have h' : atan_lookup_table.getD k 0 < atan_lookup_table.getD (k + 1) 0 := by omega
    exact_mod_cast h'
  · have hk' : k = 499 := by omega
    subst hk'
    rw [if_neg (by norm_num)]
    have e : table_at atan_lookup_table (499 - 1) = table_at atan_lookup_table 498 := by
      norm_num
    have h2 := atan_table_at_last.2
    rw [e] at h2
    push_cast
    rw [atan_table_at_last.1, h2]
    norm_num

/-- On `[0, 1)`, `atan` is the piecewise-linear interpolant through the extended nodes. -/
theorem atan_interp (x : ℚ) (h0 : 0 ≤ x) (h1 : x < 1) :
    atan x = (extended_nodes atan_lookup_table 499 ⌊500 * x⌋
      + (500 * x - ⌊500 * x⌋) * (extended_nodes atan_lookup_table 499 (⌊500 * x⌋ + 1)
          - extended_nodes atan_lookup_table 499 ⌊500 * x⌋)) / 10000 := by
  have hf0 : 0 ≤ ⌊500 * x⌋ := Int.floor_nonneg.mpr (by linarith)
  have hfN : ⌊500 * x⌋ < 500 := Int.floor_lt.mpr (by push_cast; linarith)
  rw [atan_table_eq x h0 h1.le, if_neg (by omega)]
  unfold extended_nodes
  by_cases h : ⌊500 * x⌋ < 499
  · rw [if_pos h, if_pos (by omega), if_pos (by omega)]
    ring
  · have e : ⌊500 * x⌋ = 499 := by omega
    rw [if_neg h, e, if_pos le_rfl, if_neg (by norm_num)]
    ring

/-- The arctangent approximation is strictly increasing on `[0, 1)`. -/
theorem atan_strictMono_unit (a b : ℚ) (ha : 0 ≤ a) (hab : a < b) (hb : b < 1) :
    atan a < atan b := by
  rw [atan_interp a ha (hab.trans hb), atan_interp b (ha.trans hab.le) hb]
  have := interp_strictMono (extended_nodes atan_lookup_table 499) 500 atan_nodes_increasing
    (500 * a) (500 * b) (by linarith) (by linarith) (by push_cast; linarith)
  linarith

/-- The value of `atan` at 1, the clamped last entry, and at 0.998, the last node. -/
theorem atan_one : atan 1 = 7844 / 10000 ∧ atan (998 / 1000) = 7844 / 10000 := by
  have e1 : (499 : ℤ) = ((499 : ℕ) : ℤ) := by norm_num
  have e2 : (499 : ℤ) - 1 = ((498 : ℕ) : ℤ) := by norm_num
  constructor
  · rw [atan_table_eq 1 (by norm_num) le_rfl]
    have hf : ⌊(500 : ℚ) * 1⌋ = 500 := by norm_num
    rw [hf, if_pos le_rfl, e1, table_at_natCast, atan_table_last.1]
    norm_num
  · rw [atan_table_eq _ (by norm_num) (by norm_num)]
    have hf : ⌊(500 : ℚ) * (998 / 1000)⌋ = 499 := by norm_num
    rw [hf, if_neg (by norm_num), if_neg (by norm_num), e2, e1, table_at_natCast,
      table_at_natCast, atan_table_last.1, atan_table_last.2]
    norm_num

/-- On `[0, 1)`, `0 ≤ atan t < 0.7854`, and `atan t` is positive for positive `t`. -/
theorem atan_unit_bounds (t : ℚ) (h0 : 0 ≤ t) (h1 : t < 1) :
    0 ≤ atan t ∧ atan t < 7854 / 10000 ∧ (0 < t → 0 < atan t) := by
  have hz := atan_zero
  refine ⟨?_, ?_, ?_⟩
  · rcases h0.eq_or_lt with h | h
    · rw [← h, hz]
    · have := atan_strictMono_unit 0 t le_rfl h h1
      linarith
  · rw [atan_interp t h0 h1]
    obtain ⟨_, b2, b3, b4⟩ := interp_bounds (extended_nodes atan_lookup_table 499) 500
      atan_nodes_increasing (500 * t) (by linarith) (by push_cast; linarith)
    have hm := nodes_mono (extended_nodes atan_lookup_table 499) 500 atan_nodes_increasing
      (⌊500 * t⌋ + 1) 500 (by omega) (by omega) le_rfl
    have e2 : (499 : ℤ) - 1 = ((498 : ℕ) : ℤ) := by norm_num
    have e1 : (499 : ℤ) = ((499 : ℕ) : ℤ) := by norm_num
    have htop : extended_nodes atan_lookup_table 499 500 = 7854 := by
      unfold extended_nodes
      rw [if_neg (by norm_num), e2, e1, table_at_natCast, table_at_natCast, atan_table_last.1,
        atan_table_last.2]
      norm_num
    rw [htop] at hm
    linarith
  · intro h
    have := atan_strictMono_unit 0 t le_rfl h h1
    linarith

/-- C21 (as stated, refuted): across the far edge `atan` decreases, `atan 0.999 = 0.7849` in the
extrapolated last slot while `atan 1 = 0.7844` is the clamped last entry. -/
theorem atan_not_monotone_at_one :
    (0 : ℚ) ≤ 999 / 1000 ∧ (999 / 1000 : ℚ) ≤ 1 ∧ (1 : ℚ) ≤ 1 ∧
    atan (999 / 1000) = 7849 / 10000 ∧ atan 1 = 7844 / 10000 ∧
    ¬ atan (999 / 1000) ≤ atan 1 := by
  have e1 : (499 : ℤ) = ((499 : ℕ) : ℤ) := by norm_num
  have e2 : (499 : ℤ) - 1 = ((498 : ℕ) : ℤ) := by norm_num
  have h999 : atan (999 / 1000) = 7849 / 10000 := by
    rw [atan_table_eq _ (by norm_num) (by norm_num)]
    have hf : ⌊(500 : ℚ) * (999 / 1000)⌋ = 499 := by
      rw [Int.floor_eq_iff]
      constructor <;> norm_num
    rw [hf, if_neg (by norm_num), if_neg (by norm_num), e2, e1, table_at_natCast,
      table_at_natCast, atan_table_last.1, atan_table_last.2]
    norm_num
  refine ⟨by norm_num, by norm_num, le_rfl, h999, atan_one.1, ?_⟩
  rw [h999, atan_one.1]
  norm_num

/-- C21 (amended): `atan` is non-decreasing on `[0, 1)`, the extrapolated last slot included,
and from `[0, 0.998]` to the clamped endpoint 1: for `0 ≤ a ≤ b ≤ 1` with `b < 1` or
`a ≤ 0.998`, `atan a ≤ atan b`. -/
theorem atan_monotone (a b : ℚ) (ha : 0 ≤ a) (hab : a ≤ b) (hb : b ≤ 1)
    (h : b < 1 ∨ a ≤ 998 / 1000) : atan a ≤ atan b := by
  rcases hab.eq_or_lt with e | hlt
  · rw [e]
  rcases hb.lt_or_eq with hb1 | hb1
  · exact (atan_strictMono_unit a b ha hlt hb1).le
  · rcases h with h | h
    · exact absurd hb1 h.ne
    · rw [hb1, atan_one.1, ← atan_one.2]
      rcases h.eq_or_lt with e | hl
      · rw [e]
      · exact (atan_strictMono_unit a (998 / 1000) ha hl (by norm_num)).le

/-- Witness of C21 (amended): inside the last slot, and from the last node to the endpoint. -/
theorem atan_monotone_witness :
    atan (9985 / 10000) ≤ atan (999 / 1000) ∧ atan (1 / 2) ≤ atan 1 :=
  ⟨atan_monotone (9985 / 10000) (999 / 1000) (by norm_num) (by norm_num) (by norm_num)
      (Or.inl (by norm_num)),
   atan_monotone (1 / 2) 1 (by norm_num) (by norm_num) le_rfl (Or.inr (by norm_num))⟩

/-! ### Range of `atan` and `atan2` -/

/-- On a non-negative argument, `0 ≤ atan x < M_PI / 2`, and `atan x` is positive for positive
`x`. -/
theorem atan_nonneg_range (x : ℚ) (h : 0 ≤ x) :
    0 ≤ atan x ∧ atan x < M_PI / 2 ∧ (0 < x → 0 < atan x) := by
  have hpi : (7854 : ℚ) / 10000 < M_PI / 2 := by norm_num [M_PI]
  rcases lt_trichotomy x 1 with h1 | h1 | h1
  · obtain ⟨a, b, c⟩ := atan_unit_bounds x h h1
    exact ⟨a, b.trans hpi, c⟩
  · rw [h1, atan_one.1]
    refine ⟨by norm_num, by norm_num [M_PI], fun _ => by norm_num⟩
  · have hp : 0 < 1 / x := by positivity
    have hl : 1 / x < 1 := by
      rw [div_lt_one (by linarith)]
      exact h1
    obtain ⟨_, b, c⟩ := atan_unit_bounds (1 / x) hp.le hl
    have c' := c hp
    rw [atan_of_gt_one x h1]
    refine ⟨by linarith, by linarith, fun _ => by linarith⟩

/-- The range of `atan`, with the sign of the result. -/
theorem atan_range (x : ℚ) :
    -(M_PI / 2) < atan x ∧ atan x < M_PI / 2 ∧
    (0 < x → 0 < atan x) ∧ (x < 0 → atan x < 0) ∧ (x ≤ 0 → atan x ≤ 0) ∧ (0 ≤ x → 0 ≤ atan x) := by
  have hpi : (0 : ℚ) < M_PI / 2 := by norm_num [M_PI]
  rcases lt_or_le x 0 with h | h
  · obtain ⟨a, b, c⟩ := atan_nonneg_range (-1 * x) (by linarith)
    have c' := c (by linarith)
    rw [atan_of_neg x h]
    refine ⟨by linarith, by linarith, fun h' => absurd h' (by linarith), fun _ => by linarith,
      fun _ => by linarith, fun h' => absurd h' (by linarith)⟩
  · obtain ⟨a, b, c⟩ := atan_nonneg_range x h
    refine ⟨by linarith, b, c, fun h' => absurd h' (by linarith), fun h' => ?_, fun _ => a⟩
    have e : x = 0 := le_antisymm h' h
    rw [e, atan_zero]

/-- C27 (as stated, refuted): measured against the real number `π`, the ranges fail.  The
program constant `M_PI` exceeds `π`, `atan2 0 (-1)` returns `M_PI`, which is above `π`, and
`atan (10^13) = M_PI / 2 - 10^-13` is above `π / 2`. -/
theorem angle_ranges_exceed_pi :
    Real.pi < ((M_PI : ℚ) : ℝ) ∧
    atan2 0 (-1) = M_PI ∧ ¬ ((atan2 0 (-1) : ℚ) : ℝ) ≤ Real.pi ∧
    atan (10 ^ 13) = M_PI / 2 - 1 / 10 ^ 13 ∧ ¬ ((atan (10 ^ 13) : ℚ) : ℝ) < Real.pi / 2 := by
  have hpi := Real.pi_lt_d20
  have h1 : Real.pi < ((M_PI : ℚ) : ℝ) := by
    norm_num [M_PI] at hpi ⊢
    linarith
  have h2 : atan2 0 (-1) = M_PI := by
    unfold atan2
    rw [if_neg (by norm_num)]
    simp only
    rw [if_pos (by norm_num), if_neg (by norm_num)]
    norm_num [atan_zero]
  have h3 : atan (10 ^ 13) = M_PI / 2 - 1 / 10 ^ 13 := by
    rw [atan_of_gt_one _ (by norm_num), atan_table_eq _ (by norm_num) (by norm_num)]
    have hf : ⌊(500 : ℚ) * (1 / 10 ^ 13)⌋ = 0 := by
      rw [Int.floor_eq_iff]
      constructor <;> norm_num
    have e0 : table_at atan_lookup_table 0 = 0 := by
      have e : atan_lookup_table.getD (Int.toNat 0) 0 = 0 := by decide
      unfold table_at
      rw [e]
      norm_num
    have e1 : table_at atan_lookup_table (0 + 1) = 20 := by
      have e : atan_lookup_table.getD (Int.toNat (0 + 1)) 0 = 20 := by decide
      unfold table_at
      rw [e]
      norm_num
    rw [hf, if_neg (by norm_num), if_pos (by norm_num), e0, e1]
    norm_num
  refine ⟨h1, h2, ?_, h3, ?_⟩
  · rw [h2]
    exact not_le.mpr h1
  · rw [h3]
    norm_num [M_PI] at hpi ⊢
    linarith

/-- C27 (amended): with the program constant `M_PI = 3.14159265359` in place of `π` (it
exceeds `π` by less than `10^-12`), `-M_PI/2 < atan x < M_PI/2` and `-M_PI < atan2 y x ≤ M_PI`
for all arguments, and `atan2 y x` lies in the quadrant given by the signs of `x` and `y`: in
`(-M_PI/2, M_PI/2)` for `x > 0`, in `(M_PI/2, M_PI]` for `x < 0 ≤ y`, in `(-M_PI, -M_PI/2)` for
`x < 0` and `y < 0`; it is non-negative for `y ≥ 0` and negative for `y < 0`. -/
theorem angle_ranges (y x : ℚ) :
    (-(M_PI / 2) < atan x ∧ atan x < M_PI / 2) ∧
    (-M_PI < atan2 y x ∧ atan2 y x ≤ M_PI) ∧
    (0 < x → -(M_PI / 2) < atan2 y x ∧ atan2 y x < M_PI / 2) ∧
    (x < 0 → 0 ≤ y → M_PI / 2 < atan2 y x ∧ atan2 y x ≤ M_PI) ∧
    (x < 0 → y < 0 → -M_PI < atan2 y x ∧ atan2 y x < -(M_PI / 2)) ∧
    ((0 ≤ y → 0 ≤ atan2 y x) ∧ (y < 0 → atan2 y x < 0)) ∧
    |((M_PI : ℚ) : ℝ) - Real.pi| < 1 / 10 ^ 12 := by
  have hpi : (0 : ℚ) < M_PI := by norm_num [M_PI]
  obtain ⟨r1, r2, -⟩ := atan_range x
  obtain ⟨q1, q2, q3, q4, q5, q6⟩ := atan_range (y / x)
  refine ⟨⟨r1, r2⟩, ?_⟩
  suffices hmain : (-M_PI < atan2 y x ∧ atan2 y x ≤ M_PI) ∧
      (0 < x → -(M_PI / 2) < atan2 y x ∧ atan2 y x < M_PI / 2) ∧
      (x < 0 → 0 ≤ y → M_PI / 2 < atan2 y x ∧ atan2 y x ≤ M_PI) ∧
      (x < 0 → y < 0 → -M_PI < atan2 y x ∧ atan2 y x < -(M_PI / 2)) ∧
      (0 ≤ y → 0 ≤ atan2 y x) ∧ (y < 0 → atan2 y x < 0) by
    obtain ⟨a, b, c, d, e, f⟩ := hmain
    exact ⟨a, b, c, d, ⟨e, f⟩, M_PI_approx⟩
  rcases lt_trichotomy x 0 with hx | hx | hx
  · -- left half-plane
    have hne : x ≠ 0 := hx.ne
    rcases lt_or_le y 0 with hy | hy
    · have hq : 0 < y / x := div_pos_of_neg_of_neg hy hx
      have e : atan2 y x = atan (y / x) - M_PI := by
        unfold atan2
        rw [if_neg hne]
        simp only
        rw [if_pos hx, if_pos hy]
      have := q3 hq
      rw [e]
      refine ⟨⟨by linarith, by linarith⟩, fun h => absurd h (by linarith),
        fun _ h => absurd h (by linarith), fun _ _ => ⟨by linarith, by linarith⟩,
        fun h => absurd h (by linarith), fun _ => by linarith⟩
    · have hq : y / x ≤ 0 := div_nonpos_of_nonneg_of_nonpos hy hx.le
      have e : atan2 y x = atan (y / x) + M_PI := by
        unfold atan2
        rw [if_neg hne]
        simp only
        rw [if_pos hx, if_neg (not_lt.mpr hy)]
      have := q5 hq
      rw [e]
      refine ⟨⟨by linarith, by linarith⟩, fun h => absurd h (by linarith),
        fun _ _ => ⟨by linarith, by linarith⟩, fun _ h => absurd h (by linarith),
        fun _ => by linarith, fun h => absurd h (by linarith)⟩
  · -- the axis `x = 0`
    have e : atan2 y x = if y < 0 then - M_PI / 2 else if y > 0 then M_PI / 2 else 0 := by
      unfold atan2
      rw [if_pos hx]
    rw [e]
    rcases lt_trichotomy y 0 with hy | hy | hy
    · rw [if_pos hy]
      refine ⟨⟨by linarith, by linarith⟩, fun h => absurd h (by linarith),
        fun h => absurd h (by linarith), fun h => absurd h (by linarith),
        fun h => absurd h (by linarith), fun _ => by linarith⟩
    · rw [if_neg (by linarith), if_neg (by linarith)]
      refine ⟨⟨by linarith, by linarith⟩, fun h => absurd h (by linarith),
        fun h => absurd h (by linarith), fun h => absurd h (by linarith),
        fun _ => le_rfl, fun h => absurd h (by linarith)⟩
    · rw [if_neg (by linarith), if_pos hy]
      refine ⟨⟨by linarith, by linarith⟩, fun h => absurd h (by linarith),
        fun h => absurd h (by linarith), fun h => absurd h (by linarith),
        fun _ => by linarith, fun h => absurd h (by linarith)⟩
  · -- right half-plane
    have hne : x ≠ 0 := hx.ne'
    have e : atan2 y x = atan (y / x) := by
      unfold atan2
      rw [if_neg hne]
      simp only
      rw [if_neg (by linarith)]
    rw [e]
    refine ⟨⟨by linarith, by linarith⟩, fun _ => ⟨q1, q2⟩, fun h => absurd h (by linarith),
      fun h => absurd h (by linarith), fun hy => q6 (div_nonneg hy hx.le),
      fun hy => q4 (div_neg_of_neg_of_pos hy hx)⟩

/-- Witness of C27 (amended) at `y = 1`, `x = -1`: the second quadrant. -/
theorem angle_ranges_witness :
    M_PI / 2 < atan2 1 (-1) ∧ atan2 1 (-1) ≤ M_PI :=
  (angle_ranges 1 (-1)).2.2.2.1 (by norm_num) (by norm_num)

/-! ### The altitude table: boundaries and monotonicity -/

/-- The table branch of `alt`, with the constants written out. -/
theorem alt_table_eq (p : ℚ) (h0 : 69681 < p) (h1 : p < 106598) :
    alt p =
      if ⌊500 * (p - 69681) / 36917⌋ < 499 then
        table_at alt_lookup_table ⌊500 * (p - 69681) / 36917⌋ / 10
          + (500 * (p - 69681) / 36917 - (⌊500 * (p - 69681) / 36917⌋ : ℚ))
            * (table_at alt_lookup_table (⌊500 * (p - 69681) / 36917⌋ + 1)
                - table_at alt_lookup_table ⌊500 * (p - 69681) / 36917⌋) / 10
      else
        table_at alt_lookup_table ⌊500 * (p - 69681) / 36917⌋ / 10
          + (500 * (p - 69681) / 36917 - (⌊500 * (p - 69681) / 36917⌋ : ℚ))
            * (table_at alt_lookup_table ⌊500 * (p - 69681) / 36917⌋
                - table_at alt_lookup_table (⌊500 * (p - 69681) / 36917⌋ - 1)) / 10 := by
  have ht : (num_entries : ℚ) * (p - (min_pressure : ℚ))
      / ((max_pressure - min_pressure : Int) : ℚ) = 500 * (p - 69681) / 36917 := by
    norm_num [num_entries, min_pressure, max_pressure]
  have hc : int16_cast (500 * (p - 69681) / 36917) = ⌊500 * (p - 69681) / 36917⌋ := by
    unfold int16_cast
    rw [if_pos (by apply div_nonneg <;> linarith)]
  unfold alt
  rw [if_pos ⟨by norm_num [max_pressure]; linarith, by norm_num [min_pressure]; linarith⟩]
  simp only [ht, hc]
  simp only [num_entries]
  norm_num

/-- What `table_decreasing` establishes, entry by entry. -/
theorem table_decreasing_sound : ∀ l : List Int, table_decreasing l = true →
    ∀ n, n + 1 < l.length → l.getD (n + 1) 0 < l.getD n 0 := by
  intro l
  induction l with
  | nil => intro _ n hn; simp at hn
  | cons a l ih =>
    cases l with
    | nil => intro _ n hn; simp at hn
    | cons b l =>
      intro h n hn
      simp only [table_decreasing, Bool.and_eq_true, decide_eq_true_eq] at h
      cases n with
      | zero => simpa using h.1
      | succ n =>
        have := ih h.2 n (by simpa using hn)
        simpa using this

set_option maxRecDepth 100000 in
/-- The altitude table is strictly decreasing. -/
theorem alt_table_decreasing : table_decreasing alt_lookup_table = true := by
  decide!

set_option maxRecDepth 100000 in
/-- The altitude table has 500 entries; its first two and last two entries. -/
theorem alt_table_ends :
    alt_lookup_table.length = 500 ∧
    alt_lookup_table.getD 0 0 = 30467 ∧ alt_lookup_table.getD 1 0 = 30384 ∧
    alt_lookup_table.getD 498 0 = -4180 ∧ alt_lookup_table.getD 499 0 = -4239 := by
  decide!

/-- The first two and last two entries of the altitude table, as `table_at` reads them. -/
theorem alt_table_at_ends :
    table_at alt_lookup_table 0 = 30467 ∧ table_at alt_lookup_table 1 = 30384 ∧
    table_at alt_lookup_table 498 = -4180 ∧ table_at alt_lookup_table 499 = -4239 := by
  have e0 : (0 : ℤ) = ((0 : ℕ) : ℤ) := by norm_num
  have e1 : (1 : ℤ) = ((1 : ℕ) : ℤ) := by norm_num
  have e2 : (498 : ℤ) = ((498 : ℕ) : ℤ) := by norm_num
  have e3 : (499 : ℤ) = ((499 : ℕ) : ℤ) := by norm_num
  obtain ⟨_, a, b, c, d⟩ := alt_table_ends
  refine ⟨?_, ?_, ?_, ?_⟩
  · rw [e0, table_at_natCast, a]
    norm_num
  · rw [e1, table_at_natCast, b]
    norm_num
  · rw [e2, table_at_natCast, c]
    norm_num
  · rw [e3, table_at_natCast, d]
    norm_num

/-- The negated nodes of the altitude table, continued past the last entry, increase. -/
theorem alt_nodes_increasing (n : ℤ) (h0 : 0 ≤ n) (hn : n < 500) :
    -extended_nodes alt_lookup_table 499 n < -extended_nodes alt_lookup_table 499 (n + 1) := by
  obtain ⟨k, rfl⟩ := Int.eq_ofNat_of_zero_le h0
  have hk : k < 500 := by omega
  unfold extended_nodes
  rw [if_pos (by omega)]
  by_cases h : k < 499
  · rw [if_pos (by omega), table_at_natCast, table_at_natCast_succ]
    have h' := table_decreasing_sound alt_lookup_table alt_table_decreasing k
      (by rw [alt_table_ends.1]; omega)
    have h'' : ((alt_lookup_table.getD (k + 1) 0 : ℤ) : ℚ) < ((alt_lookup_table.getD k 0 : ℤ) : ℚ) := by
      exact_mod_cast h'
    linarith
  · have hk' : k = 499 := by omega
    subst hk'
    rw [if_neg (by norm_num)]
    push_cast
    rw [alt_table_at_ends.2.2.1, alt_table_at_ends.2.2.2]
    norm_num

/-- Inside the pressure range, `alt` is the piecewise-linear interpolant through the extended
nodes. -/
theorem alt_interp (p : ℚ) (h0 : 69681 < p) (h1 : p < 106598) :
    alt p = -((-extended_nodes alt_lookup_table 499 ⌊500 * (p - 69681) / 36917⌋)
      + (500 * (p - 69681) / 36917 - ⌊500 * (p - 69681) / 36917⌋)
        * ((-extended_nodes alt_lookup_table 499 (⌊500 * (p - 69681) / 36917⌋ + 1))
          - (-extended_nodes alt_lookup_table 499 ⌊500 * (p - 69681) / 36917⌋))) / 10 := by
  have ht0 : (0 : ℚ) ≤ 500 * (p - 69681) / 36917 := by apply div_nonneg <;> linarith
  have htN : 500 * (p - 69681) / 36917 < 500 := by
    rw [div_lt_iff₀ (by norm_num)]
    linarith
  have hf0 : 0 ≤ ⌊500 * (p - 69681) / 36917⌋ := Int.floor_nonneg.mpr ht0
  have hfN : ⌊500 * (p - 69681) / 36917⌋ < 500 := Int.floor_lt.mpr (by push_cast; exact htN)
  rw [alt_table_eq p h0 h1]
  unfold extended_nodes
  by_cases h : ⌊500 * (p - 69681) / 36917⌋ < 499
  · rw [if_pos h, if_pos (by omega), if_pos (by omega)]
    ring
  · have e : ⌊500 * (p - 69681) / 36917⌋ = 499 := by omega
    rw [if_neg h, e, if_pos le_rfl, if_neg (by norm_num)]
    ring

/-- C26: inside the supported range `alt` is strictly decreasing in pressure. -/
theorem alt_strictly_decreasing (p1 p2 : ℚ) (h1 : 69681 < p1) (h12 : p1 < p2)
    (h2 : p2 < 106598) : alt p2 < alt p1 := by
  rw [alt_interp p1 h1 (h12.trans h2), alt_interp p2 (h1.trans h12) h2]
  have ht0 : (0 : ℚ) ≤ 500 * (p1 - 69681) / 36917 := by apply div_nonneg <;> linarith
  have htN : 500 * (p2 - 69681) / 36917 < ((500 : ℤ) : ℚ) := by
    rw [div_lt_iff₀ (by norm_num)]
    push_cast
    linarith
  have hlt : 500 * (p1 - 69681) / 36917 < 500 * (p2 - 69681) / 36917 := by
    apply div_lt_div_of_pos_right _ (by norm_num)
    linarith
  have := interp_strictMono (fun n => -extended_nodes alt_lookup_table 499 n) 500
    alt_nodes_increasing _ _ ht0 hlt htN
  simp only at this
  linarith

/-- Witness of C26 at the pressures 100000 and 101325. -/
theorem alt_strictly_decreasing_witness : alt 101325 < alt 100000 :=
  alt_strictly_decreasing 100000 101325 (by norm_num) (by norm_num) (by norm_num)

/-- C25: the range check of `alt` is strict, `alt 69681 = 0` and `alt 106598 = 0`, while just
inside the range the value starts from the table's end values: for `0 < ε ≤ 1`,
`alt (69681 + ε) = 3046.7 - 8.3 (500 ε / 36917)` and
`alt (106598 - ε) = -429.8 + 5.9 (500 ε / 36917)`. -/
theorem alt_boundaries (ε : ℚ) (h0 : 0 < ε) (h1 : ε ≤ 1) :
    alt 69681 = 0 ∧ alt 106598 = 0 ∧
    alt (69681 + ε) = 30467 / 10 - 83 / 10 * (500 * ε / 36917) ∧
    alt (106598 - ε) = -4298 / 10 + 59 / 10 * (500 * ε / 36917) ∧
    |alt (69681 + ε) - 30467 / 10| ≤ 2 / 10 ∧ |alt (106598 - ε) - (-4298 / 10)| ≤ 1 / 10 := by
  have hlo : alt 69681 = 0 := by
    unfold alt
    rw [if_neg]
    rintro ⟨_, h⟩
    norm_num [min_pressure] at h
  have hhi : alt 106598 = 0 := by
    unfold alt
    rw [if_neg]
    rintro ⟨h, _⟩
    norm_num [max_pressure] at h
  have ha : alt (69681 + ε) = 30467 / 10 - 83 / 10 * (500 * ε / 36917) := by
    rw [alt_table_eq _ (by linarith) (by linarith)]
    have hf : ⌊500 * (69681 + ε - 69681) / 36917⌋ = 0 := by
      rw [Int.floor_eq_iff]
      constructor
      · push_cast
        apply div_nonneg <;> linarith
      · rw [div_lt_iff₀ (by norm_num)]
        push_cast
        linarith
    rw [hf, if_pos (by norm_num)]
    have e : table_at alt_lookup_table (0 + 1) = table_at alt_lookup_table 1 := by norm_num
    rw [e, alt_table_at_ends.1, alt_table_at_ends.2.1]
    push_cast
    ring
  have hb : alt (106598 - ε) = -4298 / 10 + 59 / 10 * (500 * ε / 36917) := by
    rw [alt_table_eq _ (by linarith) (by linarith)]
    have hf : ⌊500 * (106598 - ε - 69681) / 36917⌋ = 499 := by
      rw [Int.floor_eq_iff]
      constructor
      · rw [le_div_iff₀ (by norm_num)]
        push_cast
        linarith
      · rw [div_lt_iff₀ (by norm_num)]
        push_cast
        linarith
    rw [hf, if_neg (by norm_num)]
    have e : table_at alt_lookup_table (499 - 1) = table_at alt_lookup_table 498 := by norm_num
    rw [e, alt_table_at_ends.2.2.1, alt_table_at_ends.2.2.2]
    push_cast
    ring
  have hε : 0 < 500 * ε / 36917 := by positivity
  have hε' : 500 * ε / 36917 ≤ 500 / 36917 := by
    apply div_le_div_of_nonneg_right _ (by norm_num)
    linarith
  refine ⟨hlo, hhi, ha, hb, ?_, ?_⟩
  · rw [ha, abs_le]
    constructor <;> norm_num at hε' ⊢ <;> linarith
  · rw [hb, abs_le]
    constructor <;> norm_num at hε' ⊢ <;> linarith

/-- Witness of C25 at `ε = 1/100`. -/
theorem alt_boundaries_witness :
    alt (69681 + 1 / 100) = 30467 / 10 - 83 / 10 * (500 * (1 / 100) / 36917) ∧
    alt (106598 - 1 / 100) = -4298 / 10 + 59 / 10 * (500 * (1 / 100) / 36917) :=
  ⟨(alt_boundaries (1 / 100) (by norm_num) (by norm_num)).2.2.1,
   (alt_boundaries (1 / 100) (by norm_num) (by norm_num)).2.2.2.1⟩

/-! ### Table accesses stay in bounds -/

/-- The lookup of `atan` on a non-negative argument reads entries `0..499` only. -/
theorem atan_table_reads_bounds (x : ℚ) (h0 : 0 ≤ x) :
    ∀ i ∈ atan_table_reads x, 0 ≤ i ∧ i < 500 := by
  have ht : (x - atan_min_x) / (atan_max_x - atan_min_x) * ((atan_num_entries : ℤ) : ℚ)
      = 500 * x := by
    simp only [atan_min_x, atan_max_x, atan_num_entries]
    push_cast
    ring
  have hc : int16_cast (500 * x) = ⌊500 * x⌋ := by
    unfold int16_cast
    rw [if_pos (by positivity)]
  have hf0 : 0 ≤ ⌊500 * x⌋ := Int.floor_nonneg.mpr (by positivity)
  unfold atan_table_reads
  simp only [ht, hc]
  simp only [atan_num_entries]
  intro i hi
  split_ifs at hi with ha hb
  · simp only [List.mem_singleton] at hi
    omega
  · simp only [List.mem_cons, List.mem_singleton, List.not_mem_nil, or_false] at hi
    omega
  · simp only [List.mem_cons, List.mem_singleton, List.not_mem_nil, or_false] at hi
    omega

/-- The lookup of `asin` on a non-negative argument reads entries `0..500` only. -/
theorem asin_table_reads_bounds (x : ℚ) (h0 : 0 ≤ x) :
    ∀ i ∈ asin_table_reads x, 0 ≤ i ∧ i < 501 := by
  have ht : (x - asin_min_x) / (asin_max_x - asin_min_x) * ((asin_num_entries : ℤ) : ℚ)
      = 500 * x := by
    simp only [asin_min_x, asin_max_x, asin_num_entries]
    push_cast
    ring
  have hc : int16_cast (500 * x) = ⌊500 * x⌋ := by
    unfold int16_cast
    rw [if_pos (by positivity)]
  have hf0 : 0 ≤ ⌊500 * x⌋ := Int.floor_nonneg.mpr (by positivity)
  unfold asin_table_reads
  simp only [ht, hc]
  simp only [asin_num_entries]
  intro i hi
  split_ifs at hi with ha hb
  · simp only [List.mem_singleton] at hi
    omega
  · simp only [List.mem_cons, List.mem_singleton, List.not_mem_nil, or_false] at hi
    omega
  · simp only [List.mem_cons, List.mem_singleton, List.not_mem_nil, or_false] at hi
    omega

/-- With three activations available, `atan` reads entries `0..499` only. -/
theorem atan_reads_bounds (x : ℚ) :
    ∃ l, atan_reads 3 x = some l ∧ ∀ i ∈ l, 0 ≤ i ∧ i < 500 := by
  have key : ∀ (n : ℕ) (z : ℚ), 0 ≤ z →
      ∃ l, atan_reads (n + 2) z = some l ∧ ∀ i ∈ l, 0 ≤ i ∧ i < 500 := by
    intro n z hz
    rcases le_or_lt z 1 with h1 | h1
    · refine ⟨atan_table_reads z, ?_, atan_table_reads_bounds z hz⟩
      rw [atan_reads, if_neg (not_lt.mpr hz), if_neg (not_lt.mpr h1)]
    · have hp : 0 < 1 / z := by positivity
      have hl : 1 / z ≤ 1 := by
        rw [div_le_one (by linarith)]
        exact h1.le
      refine ⟨atan_table_reads (1 / z), ?_, atan_table_reads_bounds (1 / z) hp.le⟩
      rw [atan_reads, if_neg (not_lt.mpr hz), if_pos h1, atan_reads,
        if_neg (not_lt.mpr hp.le), if_neg (not_lt.mpr hl)]
  rcases lt_or_le x 0 with h | h
  · obtain ⟨l, e, hl⟩ := key 0 (-1 * x) (by linarith)
    refine ⟨l, ?_, hl⟩
    rw [atan_reads, if_pos h]
    exact e
  · exact key 1 x h

/-- With two activations available, `asin` reads entries `0..500` only. -/
theorem asin_reads_bounds (x : ℚ) :
    ∃ l, asin_reads 2 x = some l ∧ ∀ i ∈ l, 0 ≤ i ∧ i < 501 := by
  rcases lt_or_le x 0 with h | h
  · refine ⟨asin_table_reads (-1 * x), ?_, asin_table_reads_bounds (-1 * x) (by linarith)⟩
    have h2 : ¬ (-1 * x < 0) := by linarith
    rw [asin_reads, if_pos h, asin_reads, if_neg h2]
  · refine ⟨asin_table_reads x, ?_, asin_table_reads_bounds x h⟩
    rw [asin_reads, if_neg (not_lt.mpr h)]

/-- The lookup of `alt` reads entries `0..499` only. -/
theorem alt_reads_bounds (press : ℚ) : ∀ i ∈ alt_reads press, 0 ≤ i ∧ i < 500 := by
  unfold alt_reads
  intro i hi
  split_ifs at hi with hr
  · obtain ⟨h1, h0⟩ := hr
    norm_num [max_pressure] at h1
    norm_num [min_pressure] at h0
    have ht : (num_entries : ℚ) * (press - (min_pressure : ℚ))
        / ((max_pressure - min_pressure : Int) : ℚ) = 500 * (press - 69681) / 36917 := by
      norm_num [num_entries, min_pressure, max_pressure]
    have ht0 : (0 : ℚ) ≤ 500 * (press - 69681) / 36917 := by apply div_nonneg <;> linarith
    have htN : 500 * (press - 69681) / 36917 < 500 := by
      rw [div_lt_iff₀ (by norm_num)]
      linarith
    have hc : int16_cast (500 * (press - 69681) / 36917) = ⌊500 * (press - 69681) / 36917⌋ := by
      unfold int16_cast
      rw [if_pos ht0]
    have hf0 : 0 ≤ ⌊500 * (press - 69681) / 36917⌋ := Int.floor_nonneg.mpr ht0
    have hfN : ⌊500 * (press - 69681) / 36917⌋ < 500 :=
      Int.floor_lt.mpr (by push_cast; exact htN)
    simp only [ht, hc] at hi
    simp only [num_entries] at hi
    split_ifs at hi with hb
    · simp only [List.mem_cons, List.mem_singleton, List.not_mem_nil, or_false] at hi
      omega
    · simp only [List.mem_cons, List.mem_singleton, List.not_mem_nil, or_false] at hi
      omega
  · simp at hi

/-- C22: every table access is in bounds.  The tables have 500, 501 and 500 entries; `atan`
reads `atan_lookup_table[0..499]` on every argument, `asin` reads `asin_lookup_table[0..500]`
and, for `|a| ≤ 65`, its scaled position fits the 16-bit index; `alt` reads
`alt_lookup_table[0..499]` on every pressure. -/
theorem table_reads_in_bounds (x a press : ℚ) (ha : |a| ≤ 65) :
    atan_lookup_table.length = 500 ∧ asin_lookup_table.length = 501 ∧
    alt_lookup_table.length = 500 ∧
    (∃ l, atan_reads 3 x = some l ∧ ∀ i ∈ l, 0 ≤ i ∧ i < 500) ∧
    (∃ l, asin_reads 2 a = some l ∧ ∀ i ∈ l, 0 ≤ i ∧ i < 501) ∧
    (0 ≤ int16_cast ((|a| - asin_min_x) / (asin_max_x - asin_min_x) * (asin_num_entries : ℚ)) ∧
      int16_cast ((|a| - asin_min_x) / (asin_max_x - asin_min_x) * (asin_num_entries : ℚ))
        ≤ 32767) ∧
    (∀ i ∈ alt_reads press, 0 ≤ i ∧ i < 500) := by
  refine ⟨atan_table_length, asin_table_length, alt_table_ends.1, atan_reads_bounds x,
    asin_reads_bounds a, ?_, alt_reads_bounds press⟩
  have ht : (|a| - asin_min_x) / (asin_max_x - asin_min_x) * ((asin_num_entries : ℤ) : ℚ)
      = 500 * |a| := by
    simp only [asin_min_x, asin_max_x, asin_num_entries]
    push_cast
    ring
  have hc : int16_cast (500 * |a|) = ⌊500 * |a|⌋ := by
    unfold int16_cast
    rw [if_pos (by positivity)]
  rw [ht, hc]
  have h0 : 0 ≤ ⌊500 * |a|⌋ := Int.floor_nonneg.mpr (by positivity)
  have h1 : ⌊500 * |a|⌋ < 32767 + 1 := by
    apply Int.floor_lt.mpr
    push_cast
    linarith
  exact ⟨h0, by omega⟩

/-- Witness of C22 at `x = -7`, `a = -3/2` and the sea-level pressure. -/
theorem table_reads_in_bounds_witness :
    (∃ l, atan_reads 3 (-7) = some l ∧ ∀ i ∈ l, 0 ≤ i ∧ i < 500) ∧
    (∃ l, asin_reads 2 (-3 / 2) = some l ∧ ∀ i ∈ l, 0 ≤ i ∧ i < 501) ∧
    (∀ i ∈ alt_reads 101325, 0 ≤ i ∧ i < 500) :=
  ⟨(table_reads_in_bounds (-7) (-3 / 2) 101325 (by norm_num [abs_le])).2.2.2.1,
   (table_reads_in_bounds (-7) (-3 / 2) 101325 (by norm_num [abs_le])).2.2.2.2.1,
   (table_reads_in_bounds (-7) (-3 / 2) 101325 (by norm_num [abs_le])).2.2.2.2.2.2⟩

/-! ### Rotation by unit quaternions -/

/-- C23: for unit quaternions `p`, `q` and every vector `v`,
`(p * q).rotate v = p.rotate (q.rotate v)`. -/
theorem rotate_mul {α : Type} [LinearOrderedField α] (p q : quaternion α) (v : vector α)
    (hp : p.w * p.w + p.x * p.x + p.y * p.y + p.z * p.z = 1)
    (hq : q.w * q.w + q.x * q.x + q.y * q.y + q.z * q.z = 1) :
    (p.mul q).rotate v = p.rotate (q.rotate v) := by
  obtain ⟨pw, px, py, pz⟩ := p
  obtain ⟨qw, qx, qy, qz⟩ := q
  obtain ⟨v1, v2, v3⟩ := v
  simp only at hp hq
  simp only [quaternion.mul, quaternion.rotate, vector.mk.injEq]
  refine ⟨?_, ?_, ?_⟩
  · linear_combination
      (((qw*qw+qx*qx-qy*qy-qz*qz)*v1 + (2*(qx*qy+qw*qz))*v2 + (2*(qx*qz-qw*qy))*v3) - (2*(qw*qw+qx*qx+qy*qy+qz*qz) - 1)*v1) * hp
      + (((pw*pw+px*px-py*py-pz*pz)*v1 + (2*(px*py+pw*pz))*v2 + (2*(px*pz-pw*py))*v3) - v1) * hq
  · linear_combination
      (((2*(qx*qy-qw*qz))*v1 + (qw*qw-qx*qx+qy*qy-qz*qz)*v2 + (2*(qy*qz+qw*qx))*v3) - (2*(qw*qw+qx*qx+qy*qy+qz*qz) - 1)*v2) * hp
      + (((2*(px*py-pw*pz))*v1 + (pw*pw-px*px+py*py-pz*pz)*v2 + (2*(py*pz+pw*px))*v3) - v2) * hq
  · linear_combination
      (((2*(qx*qz+qw*qy))*v1 + (2*(qy*qz-qw*qx))*v2 + (qw*qw-qx*qx-qy*qy+qz*qz)*v3) - (2*(qw*qw+qx*qx+qy*qy+qz*qz) - 1)*v3) * hp
      + (((2*(px*pz+pw*py))*v1 + (2*(py*pz-pw*px))*v2 + (pw*pw-px*px-py*py+pz*pz)*v3) - v3) * hq

/-- Witness of C23 at `p = (3/5, 4/5, 0, 0)`, `q = (0, 0, 1, 0)` and `v = (1, 2, 3)`. -/
theorem rotate_mul_witness :
    ((⟨3 / 5, 4 / 5, 0, 0⟩ : quaternion ℚ).mul ⟨0, 0, 1, 0⟩).rotate ⟨1, 2, 3⟩
      = (⟨3 / 5, 4 / 5, 0, 0⟩ : quaternion ℚ).rotate
          ((⟨0, 0, 1, 0⟩ : quaternion ℚ).rotate ⟨1, 2, 3⟩) :=
  rotate_mul ⟨3 / 5, 4 / 5, 0, 0⟩ ⟨0, 0, 1, 0⟩ ⟨1, 2, 3⟩ (by norm_num) (by norm_num)

/-- C24: for a unit quaternion `q` and every vector `v`, rotating by `q` and then by
`q.inverse` returns `v`, and `q.rotate v` has the squared norm of `v`. -/
theorem rotate_round_trip {α : Type} [LinearOrderedField α] (q : quaternion α) (v : vector α)
    (hq : q.w * q.w + q.x * q.x + q.y * q.y + q.z * q.z = 1) :
    q.inverse.rotate (q.rotate v) = v ∧ (q.rotate v).sqrd_norm = v.sqrd_norm := by
  obtain ⟨qw, qx, qy, qz⟩ := q
  obtain ⟨v1, v2, v3⟩ := v
  simp only at hq
  constructor
  · simp only [quaternion.inverse, quaternion.rotate, vector.mk.injEq]
    refine ⟨?_, ?_, ?_⟩
    · linear_combination (4*(qy*qy+qz*qz)*v1 - 4*qx*qy*v2 - 4*qx*qz*v3) * hq
    · linear_combination (4*(qx*qx+qz*qz)*v2 - 4*qx*qy*v1 - 4*qy*qz*v3) * hq
    · linear_combination (4*(qx*qx+qy*qy)*v3 - 4*qx*qz*v1 - 4*qy*qz*v2) * hq
  · simp only [quaternion.rotate, vector.sqrd_norm]
    linear_combination
      (4*(qy*qy+qz*qz)*v1*v1 + 4*(qx*qx+qz*qz)*v2*v2 + 4*(qx*qx+qy*qy)*v3*v3
        - 8*qx*qy*v1*v2 - 8*qx*qz*v1*v3 - 8*qy*qz*v2*v3) * hq

/-- Witness of C24 at `q = (3/5, 0, 4/5, 0)` and `v = (1, 2, 3)`. -/
theorem rotate_round_trip_witness :
    (⟨3 / 5, 0, 4 / 5, 0⟩ : quaternion ℚ).inverse.rotate
        ((⟨3 / 5, 0, 4 / 5, 0⟩ : quaternion ℚ).rotate ⟨1, 2, 3⟩) = ⟨1, 2, 3⟩ ∧
    ((⟨3 / 5, 0, 4 / 5, 0⟩ : quaternion ℚ).rotate ⟨1, 2, 3⟩).sqrd_norm
      = (⟨1, 2, 3⟩ : vector ℚ).sqrd_norm :=
  rotate_round_trip ⟨3 / 5, 0, 4 / 5, 0⟩ ⟨1, 2, 3⟩ (by norm_num)

end turbomath
